import Mathlib

/-!
# aslam_optimizer: the Rprop optimizer, the optimizer base classes, design variables, error terms,
differentials and quaternions

A shallow embedding of

* `OptimizerRpropOptions`, `RpropReturnValue` and `OptimizerRprop`
  (`aslam_backend/src/OptimizerRprop.cpp`),
* `OptimizerOptionsBase` and `OptimizerStatus` (`aslam_backend/src/OptimizerBase.cpp`),
* the design variables `MappedEuclideanPoint` and `MatrixTransformation`
  (`aslam_backend_expressions/src`),
* `ErrorTerm` (`aslam_backend/include/aslam/backend/ErrorTerm.hpp`),
* the differentials of `aslam_backend_expressions/include/aslam/backend/Differential.hpp`,
* `EigenQuaternionCalculator` and the nodes of the product, the inverse, the conjugate and the
  rotation of
  `aslam_backend_expressions/include/aslam/backend/implementation/QuaternionExpression.hpp`,
* the nodes of `sin` and `cos` (`aslam_backend_expressions/src/ScalarExpression.cpp`).

Conventions of the embedding.

* A C++ `double` is an exact rational. Rounding, infinities and NaN are not modelled, with two
  exceptions: a field that the code sets to NaN is an `Option` whose `none` is the NaN; and the
  words that `MatrixTransformation::updateImplementation` reads through `dp`, some of which can
  lie behind the update vector, and the entries of the matrices of a `MatrixTransformation` are
  an `Option` whose `none` is a value that is not finite.
* An Eigen vector is a `List ℚ`; `v(d)` is `coeff v d`, the assignment `v(d) = a` is `setCoeff v d a`.
* `gradient.norm()` is the square root of a rational. It is kept through its square (`Norm`), and
  the comparison `norm < c` is `Norm.lt`; `Norm.lt_iff_sqrt` relates it to the real square root.
* `ProblemManager`, the base class of the optimizer, is not part of the sources at hand. The
  operations the optimizer calls on it are taken as parameters (`ProblemManager X`, where `X` is the
  type of the values of the design variables).
* The loop of `optimize` may run without bound (`maxIterations == -1`), so it takes fuel; a fault is
  reported through `Except`.
* Timers and log statements have no effect on the state and are left out, and so is the debug
  assertion `gradient.allFinite()`, which cannot fail on rationals.
* `initialize` is a reserved word of Lean: `OptimizerRprop::initialize` is `OptimizerRprop.init`.
* A fixed-size `Eigen::Vector3d` is a function on `Fin 3`, an `Eigen::Matrix3d` and the matrices
  of dynamic size of the error terms are matrices of Mathlib over `Fin`.
* The error terms take their scalars from an arbitrary field, the function `sqrt` being a
  parameter; a call through a null shared pointer has no result (`none`).
* The differentials and the quaternions take their scalars (`TScalar`) from an arbitrary field;
  a quaternion is a vector of four coefficients, read through the index layout of its mode.
-/

namespace aslam.backend

/-! ## Vectors -/

/-- Coefficient access `v(d)`. -/
def coeff (v : List ℚ) (d : Nat) : ℚ := v.getD d 0

/-- Coefficient assignment `v(d) = a`. -/
def setCoeff (v : List ℚ) (d : Nat) (a : ℚ) : List ℚ := v.set d a

/-- Eigen `Constant(n, a)`: the vector of size `n` whose coefficients are all `a`. -/
def Constant (n : Nat) (a : ℚ) : List ℚ := List.replicate n a

/-- Eigen `a.cwiseProduct(b)`. -/
def cwiseProduct (a b : List ℚ) : List ℚ := List.zipWith (fun p q => p * q) a b

/-- Eigen `a += b` on vectors, as a value. -/
def cwiseAdd (a b : List ℚ) : List ℚ := List.zipWith (fun p q => p + q) a b

/-- Eigen `a.cwiseAbs()`. -/
def cwiseAbs (a : List ℚ) : List ℚ := a.map (fun p => |p|)

/-- Eigen `a.maxCoeff()`; it has no value on an empty vector (Eigen asserts there). -/
def maxCoeff : List ℚ → Option ℚ
  | [] => none
  | a :: as => some (as.foldl max a)

/-- Sum of the squares of the coefficients. -/
def squaredNorm (v : List ℚ) : ℚ := (v.map (fun p => p * p)).sum

/-- A non-negative real number given by its square. -/
structure Norm where
  /-- The square of the number. -/
  sq : ℚ
  deriving DecidableEq

/-- Eigen `v.norm()`, the Euclidean norm. -/
def norm (v : List ℚ) : Norm := ⟨squaredNorm v⟩

/-- The comparison `a < c` of a norm with a scalar. -/
def Norm.lt (a : Norm) (c : ℚ) : Prop := 0 < c ∧ a.sq < c * c

instance (a : Norm) (c : ℚ) : Decidable (a.lt c) := by
  unfold Norm.lt
  exact inferInstance

/-- Modelled from the spec: the helper `sign` of the step `-sign(gradient)*delta` is declared
outside the sources at hand; it is the signum with values 1, 0 and -1. -/
def sign (val : ℚ) : ℚ := if 0 < val then 1 else if val < 0 then -1 else 0

/-- The value of `std::numeric_limits<double>::max()`, which is `(2 - 2^(-52)) * 2^1023`. -/
def numeric_limits_max : ℚ := 2 ^ 1024 - 2 ^ 971

/-- The conversion `static_cast<size_t>(i)` of an `int` on a 64-bit target. -/
def static_cast_size_t (i : Int) : Nat := (i % 2 ^ 64).toNat

/-! ## Options -/

/-- The enumeration `OptimizerRpropOptions::Method`. -/
inductive Method where
  | RPROP_PLUS
  | RPROP_MINUS
  | IRPROP_MINUS
  | IRPROP_PLUS
  deriving DecidableEq, Repr

/-- The class `OptimizerRpropOptions`. The regularizer is given by the gradient it contributes at
the current values of the design variables. -/
structure OptimizerRpropOptions (X : Type) where
  etaMinus : ℚ
  etaPlus : ℚ
  initialDelta : ℚ
  minDelta : ℚ
  maxDelta : ℚ
  convergenceGradientNorm : ℚ
  convergenceDx : ℚ
  maxIterations : Int
  nThreads : Int
  method : Method
  regularizer : Option (X → List ℚ)

/-- The macro `SM_ASSERT_GT(Exception, value, lowerBound, "")` of the library `sm`: an exception
is thrown unless `value > lowerBound`. The text `what` names the assertion. -/
def SM_ASSERT_GT (value lowerBound : ℚ) (what : String) : Except String Unit :=
  if value > lowerBound then Except.ok () else Except.error what

/-- The macro `SM_ASSERT_GE(Exception, value, lowerBound, "")` of the library `sm`, on doubles:
an exception is thrown unless `value >= lowerBound`. -/
def SM_ASSERT_GE (value lowerBound : ℚ) (what : String) : Except String Unit :=
  if value ≥ lowerBound then Except.ok () else Except.error what

/-- The macro `SM_ASSERT_GE(Exception, value, lowerBound, "")` of the library `sm`, on ints. -/
def SM_ASSERT_GE_int (value lowerBound : Int) (what : String) : Except String Unit :=
  if value ≥ lowerBound then Except.ok () else Except.error what

/-- The macro `SM_ASSERT_TRUE(Exception, condition, "")` of the library `sm`: an exception is
thrown unless the condition holds. -/
def SM_ASSERT_TRUE (condition : Bool) (what : String) : Except String Unit :=
  if condition then Except.ok () else Except.error what

/-- The method `OptimizerRpropOptions::check`. -/
def OptimizerRpropOptions.check {X : Type} (o : OptimizerRpropOptions X) : Except String Unit := do
  SM_ASSERT_GT o.etaMinus 0 "etaMinus > 0.0"
  SM_ASSERT_GT o.etaPlus o.etaMinus "etaPlus > etaMinus"
  SM_ASSERT_GT o.initialDelta 0 "initialDelta > 0.0"
  SM_ASSERT_GT o.minDelta 0 "minDelta > 0.0"
  SM_ASSERT_GT o.maxDelta o.minDelta "maxDelta > minDelta"
  SM_ASSERT_GE o.convergenceGradientNorm 0 "convergenceGradientNorm >= 0.0"
  SM_ASSERT_GE o.convergenceDx 0 "convergenceDx >= 0.0"
  SM_ASSERT_TRUE (decide (o.convergenceDx > 0) || decide (o.convergenceGradientNorm > 0))
    "convergenceDx > 0 || convergenceGradientNorm > 0.0"
  SM_ASSERT_GE_int o.maxIterations (-1) "maxIterations >= -1"

/-! ## Return value -/

/-- The enumeration `RpropReturnValue::ConvergenceCriterion`. -/
inductive ConvergenceCriterion where
  | IN_PROGRESS
  | FAILURE
  | GRADIENT_NORM
  | DX
  deriving DecidableEq, Repr

/-- The class `RpropReturnValue`. -/
structure RpropReturnValue where
  convergence : ConvergenceCriterion
  nIterations : Nat
  nGradEvaluations : Nat
  nObjectiveEvaluations : Nat
  gradientNorm : Option Norm
  maxDx : Option ℚ
  error : ℚ
  deriving DecidableEq

/-- The method `RpropReturnValue::reset`. -/
def RpropReturnValue.reset (_r : RpropReturnValue) : RpropReturnValue :=
  { convergence := ConvergenceCriterion.IN_PROGRESS
    nIterations := 0
    nGradEvaluations := 0
    nObjectiveEvaluations := 0
    gradientNorm := none
    maxDx := none
    error := numeric_limits_max }

/-- The method `RpropReturnValue::success`. -/
def RpropReturnValue.success (r : RpropReturnValue) : Bool :=
  r.convergence != ConvergenceCriterion.FAILURE && r.convergence != ConvergenceCriterion.IN_PROGRESS

/-- The method `RpropReturnValue::failure`. -/
def RpropReturnValue.failure (r : RpropReturnValue) : Bool :=
  r.convergence == ConvergenceCriterion.FAILURE

/-! ## The optimizer -/

/-- The operations of the base class `ProblemManager` that `OptimizerRprop` calls, on the values
`X` of the design variables. -/
structure ProblemManager (X : Type) where
  /-- The accessor `numOptParameters()`. -/
  numOptParameters : Nat
  /-- The gradient that `computeGradient(gradient, nThreads, false)` writes. -/
  computeGradient : X → List ℚ
  /-- The method `evaluateError(nThreads)`. -/
  evaluateError : X → ℚ
  /-- The method `applyStateUpdate(dx)`. -/
  applyStateUpdate : X → List ℚ → X

/-- The class `OptimizerRprop`, with the state of its base class: the values `x` of the design
variables and the flag behind `isInitialized()`. -/
structure OptimizerRprop (X : Type) where
  options : OptimizerRpropOptions X
  isInitialized : Bool
  x : X
  dx : List ℚ
  prev_gradient : List ℚ
  prev_error : ℚ
  delta : List ℚ
  returnValue : RpropReturnValue

/-- Modelled from the spec: `ProblemManager::initialize` is outside the sources at hand; it moves
the optimizer to the state Initialized. -/
def ProblemManager.init {X : Type} (_P : ProblemManager X) (s : OptimizerRprop X) :
    OptimizerRprop X :=
  { s with isInitialized := true }

/-- The method `OptimizerRprop::reset`. -/
def OptimizerRprop.reset {X : Type} (P : ProblemManager X) (s : OptimizerRprop X) :
    OptimizerRprop X :=
  { s with
    dx := Constant P.numOptParameters 0
    prev_gradient := Constant P.numOptParameters 0
    prev_error := numeric_limits_max
    delta := Constant P.numOptParameters s.options.initialDelta
    returnValue := s.returnValue.reset }

/-- The method `OptimizerRprop::initialize`. -/
def OptimizerRprop.init {X : Type} (P : ProblemManager X) (s : OptimizerRprop X) :
    OptimizerRprop X :=
  OptimizerRprop.reset P (P.init s)

/-- The gradient of one iteration: `computeGradient`, plus the Jacobian of the regularizer when
one is set. -/
def OptimizerRprop.gradient {X : Type} (P : ProblemManager X) (s : OptimizerRprop X) : List ℚ :=
  match s.options.regularizer with
  | some r => cwiseAdd (P.computeGradient s.x) (r s.x)
  | none => P.computeGradient s.x

/-- The head of an iteration of `optimize`: the iteration and gradient counters are incremented
and the norm of the gradient is stored. -/
def OptimizerRprop.countGradient {X : Type} (P : ProblemManager X) (s : OptimizerRprop X) :
    OptimizerRprop X :=
  { s with
    returnValue :=
      { s.returnValue with
        nIterations := s.returnValue.nIterations + 1
        nGradEvaluations := s.returnValue.nGradEvaluations + 1
        gradientNorm := some (norm (s.gradient P)) } }

/-- The test `_returnValue.gradientNorm < _options.convergenceGradientNorm` of an iteration. -/
def OptimizerRprop.gradientNormConverged {X : Type} (P : ProblemManager X) (s : OptimizerRprop X) :
    Prop :=
  (norm (s.gradient P)).lt s.options.convergenceGradientNorm

instance {X : Type} (P : ProblemManager X) (s : OptimizerRprop X) :
    Decidable (s.gradientNormConverged P) := by
  unfold OptimizerRprop.gradientNormConverged
  exact inferInstance

/-- The block "Compute error for iPRop+" of `optimize`: the state after it and the flag
`errorIncreased`. -/
def OptimizerRprop.computeError {X : Type} (P : ProblemManager X) (s : OptimizerRprop X) :
    OptimizerRprop X × Bool :=
  if s.options.method = Method.IRPROP_PLUS then
    let error := P.evaluateError s.x
    ({ s with
       returnValue :=
         { s.returnValue with
           error := error
           nObjectiveEvaluations := s.returnValue.nObjectiveEvaluations + 1 }
       prev_error := error },
     decide (error - s.prev_error > 0))
  else
    (s, false)

/-- The body of the loop `for d` of `optimize`: delta is adapted and the step `dx(d)` is set by
the method. -/
def OptimizerRprop.dimensionStep {X : Type} (gradient : List ℚ) (switchNo switchYes : List Bool)
    (errorIncreased : Bool) (s : OptimizerRprop X) (d : Nat) : OptimizerRprop X :=
  let s1 : OptimizerRprop X :=
    if switchNo.getD d false then
      { s with delta := setCoeff s.delta d (min (coeff s.delta d * s.options.etaPlus) s.options.maxDelta) }
    else if switchYes.getD d false then
      { s with delta := setCoeff s.delta d (max (coeff s.delta d * s.options.etaMinus) s.options.minDelta) }
    else s
  match s1.options.method with
  | Method.RPROP_PLUS =>
    if switchYes.getD d false then
      { s1 with
        dx := setCoeff s1.dx d (-(coeff s1.dx d))
        prev_gradient := setCoeff s1.prev_gradient d 0 }
    else
      { s1 with dx := setCoeff s1.dx d (-(sign (coeff gradient d)) * coeff s1.delta d) }
  | Method.RPROP_MINUS =>
    { s1 with dx := setCoeff s1.dx d (-(sign (coeff gradient d)) * coeff s1.delta d) }
  | Method.IRPROP_MINUS =>
    if switchYes.getD d false then
      { s1 with
        prev_gradient := setCoeff s1.prev_gradient d 0
        dx := setCoeff s1.dx d 0 }
    else
      { s1 with dx := setCoeff s1.dx d (-(sign (coeff gradient d)) * coeff s1.delta d) }
  | Method.IRPROP_PLUS =>
    if switchYes.getD d false then
      let s2 : OptimizerRprop X :=
        if errorIncreased then { s1 with dx := setCoeff s1.dx d (-(coeff s1.dx d)) }
        else { s1 with dx := setCoeff s1.dx d 0 }
      { s2 with prev_gradient := setCoeff s2.prev_gradient d 0 }
    else
      { s1 with dx := setCoeff s1.dx d (-(sign (coeff gradient d)) * coeff s1.delta d) }

/-- The part of an iteration from "determine whether gradient direction switched" to the end of
the loop `for d`. -/
def OptimizerRprop.computeStep {X : Type} (P : ProblemManager X) (gradient : List ℚ)
    (errorIncreased : Bool) (s : OptimizerRprop X) : OptimizerRprop X :=
  let gg := cwiseProduct s.prev_gradient gradient
  let switchNo := gg.map (fun p => decide (p > 0))
  let switchYes := gg.map (fun p => decide (p < 0))
  let s1 : OptimizerRprop X := { s with prev_gradient := gradient }
  (List.range P.numOptParameters).foldl
    (OptimizerRprop.dimensionStep gradient switchNo switchYes errorIncreased) s1

/-- The state of an iteration that passed the gradient-norm check, at the end of the loop
`for d`. -/
def OptimizerRprop.stepped {X : Type} (P : ProblemManager X) (s : OptimizerRprop X) :
    OptimizerRprop X :=
  let s1 := s.countGradient P
  let se := s1.computeError P
  OptimizerRprop.computeStep P (s.gradient P) se.2 se.1

/-- How an iteration leaves the loop body: by `break`, or by reaching its end. -/
inductive LoopControl (σ : Type) where
  | brk (s : σ)
  | next (s : σ)

/-- The state carried by a `LoopControl`. -/
def LoopControl.state {σ : Type} : LoopControl σ → σ
  | LoopControl.brk s => s
  | LoopControl.next s => s

/-- The ways in which a run of the model ends without a return value. -/
inductive Fault where
  /-- The call `maxCoeff()` on a vector of size 0. -/
  | emptyMatrix
  /-- The fuel of the loop is used up. -/
  | outOfFuel
  deriving DecidableEq, Repr

/-- The end of an iteration: the max-|dx| convergence check and the state update. -/
def OptimizerRprop.checkDx {X : Type} (P : ProblemManager X) (s : OptimizerRprop X) :
    Except Fault (LoopControl (OptimizerRprop X)) :=
  match maxCoeff (cwiseAbs s.dx) with
  | none => Except.error Fault.emptyMatrix
  | some m =>
    let s1 : OptimizerRprop X := { s with returnValue := { s.returnValue with maxDx := some m } }
    if m < s1.options.convergenceDx then
      Except.ok (LoopControl.brk
        { s1 with returnValue := { s1.returnValue with convergence := ConvergenceCriterion.DX } })
    else
      Except.ok (LoopControl.next { s1 with x := P.applyStateUpdate s1.x s1.dx })

/-- One pass through the body of the loop of `optimize`. -/
def OptimizerRprop.iteration {X : Type} (P : ProblemManager X) (s : OptimizerRprop X) :
    Except Fault (LoopControl (OptimizerRprop X)) :=
  let s1 := s.countGradient P
  if s.gradientNormConverged P then
    Except.ok (LoopControl.brk
      { s1 with
        returnValue := { s1.returnValue with convergence := ConvergenceCriterion.GRADIENT_NORM } })
  else
    OptimizerRprop.checkDx P (s.stepped P)

/-- The loop of `optimize`, entered with the counter `cnt`. -/
def OptimizerRprop.optimizeLoop {X : Type} (P : ProblemManager X) :
    Nat → Nat → OptimizerRprop X → Except Fault (OptimizerRprop X)
  | fuel, cnt, s =>
    if s.options.maxIterations = -1 ∨ cnt < static_cast_size_t s.options.maxIterations then
      match fuel with
      | 0 => Except.error Fault.outOfFuel
      | fuel + 1 =>
        match s.iteration P with
        | Except.error e => Except.error e
        | Except.ok (LoopControl.brk s1) => Except.ok s1
        | Except.ok (LoopControl.next s1) =>
          OptimizerRprop.optimizeLoop P fuel ((cnt + 1) % 2 ^ 64) s1
    else
      Except.ok s

/-- The statement `if (!isInitialized()) initialize();` at the head of `optimize`. -/
def OptimizerRprop.ensureInitialized {X : Type} (P : ProblemManager X) (s : OptimizerRprop X) :
    OptimizerRprop X :=
  if !s.isInitialized then s.init P else s

/-- The method `OptimizerRprop::optimize`; the result on success is the optimizer, whose field
`returnValue` is the returned `RpropReturnValue`. -/
def OptimizerRprop.optimize {X : Type} (P : ProblemManager X) (fuel : Nat)
    (s : OptimizerRprop X) : Except Fault (OptimizerRprop X) :=
  OptimizerRprop.optimizeLoop P fuel 0 (s.ensureInitialized P)

/-! ## Notions used to state the properties -/

/-- All vectors of the optimizer, and the gradient at the current values, have the size
`numOptParameters()`. -/
def OptimizerRprop.WellSized {X : Type} (P : ProblemManager X) (s : OptimizerRprop X) : Prop :=
  s.delta.length = P.numOptParameters ∧ s.dx.length = P.numOptParameters ∧
    s.prev_gradient.length = P.numOptParameters ∧ (s.gradient P).length = P.numOptParameters

/-- The flag `errorIncreased` of an iteration that passed the gradient-norm check. -/
def OptimizerRprop.errorIncreased {X : Type} (P : ProblemManager X) (s : OptimizerRprop X) :
    Bool :=
  ((s.countGradient P).computeError P).2

/-- The state after `k` consecutive iterations, none of which leaves the loop by `break`. -/
def OptimizerRprop.runNext {X : Type} (P : ProblemManager X) :
    Nat → OptimizerRprop X → Option (OptimizerRprop X)
  | 0, s => some s
  | k + 1, s =>
    match s.iteration P with
    | Except.ok (LoopControl.next s1) => OptimizerRprop.runNext P k s1
    | _ => none

/-- The adapted step size of one dimension, from the two switch flags and the old step size. -/
def newDelta {X : Type} (o : OptimizerRpropOptions X) (switchNo switchYes : Bool) (delta : ℚ) : ℚ :=
  if switchNo then min (delta * o.etaPlus) o.maxDelta
  else if switchYes then max (delta * o.etaMinus) o.minDelta
  else delta

/-- The step of one dimension, from the flags, the gradient coefficient, the adapted step size
and the old step. -/
def newDx {X : Type} (o : OptimizerRpropOptions X) (errorIncreased switchYes : Bool)
    (g delta dx : ℚ) : ℚ :=
  match o.method with
  | Method.RPROP_PLUS => if switchYes then -dx else -(sign g) * delta
  | Method.RPROP_MINUS => -(sign g) * delta
  | Method.IRPROP_MINUS => if switchYes then 0 else -(sign g) * delta
  | Method.IRPROP_PLUS =>
    if switchYes then (if errorIncreased then -dx else 0) else -(sign g) * delta

/-- The stored previous gradient of one dimension at the end of the loop body. -/
def newPrevGradient {X : Type} (o : OptimizerRpropOptions X) (switchYes : Bool) (pg : ℚ) : ℚ :=
  match o.method with
  | Method.RPROP_MINUS => pg
  | _ => if switchYes then 0 else pg

/-- The fields that the loop over the dimensions does not touch, and the sizes of the vectors. -/
def SameFrame {X : Type} (s t : OptimizerRprop X) : Prop :=
  t.options = s.options ∧ t.isInitialized = s.isInitialized ∧ t.x = s.x ∧
    t.prev_error = s.prev_error ∧ t.returnValue = s.returnValue ∧
    t.delta.length = s.delta.length ∧ t.dx.length = s.dx.length ∧
    t.prev_gradient.length = s.prev_gradient.length

/-! ## A concrete problem

The objective `(x0 - 1)^2 + (x1 + 10)^2` in two scalar design variables, whose update is the
addition of the step. -/

/-- The problem of the two-parameter quadratic objective. -/
def quadratic : ProblemManager (List ℚ) where
  numOptParameters := 2
  computeGradient := fun x => [2 * (coeff x 0 - 1), 2 * (coeff x 1 + 10)]
  evaluateError := fun x => (coeff x 0 - 1) ^ 2 + (coeff x 1 + 10) ^ 2
  applyStateUpdate := fun x dx => cwiseAdd x dx

/-- Options for the quadratic problem, with the method left open. -/
def quadraticOptions (m : Method) (maxIterations : Int) : OptimizerRpropOptions (List ℚ) where
  etaMinus := 1 / 2
  etaPlus := 6 / 5
  initialDelta := 3
  minDelta := 1 / 1000
  maxDelta := 5
  convergenceGradientNorm := 1 / 1000
  convergenceDx := 1 / 1000
  maxIterations := maxIterations
  nThreads := 1
  method := m
  regularizer := none

/-- An optimizer on the quadratic problem as constructed, before `initialize`, at `x = (0, 0)`. -/
def quadraticFresh (m : Method) (maxIterations : Int) : OptimizerRprop (List ℚ) where
  options := quadraticOptions m maxIterations
  isInitialized := false
  x := [0, 0]
  dx := []
  prev_gradient := []
  prev_error := 0
  delta := []
  returnValue := ⟨ConvergenceCriterion.IN_PROGRESS, 0, 0, 0, none, none, 0⟩

/-- The optimizer on the quadratic problem as its first iteration from `x = (0, 0)` leaves it, the
stored objective `prevError` being left open: the step (3, -3) has been applied, which overshoots
the minimum 1 in dimension 0 only, so that the next gradient (4, 14) switches its sign in
dimension 0. The objective at `x = (3, -3)` is 53. -/
def quadraticSecond (m : Method) (prevError : ℚ) : OptimizerRprop (List ℚ) where
  options := quadraticOptions m 20
  isInitialized := true
  x := [3, -3]
  dx := [3, -3]
  prev_gradient := [-2, 20]
  prev_error := prevError
  delta := [3, 3]
  returnValue := ⟨ConvergenceCriterion.IN_PROGRESS, 1, 1, 0, some ⟨404⟩, some 3, 0⟩

/-! ## The base classes of the optimizers (`aslam_backend/src/OptimizerBase.cpp`) -/

/-- The class `OptimizerOptionsBase`. -/
structure OptimizerOptionsBase where
  convergenceGradientNorm : ℚ
  convergenceDeltaX : ℚ
  convergenceDeltaError : ℚ
  maxIterations : Int
  numThreadsJacobian : Int
  numThreadsError : Int

/-- The method `OptimizerOptionsBase::check`. -/
def OptimizerOptionsBase.check (o : OptimizerOptionsBase) : Except String Unit := do
  SM_ASSERT_GE o.convergenceGradientNorm 0 "convergenceGradientNorm >= 0.0"
  SM_ASSERT_GE o.convergenceDeltaX 0 "convergenceDeltaX >= 0.0"
  SM_ASSERT_GE o.convergenceDeltaError 0 "convergenceDeltaError >= 0.0"
  SM_ASSERT_TRUE
    (decide (o.convergenceDeltaX > 0) || decide (o.convergenceGradientNorm > 0)
      || decide (o.convergenceDeltaError > 0))
    "convergenceDeltaX > 0.0 || convergenceGradientNorm > 0.0 || convergenceDeltaError > 0.0"
  SM_ASSERT_GE_int o.maxIterations (-1) "maxIterations >= -1"

/-- The enumeration `ConvergenceStatus`, with the values that `operator<<` prints. -/
inductive ConvergenceStatus where
  | IN_PROGRESS
  | FAILURE
  | GRADIENT_NORM
  | DX
  | DOBJECTIVE
  | MAX_ITERATIONS
  deriving DecidableEq, Repr

/-- The class `OptimizerStatus`, with the fields that `operator<<` prints. -/
structure OptimizerStatus where
  convergence : ConvergenceStatus
  numIterations : Nat
  gradientNorm : ℚ
  error : ℚ
  deltaError : ℚ
  maxDeltaX : ℚ
  numErrorEvaluations : Nat
  numJacobianEvaluations : Nat
  deriving DecidableEq

/-- The method `OptimizerStatus::failure`. -/
def OptimizerStatus.failure (s : OptimizerStatus) : Bool :=
  s.convergence == ConvergenceStatus.FAILURE

/-- The method `OptimizerStatus::success`. -/
def OptimizerStatus.success (s : OptimizerStatus) : Bool :=
  s.convergence != ConvergenceStatus.IN_PROGRESS && !s.failure

/-! ## Further option sets for the quadratic problem -/

/-- Options for the quadratic problem with the method RPROP_MINUS, the step-size factors and
bounds being left open. -/
def quadraticOptionsWith (etaMinus etaPlus initialDelta minDelta maxDelta : ℚ) :
    OptimizerRpropOptions (List ℚ) where
  etaMinus := etaMinus
  etaPlus := etaPlus
  initialDelta := initialDelta
  minDelta := minDelta
  maxDelta := maxDelta
  convergenceGradientNorm := 1 / 1000
  convergenceDx := 1 / 1000
  maxIterations := 20
  nThreads := 1
  method := Method.RPROP_MINUS
  regularizer := none

/-- An optimizer on the quadratic problem as constructed with the options `o`, at
`x = (0, 0)`. -/
def quadraticWith (o : OptimizerRpropOptions (List ℚ)) : OptimizerRprop (List ℚ) where
  options := o
  isInitialized := false
  x := [0, 0]
  dx := []
  prev_gradient := []
  prev_error := 0
  delta := []
  returnValue := ⟨ConvergenceCriterion.IN_PROGRESS, 0, 0, 0, none, none, 0⟩

/-- The invariant of the step sizes for the options `o`: the optimizer has the options `o`, its
vectors have the size of the problem, and every `delta(d)` lies between `minDelta` and
`maxDelta`. -/
def OptimizerRprop.DeltaBounded {X : Type} (P : ProblemManager X) (o : OptimizerRpropOptions X)
    (s : OptimizerRprop X) : Prop :=
  s.options = o ∧ s.WellSized P ∧
    ∀ d, d < P.numOptParameters → o.minDelta ≤ coeff s.delta d ∧ coeff s.delta d ≤ o.maxDelta

/-! ## Design variables (`aslam_backend_expressions/src`)

A design variable is embedded with its two value slots. The base class `DesignVariable` is not part
of the sources at hand: its `update(dp, size)` and `revertUpdate()` forward to
`updateImplementation` and `revertUpdateImplementation`, which are embedded here. The argument
`const double * dp` is the memory read through the pointer, a function of the offset; `size` is
the separate argument of that name. The assertion `SM_ASSERT_EQ_DBG` on `size` is compiled into
debug builds only; the model keeps it, so that a result of the model is a result of either
build.

`MappedEuclideanPoint` reads the three words of its update vector only, which are finite values.
The loop of `MatrixTransformation::updateImplementation` reads `dp[j]` without a test of `j`
against `size`, so that it can read a word behind the update vector, which the caller did not
provide. For this class a word of memory and an entry of the matrix are therefore a value that is
finite, `some v`, or not finite, `none` (an infinity or a NaN): a sum or a product with a value
that is not finite is not finite, also the product with 0. -/

/-- The macro `SM_ASSERT_EQ_DBG(Exception, value, testValue, "")` of the library `sm`, on ints. -/
def SM_ASSERT_EQ_DBG (value testValue : Int) (what : String) : Except String Unit :=
  if value = testValue then Except.ok () else Except.error what

/-- The class `MappedEuclideanPoint`: the mapped current value `_p` and the previous
value `_p_p`. -/
structure MappedEuclideanPoint where
  _p : Fin 3 → ℚ
  _p_p : Fin 3 → ℚ
  deriving DecidableEq

/-- The constructor `MappedEuclideanPoint(double * p)`, on the three values found at `p`. -/
def MappedEuclideanPoint.construct (p : Fin 3 → ℚ) : MappedEuclideanPoint :=
  { _p := p, _p_p := p }

/-- The method `MappedEuclideanPoint::revertUpdateImplementation`. -/
def MappedEuclideanPoint.revertUpdateImplementation (t : MappedEuclideanPoint) :
    MappedEuclideanPoint :=
  { t with _p := t._p_p }

/-- The method `MappedEuclideanPoint::updateImplementation`. -/
def MappedEuclideanPoint.updateImplementation (t : MappedEuclideanPoint) (dp : Nat → ℚ)
    (size : Int) : Except String MappedEuclideanPoint := do
  SM_ASSERT_EQ_DBG size 3 "Incorrect size"
  let t1 : MappedEuclideanPoint := { t with _p_p := t._p }
  pure { t1 with _p := fun i => t1._p i + dp i.val }

/-- The method `MappedEuclideanPoint::minimalDimensionsImplementation`. -/
def MappedEuclideanPoint.minimalDimensionsImplementation (_t : MappedEuclideanPoint) : Int := 3

/-- The method `MappedEuclideanPoint::toEuclideanImplementation`. -/
def MappedEuclideanPoint.toEuclideanImplementation (t : MappedEuclideanPoint) : Fin 3 → ℚ :=
  t._p

/-- The method `MappedEuclideanPoint::setParametersImplementation`, for a value of three rows and
one column (Eigen asserts on an assignment of another size to the mapped vector). -/
def MappedEuclideanPoint.setParametersImplementation (t : MappedEuclideanPoint)
    (value : Fin 3 → ℚ) : MappedEuclideanPoint :=
  let t1 : MappedEuclideanPoint := { t with _p_p := t._p }
  { t1 with _p := value }

/-- The row `i % 3` of the entry that the loops of `MatrixTransformation` visit at step `i`. -/
def patternRow (i : Fin 9) : Fin 3 := ⟨i.val % 3, Nat.mod_lt _ (by decide)⟩

/-- The column `floor(i / 3)` of the entry that the loops of `MatrixTransformation` visit at
step `i`. -/
def patternCol (i : Fin 9) : Fin 3 := ⟨i.val / 3, by have := i.isLt; omega⟩

/-- The sum of two values of type `double` of which each is finite or not: it is not finite when
one of them is not. -/
def doubleAdd : Option ℚ → Option ℚ → Option ℚ
  | some a, some b => some (a + b)
  | _, _ => none

/-- The product of two values of type `double` of which each is finite or not: it is not finite
when one of them is not, also when the other one is 0. -/
def doubleMul : Option ℚ → Option ℚ → Option ℚ
  | some a, some b => some (a * b)
  | _, _ => none

/-- The assignment `A(r, c) = a` on a 3 x 3 matrix. -/
def setEntry (A : Matrix (Fin 3) (Fin 3) (Option ℚ)) (r c : Fin 3) (a : Option ℚ) :
    Matrix (Fin 3) (Fin 3) (Option ℚ) :=
  fun r1 c1 => if r1 = r ∧ c1 = c then a else A r1 c1

/-- The class `MatrixTransformation`: the current matrix `_A`, the previous matrix `_A_a`, the
update pattern and the number of its entries that are 1. An entry of the two matrices is a
finite value or a value that is not finite. -/
structure MatrixTransformation where
  _A : Matrix (Fin 3) (Fin 3) (Option ℚ)
  _A_a : Matrix (Fin 3) (Fin 3) (Option ℚ)
  _UpdatePattern : Matrix (Fin 3) (Fin 3) ℚ
  _UpdateDimension : Int
  deriving DecidableEq

/-- A matrix of finite values as a matrix of the entries of a `MatrixTransformation`. -/
def finiteMatrix (A : Matrix (Fin 3) (Fin 3) ℚ) : Matrix (Fin 3) (Fin 3) (Option ℚ) :=
  fun r c => some (A r c)

/-- The constructor `MatrixTransformation(A)`, on a matrix of finite values. -/
def MatrixTransformation.construct (A : Matrix (Fin 3) (Fin 3) ℚ) : MatrixTransformation :=
  { _A := finiteMatrix A, _A_a := finiteMatrix A, _UpdatePattern := fun _ _ => 1,
    _UpdateDimension := 9 }

/-- The constructor `MatrixTransformation(A, UpdatePattern)`, on matrices of finite values. -/
def MatrixTransformation.constructPattern (A UpdatePattern : Matrix (Fin 3) (Fin 3) ℚ) :
    MatrixTransformation :=
  { _A := finiteMatrix A
    _A_a := finiteMatrix A
    _UpdatePattern := UpdatePattern
    _UpdateDimension :=
      (List.finRange 9).foldl
        (fun n i => if UpdatePattern (patternRow i) (patternCol i) = 1 then n + 1 else n) 0 }

/-- The method `MatrixTransformation::revertUpdateImplementation`. -/
def MatrixTransformation.revertUpdateImplementation (t : MatrixTransformation) :
    MatrixTransformation :=
  { t with _A := t._A_a }

/-- The body of the loop of `MatrixTransformation::updateImplementation`, on the matrix `_A` and
the index `j`: the word `dp[j]` is read and multiplied by the entry of the pattern in every
step, whatever the entry of the pattern is. -/
def MatrixTransformation.updateStep (UpdatePattern : Matrix (Fin 3) (Fin 3) ℚ)
    (dp : Nat → Option ℚ) (st : Matrix (Fin 3) (Fin 3) (Option ℚ) × Nat) (i : Fin 9) :
    Matrix (Fin 3) (Fin 3) (Option ℚ) × Nat :=
  let A := setEntry st.1 (patternRow i) (patternCol i)
    (doubleAdd (st.1 (patternRow i) (patternCol i))
      (doubleMul (some (UpdatePattern (patternRow i) (patternCol i))) (dp st.2)))
  if UpdatePattern (patternRow i) (patternCol i) = 1 then (A, st.2 + 1) else (A, st.2)

/-- The method `MatrixTransformation::updateImplementation`, on the memory `dp`: the word
`dp j` is the one that the program finds at `dp[j]`, inside the update vector or behind it. -/
def MatrixTransformation.updateImplementation (t : MatrixTransformation) (dp : Nat → Option ℚ)
    (size : Int) : Except String MatrixTransformation := do
  SM_ASSERT_EQ_DBG size t._UpdateDimension "Incorrect update size"
  let t1 : MatrixTransformation := { t with _A_a := t._A }
  pure { t1 with
    _A := ((List.finRange 9).foldl
      (MatrixTransformation.updateStep t1._UpdatePattern dp) (t1._A, 0)).1 }

/-- The method `MatrixTransformation::minimalDimensionsImplementation`. -/
def MatrixTransformation.minimalDimensionsImplementation (t : MatrixTransformation) : Int :=
  t._UpdateDimension

/-- The method `MatrixTransformation::toFullMatrixImplementation`. -/
def MatrixTransformation.toFullMatrixImplementation (t : MatrixTransformation) :
    Matrix (Fin 3) (Fin 3) (Option ℚ) :=
  t._A

/-- The memory at a pointer `dp` that holds the values of a list and 0 behind them. -/
def pointerTo (values : List ℚ) : Nat → ℚ := fun j => values.getD j 0

/-- The memory at a pointer `dp` to an update vector of finite values: the values of the vector,
and the word `behind` at every offset behind its end. -/
def memoryAt (values : List ℚ) (behind : Option ℚ) : Nat → Option ℚ :=
  fun j => if j < values.length then some (values.getD j 0) else behind

/-! ## Error terms (`aslam_backend/include/aslam/backend/ErrorTerm.hpp`)

The scalars of an error term are taken from an arbitrary field `K`, so that the embedding can be
read over the rationals, where it is executable, and over the reals, where the square root of
every weight exists. The function `sqrt` of the C library is a parameter. A call through a null
`boost::shared_ptr` has no result: `none`. Of the fields of `ErrorTerm`, the list of design
variables, the row base and the time stamp play no part in the methods embedded here and are left
out. -/

/-- The class `MEstimator`, declared outside the sources at hand, through its method
`getWeight`. -/
structure MEstimator (K : Type) where
  getWeight : K → K

/-- The class `ErrorTerm`: the shared pointer to the M-estimator policy, `none` when it is null,
and the raw squared error. -/
structure ErrorTerm (K : Type) where
  _mEstimatorPolicy : Option (MEstimator K)
  _squaredError : K

/-- The method `ErrorTerm::updateRawSquaredError`; the argument is the value that the pure virtual
`evaluateErrorImplementation()` returns. -/
def ErrorTerm.updateRawSquaredError {K : Type} (e : ErrorTerm K)
    (evaluateErrorImplementation : K) : K × ErrorTerm K :=
  (evaluateErrorImplementation, { e with _squaredError := evaluateErrorImplementation })

/-- The method `ErrorTerm::getMEstimatorWeight`. -/
def ErrorTerm.getMEstimatorWeight {K : Type} (e : ErrorTerm K) (squaredError : K) : Option K :=
  match e._mEstimatorPolicy with
  | some m => some (m.getWeight squaredError)
  | none => none

/-- The method `ErrorTerm::getCurrentMEstimatorWeight`. -/
def ErrorTerm.getCurrentMEstimatorWeight {K : Type} (e : ErrorTerm K) : Option K :=
  e.getMEstimatorWeight e._squaredError

/-- The method `ErrorTerm::getWeightedSquaredError`. -/
def ErrorTerm.getWeightedSquaredError {K : Type} [Field K] (e : ErrorTerm K) : Option K :=
  e.getCurrentMEstimatorWeight.map (fun w => w * e._squaredError)

/-- The method `ErrorTerm::getRawSquaredError`. -/
def ErrorTerm.getRawSquaredError {K : Type} (e : ErrorTerm K) : K :=
  e._squaredError

/-- The method `ErrorTerm::getSquaredError()` without argument. -/
def ErrorTerm.getSquaredError {K : Type} [Field K] (e : ErrorTerm K) : Option K :=
  e.getWeightedSquaredError

/-- The method `ErrorTerm::getSquaredError(bool useMEstimator)`. -/
def ErrorTerm.getSquaredErrorUsing {K : Type} [Field K] (e : ErrorTerm K)
    (useMEstimator : Bool) : Option K :=
  if useMEstimator then e.getWeightedSquaredError else some e.getRawSquaredError

/-- The method `ErrorTerm::evaluateError`: the returned value and the error term after the
call. -/
def ErrorTerm.evaluateError {K : Type} [Field K] (e : ErrorTerm K)
    (evaluateErrorImplementation : K) : Option (K × ErrorTerm K) :=
  let e1 := (e.updateRawSquaredError evaluateErrorImplementation).2
  e1.getSquaredError.map (fun v => (v, e1))

/-- Modelled from the spec: the class `JacobianContainer` is outside the sources at hand. It
holds, for every design variable `dv`, the accumulated block of `outRows` rows and
`minimalDimensions dv` columns, zero until the first `add`, and the pending chain-rule matrix by
which every added block of `rows` rows is multiplied from the left. -/
structure JacobianContainer (K : Type) (DV : Type) (minimalDimensions : DV → Nat)
    (outRows rows : Nat) where
  chainRule : Matrix (Fin outRows) (Fin rows) K
  blocks : (dv : DV) → Matrix (Fin outRows) (Fin (minimalDimensions dv)) K

/-- Modelled from the spec: `JacobianContainer::add(designVariable, block)` sums the block, times
the pending chain-rule matrix, into the accumulator of the design variable. -/
def JacobianContainer.add {K : Type} [Field K] {DV : Type} [DecidableEq DV]
    {minimalDimensions : DV → Nat} {outRows rows : Nat}
    (jc : JacobianContainer K DV minimalDimensions outRows rows) (dv : DV)
    (block : Matrix (Fin rows) (Fin (minimalDimensions dv)) K) :
    JacobianContainer K DV minimalDimensions outRows rows :=
  { jc with blocks := Function.update jc.blocks dv (jc.blocks dv + jc.chainRule * block) }

/-- Modelled from the spec: `JacobianContainer::apply(matrix)` is the view of the container
whose `add` calls are multiplied by the matrix from the left before they reach the
accumulators. -/
def JacobianContainer.apply {K : Type} [Field K] {DV : Type} {minimalDimensions : DV → Nat}
    {outRows rows rows2 : Nat} (jc : JacobianContainer K DV minimalDimensions outRows rows)
    (M : Matrix (Fin rows) (Fin rows2) K) :
    JacobianContainer K DV minimalDimensions outRows rows2 :=
  { chainRule := jc.chainRule * M, blocks := jc.blocks }

/-- A Jacobian block of an error term of dimension `D`: a design variable and the derivative of
the error with respect to its minimal tangent. -/
def JacobianBlock (K : Type) (DV : Type) (minimalDimensions : DV → Nat) (D : Nat) : Type :=
  (dv : DV) × Matrix (Fin D) (Fin (minimalDimensions dv)) K

/-- A Jacobian block multiplied by a matrix from the left. -/
def JacobianBlock.premultiply {K : Type} [Field K] {DV : Type} {minimalDimensions : DV → Nat}
    {D k : Nat} (M : Matrix (Fin k) (Fin D) K) (b : JacobianBlock K DV minimalDimensions D) :
    JacobianBlock K DV minimalDimensions k :=
  ⟨b.1, M * b.2⟩

/-- Modelled from the spec: `ErrorTerm::evaluateJacobians` is declared in `ErrorTerm.hpp` and
defined outside the sources at hand. It passes the container to the pure virtual
`evaluateJacobiansImplementation`, which adds to it the Jacobian blocks of the error term; these
blocks are the argument `jacobians`. -/
def ErrorTerm.evaluateJacobians {K : Type} [Field K] {DV : Type} [DecidableEq DV]
    {minimalDimensions : DV → Nat} {outRows D : Nat}
    (jacobians : List (JacobianBlock K DV minimalDimensions D))
    (outJacobians : JacobianContainer K DV minimalDimensions outRows D) :
    JacobianContainer K DV minimalDimensions outRows D :=
  jacobians.foldl (fun jc b => jc.add b.1 b.2) outJacobians

/-- The factor `sqrtWeight` of `ErrorTerm::evaluateWeightedJacobian`. -/
def ErrorTerm.sqrtWeight {K : Type} [Field K] (e : ErrorTerm K) (sqrt : K → K)
    (useMEstimator : Bool) : Option K :=
  if useMEstimator then
    match e._mEstimatorPolicy with
    | some m => some (sqrt (m.getWeight e.getRawSquaredError))
    | none => none
  else some 1

/-- The method `ErrorTerm::evaluateWeightedJacobian`. The view `outJc.apply(...)` shares its
accumulators with `outJc`: the result is `outJc` with the accumulators of the view. -/
def ErrorTerm.evaluateWeightedJacobian {K : Type} [Field K] {DV : Type} [DecidableEq DV]
    {minimalDimensions : DV → Nat} {outRows D k : Nat} (e : ErrorTerm K) (sqrt : K → K)
    (jacobians : List (JacobianBlock K DV minimalDimensions D))
    (outJc : JacobianContainer K DV minimalDimensions outRows k) (useMEstimator : Bool)
    (weight : Matrix (Fin D) (Fin k) K) :
    Option (JacobianContainer K DV minimalDimensions outRows k) :=
  (e.sqrtWeight sqrt useMEstimator).map (fun sqrtWeight =>
    { outJc with
      blocks := (ErrorTerm.evaluateJacobians jacobians
        (outJc.apply (sqrtWeight • weight.transpose))).blocks })

/-- The M-estimator policy whose weight is 1 for every squared error. -/
def constantOnePolicy (K : Type) [Field K] : MEstimator K where
  getWeight := fun _ => 1

/-- An empty container for one design variable of dimension 1 and blocks of one row. -/
def emptyContainer (K : Type) [Field K] : JacobianContainer K (Fin 1) (fun _ => 1) 1 1 where
  chainRule := 1
  blocks := fun _ => 0

/-! ## Differentials (`aslam_backend_expressions/include/aslam/backend/Differential.hpp`)

The domain of a differential is taken to be a space of column vectors with `n` rows, its results
are vectors with `r` rows, both over a field `K` (the template parameter `TScalar`). A
differential behind a reference is only ever called through `applyInto` and
`applyBasisVectorInto`: the abstract class is the record of these two virtual methods. The
argument `result` of these methods is an output of the size of the results; its value after the
call is the value of the embedded method. An index is a valid index of the domain. The classes of
the header are structures of their fields with the methods as functions; `toDifferential` is the
view of an object as `Differential`. -/

/-- The abstract class `Differential<TDomain, TScalar>`, through its virtual methods
`applyBasisVectorInto` and `applyInto`. -/
structure Differential (K : Type) (n r : Nat) where
  applyBasisVectorInto : Fin n → Fin r → K
  applyInto : (Fin n → K) → Fin r → K

/-- The method `Differential::getDomainBasisVectorByIndex` for a domain of column vectors: the
zero vector with a 1 at the index. -/
def getDomainBasisVectorByIndex {K : Type} [Field K] {n : Nat} (index : Fin n) : Fin n → K :=
  Function.update (fun _ => 0) index 1

/-- The class `NullDifferential`, which has no fields. -/
structure NullDifferential (K : Type) (n r : Nat) where

/-- The method `NullDifferential::applyBasisVectorInto`: `result.setZero()`. -/
def NullDifferential.applyBasisVectorInto {K : Type} [Field K] {n r : Nat}
    (_d : NullDifferential K n r) (_index : Fin n) : Fin r → K :=
  fun _ => 0

/-- The method `NullDifferential::applyInto`: `result.setZero()`. -/
def NullDifferential.applyInto {K : Type} [Field K] {n r : Nat} (_d : NullDifferential K n r)
    (_tangent_vector : Fin n → K) : Fin r → K :=
  fun _ => 0

/-- The method `NullDifferential::addToJacobianContainer(jc, dv, jacobian)`, whose body is
empty. -/
def NullDifferential.addToJacobianContainer {K : Type} [Field K] {DV : Type} [DecidableEq DV]
    {minimalDimensions : DV → Nat} {outRows n r : Nat} (_d : NullDifferential K n r)
    (jc : JacobianContainer K DV minimalDimensions outRows r) (dv : DV)
    (_jacobian : Matrix (Fin n) (Fin (minimalDimensions dv)) K) :
    JacobianContainer K DV minimalDimensions outRows r :=
  jc

/-- The view of a `NullDifferential` as a `Differential`. -/
def NullDifferential.toDifferential {K : Type} [Field K] {n r : Nat}
    (d : NullDifferential K n r) : Differential K n r :=
  { applyBasisVectorInto := d.applyBasisVectorInto, applyInto := d.applyInto }

/-- The class `IdentityDifferential`, which has no fields. -/
structure IdentityDifferential (K : Type) (n : Nat) where

/-- The method `IdentityDifferential::applyBasisVectorInto`: `result.setZero()` and then
`result[index] = 1`. -/
def IdentityDifferential.applyBasisVectorInto {K : Type} [Field K] {n : Nat}
    (_d : IdentityDifferential K n) (index : Fin n) : Fin n → K :=
  Function.update (fun _ => 0) index 1

/-- The method `IdentityDifferential::applyInto`: `result = tangent_vector`. -/
def IdentityDifferential.applyInto {K : Type} {n : Nat} (_d : IdentityDifferential K n)
    (tangent_vector : Fin n → K) : Fin n → K :=
  tangent_vector

/-- The method `IdentityDifferential::addToJacobianContainer(jc, dv, jacobian)`. -/
def IdentityDifferential.addToJacobianContainer {K : Type} [Field K] {DV : Type}
    [DecidableEq DV] {minimalDimensions : DV → Nat} {outRows n : Nat}
    (_d : IdentityDifferential K n) (jc : JacobianContainer K DV minimalDimensions outRows n)
    (dv : DV) (jacobian : Matrix (Fin n) (Fin (minimalDimensions dv)) K) :
    JacobianContainer K DV minimalDimensions outRows n :=
  jc.add dv jacobian

/-- The view of an `IdentityDifferential` as a `Differential`. -/
def IdentityDifferential.toDifferential {K : Type} [Field K] {n : Nat}
    (d : IdentityDifferential K n) : Differential K n n :=
  { applyBasisVectorInto := d.applyBasisVectorInto, applyInto := d.applyInto }

/-- The class `MatrixDifferential`, with its field `_mat`. -/
structure MatrixDifferential (K : Type) (n r : Nat) where
  _mat : Matrix (Fin r) (Fin n) K

/-- The method `MatrixDifferential::applyBasisVectorInto`: `result = _mat.col(index)`. -/
def MatrixDifferential.applyBasisVectorInto {K : Type} {n r : Nat} (d : MatrixDifferential K n r)
    (index : Fin n) : Fin r → K :=
  fun a => d._mat a index

/-- The method `MatrixDifferential::applyInto`: `result = _mat * tangent_vector`. -/
def MatrixDifferential.applyInto {K : Type} [Field K] {n r : Nat} (d : MatrixDifferential K n r)
    (tangent_vector : Fin n → K) : Fin r → K :=
  d._mat.mulVec tangent_vector

/-- The method `MatrixDifferential::addToJacobianContainer(jc, dv, jacobian)`; the cast to
`double` is the identity. -/
def MatrixDifferential.addToJacobianContainer {K : Type} [Field K] {DV : Type} [DecidableEq DV]
    {minimalDimensions : DV → Nat} {outRows n r : Nat} (d : MatrixDifferential K n r)
    (jc : JacobianContainer K DV minimalDimensions outRows r) (dv : DV)
    (jacobian : Matrix (Fin n) (Fin (minimalDimensions dv)) K) :
    JacobianContainer K DV minimalDimensions outRows r :=
  jc.add dv (d._mat * jacobian)

/-- The view of a `MatrixDifferential` as a `Differential`. -/
def MatrixDifferential.toDifferential {K : Type} [Field K] {n r : Nat}
    (d : MatrixDifferential K n r) : Differential K n r :=
  { applyBasisVectorInto := d.applyBasisVectorInto, applyInto := d.applyInto }

/-- The function `internal::DifferentialCalculator<TDiff, 1>::calcJacobianByApplication(rows,
cols, diff)`: the matrix whose column `i` is the result of `diff.applyBasisVectorInto(i)`. -/
def calcJacobianByApplication {K : Type} {cols rows : Nat} (diff : Differential K cols rows) :
    Matrix (Fin rows) (Fin cols) K :=
  fun a i => diff.applyBasisVectorInto i a

/-- The class `ComposedMatrixDifferential`: the field `_mat` and the reference
`_next_differential` of its base class `ComposedDifferential`. -/
structure ComposedMatrixDifferential (K : Type) (n k r : Nat) where
  _mat : Matrix (Fin k) (Fin n) K
  _next_differential : Differential K k r

/-- The method `ComposedMatrixDifferential::apply`: `_mat * tangent_vector`. -/
def ComposedMatrixDifferential.apply {K : Type} [Field K] {n k r : Nat}
    (d : ComposedMatrixDifferential K n k r) (tangent_vector : Fin n → K) : Fin k → K :=
  d._mat.mulVec tangent_vector

/-- The method `ComposedMatrixDifferential::applyBasisVector`: `_mat.col(index)`. -/
def ComposedMatrixDifferential.applyBasisVector {K : Type} {n k r : Nat}
    (d : ComposedMatrixDifferential K n k r) (index : Fin n) : Fin k → K :=
  fun a => d._mat a index

/-- The method `ComposedDifferential::applyBasisVectorInto` of a
`ComposedMatrixDifferential`. -/
def ComposedMatrixDifferential.applyBasisVectorInto {K : Type} {n k r : Nat}
    (d : ComposedMatrixDifferential K n k r) (index : Fin n) : Fin r → K :=
  d._next_differential.applyInto (d.applyBasisVector index)

/-- The method `ComposedDifferential::applyInto` of a `ComposedMatrixDifferential`. -/
def ComposedMatrixDifferential.applyInto {K : Type} [Field K] {n k r : Nat}
    (d : ComposedMatrixDifferential K n k r) (tangent_vector : Fin n → K) : Fin r → K :=
  d._next_differential.applyInto (d.apply tangent_vector)

/-- The view of a `ComposedMatrixDifferential` as a `Differential`. -/
def ComposedMatrixDifferential.toDifferential {K : Type} [Field K] {n k r : Nat}
    (d : ComposedMatrixDifferential K n k r) : Differential K n r :=
  { applyBasisVectorInto := d.applyBasisVectorInto, applyInto := d.applyInto }

/-- The method `ComposedMatrixDifferential::compose`: the differential with the matrix
`_mat * jacobian` and the same next differential. -/
def ComposedMatrixDifferential.compose {K : Type} [Field K] {n k r c : Nat}
    (d : ComposedMatrixDifferential K n k r) (jacobian : Matrix (Fin n) (Fin c) K) :
    ComposedMatrixDifferential K c k r :=
  { _mat := d._mat * jacobian, _next_differential := d._next_differential }

/-- The method `ComposedDifferential::addToJacobianContainer(jc, dv)` of a
`ComposedMatrixDifferential`, which is
`internal::DifferentialCalculator<TDiff, 1>::addToJacobianByApplication`. -/
def ComposedMatrixDifferential.addToJacobianByApplication {K : Type} [Field K] {DV : Type}
    [DecidableEq DV] {minimalDimensions : DV → Nat} {outRows k r : Nat} (dv : DV)
    (d : ComposedMatrixDifferential K (minimalDimensions dv) k r)
    (jc : JacobianContainer K DV minimalDimensions outRows r) :
    JacobianContainer K DV minimalDimensions outRows r :=
  jc.add dv (calcJacobianByApplication d.toDifferential)

/-- The method `ComposedDifferential::addToJacobianContainer(jc, dv, jacobian)` of a
`ComposedMatrixDifferential`. -/
def ComposedMatrixDifferential.addToJacobianContainer {K : Type} [Field K] {DV : Type}
    [DecidableEq DV] {minimalDimensions : DV → Nat} {outRows n k r : Nat}
    (d : ComposedMatrixDifferential K n k r)
    (jc : JacobianContainer K DV minimalDimensions outRows r) (dv : DV)
    (jacobian : Matrix (Fin n) (Fin (minimalDimensions dv)) K) :
    JacobianContainer K DV minimalDimensions outRows r :=
  ComposedMatrixDifferential.addToJacobianByApplication dv (d.compose jacobian) jc

/-- A differential acts as its matrix representation: `applyInto` is the product with the matrix
of the images of the basis vectors. -/
def Differential.IsLinear {K : Type} [Field K] {n r : Nat} (d : Differential K n r) : Prop :=
  ∀ v, d.applyInto v = (calcJacobianByApplication d).mulVec v

/-! ## The Jacobians of the design variables (`aslam_backend_expressions/src`)

The loops of `MatrixTransformation` run over the positions `i = 0, ..., 8` of the pattern in
column-major order. The block that a design variable passes to `JacobianContainer::add` is an
`Eigen` matrix of a size known at run time: a number of columns and a matrix of three rows. -/

/-- The number of entries equal to 1 that a loop of `MatrixTransformation` has found in the
pattern during its first `i` steps. -/
def onesBefore (UpdatePattern : Matrix (Fin 3) (Fin 3) ℚ) (i : Nat) : Nat :=
  ((List.finRange 9).take i).countP
    (fun k => decide (UpdatePattern (patternRow k) (patternCol k) = 1))

/-- The macro `SM_ASSERT_GT_DBG(Exception, value, lowerBound, "")` of the library `sm`, on ints;
the model keeps the assertion of the debug builds. -/
def SM_ASSERT_GT_DBG (value lowerBound : Int) (what : String) : Except String Unit :=
  if value > lowerBound then Except.ok () else Except.error what

/-- The body of the loop of `MatrixTransformation::evaluateJacobiansImplementation(outJacobians,
applyChainRule)`, on the matrix `finalJacobian` and the index `j`. The assignment to
`finalJacobian.col(j)` changes the column of the index `j`. -/
def MatrixTransformation.jacobianStep (t : MatrixTransformation) {m : Nat}
    (applyChainRule : Matrix (Fin 3) (Fin 9) ℚ) (st : Matrix (Fin 3) (Fin m) ℚ × Nat)
    (i : Fin 9) : Except String (Matrix (Fin 3) (Fin m) ℚ × Nat) :=
  if t._UpdatePattern (patternRow i) (patternCol i) = 1 then do
    SM_ASSERT_GT_DBG t._UpdateDimension st.2
      "Incorrect update dimension! It doesn't match the pattern"
    pure (fun r k => if k.val = st.2 then applyChainRule r i else st.1 r k, st.2 + 1)
  else
    pure st

/-- The method `MatrixTransformation::evaluateJacobiansImplementation(outJacobians,
applyChainRule)` for a chain-rule matrix of three rows and nine columns, on a container whose
design variable is this one. The argument `finalJacobian` is the content of the matrix
`finalJacobian(3, _UpdateDimension)` as it is allocated, which the constructor leaves open. -/
def MatrixTransformation.evaluateJacobiansImplementationChainRule {outRows : Nat}
    (t : MatrixTransformation) (finalJacobian : Matrix (Fin 3) (Fin t._UpdateDimension.toNat) ℚ)
    (outJacobians : JacobianContainer ℚ Unit (fun _ => t._UpdateDimension.toNat) outRows 3)
    (applyChainRule : Matrix (Fin 3) (Fin 9) ℚ) :
    Except String (JacobianContainer ℚ Unit (fun _ => t._UpdateDimension.toNat) outRows 3) := do
  let st ← (List.finRange 9).foldlM (t.jacobianStep applyChainRule) (finalJacobian, 0)
  pure (outJacobians.add () st.1)

/-- The method `MatrixTransformation::evaluateJacobiansImplementation(outJacobians)`: the block
that it passes to `outJacobians.add(this, ...)`, which is `Eigen::Matrix3d::Identity()`. -/
def MatrixTransformation.evaluateJacobiansImplementation (_t : MatrixTransformation) :
    (cols : Nat) × Matrix (Fin 3) (Fin cols) ℚ :=
  ⟨3, 1⟩

/-- The method `MappedEuclideanPoint::evaluateJacobiansImplementation(outJacobians)`: the block
that it passes to `outJacobians.add(this, ...)`, which is `Eigen::Matrix3d::Identity()`. -/
def MappedEuclideanPoint.evaluateJacobiansImplementation (_t : MappedEuclideanPoint) :
    (cols : Nat) × Matrix (Fin 3) (Fin cols) ℚ :=
  ⟨3, 1⟩

/-- The value of a `MatrixTransformation` as the vector of its nine entries in column-major
order, the order of the columns of a chain-rule matrix. -/
def MatrixTransformation.vectorized (t : MatrixTransformation) : Fin 9 → Option ℚ :=
  fun i => t.toFullMatrixImplementation (patternRow i) (patternCol i)

/-! ## Quaternions
(`aslam_backend_expressions/include/aslam/backend/implementation/QuaternionExpression.hpp`)

The enum `QuaternionMode` is declared outside the sources at hand; the calculator reads a mode
only through `realIsFirst(mode)` and `isTraditionalMultOrder(mode)`, and a mode is embedded as
the pair of these two answers. A quaternion is an `Eigen::Matrix<TScalar, 4, 1>`: a vector of
four coefficients of a field `K`. -/

/-- A quaternion mode, by the values of `realIsFirst` and `isTraditionalMultOrder` on it. -/
structure QuaternionMode where
  realIsFirst : Bool
  isTraditionalMultOrder : Bool
  deriving DecidableEq

/-- The function `internal::getRealIndex`. -/
def getRealIndex (mode : QuaternionMode) : Fin 4 := if mode.realIsFirst then 0 else 3

/-- The function `internal::getIIndex`. -/
def getIIndex (mode : QuaternionMode) : Fin 4 := if mode.realIsFirst then 1 else 0

/-- The function `internal::getJIndex`. -/
def getJIndex (mode : QuaternionMode) : Fin 4 := if mode.realIsFirst then 2 else 1

/-- The function `internal::getKIndex`. -/
def getKIndex (mode : QuaternionMode) : Fin 4 := if mode.realIsFirst then 3 else 2

/-- The function `EigenQuaternionCalculator::quatMultTraditional` on two full quaternions. The
four assignments to `res` write its four coefficients, in the order of the code. -/
def quatMultTraditional {K : Type} [Field K] (mode : QuaternionMode) (a b : Fin 4 → K) :
    Fin 4 → K :=
  let RIndex := getRealIndex mode
  let IIndex := getIIndex mode
  let JIndex := getJIndex mode
  let KIndex := getKIndex mode
  let res : Fin 4 → K := fun _ => 0
  let res := Function.update res IIndex
    (a IIndex * b RIndex + a JIndex * b KIndex - a KIndex * b JIndex + a RIndex * b IIndex)
  let res := Function.update res JIndex
    (a KIndex * b IIndex - a IIndex * b KIndex + a JIndex * b RIndex + a RIndex * b JIndex)
  let res := Function.update res KIndex
    (a IIndex * b JIndex - a JIndex * b IIndex + a KIndex * b RIndex + a RIndex * b KIndex)
  Function.update res RIndex
    (a RIndex * b RIndex - a JIndex * b JIndex - a KIndex * b KIndex - a IIndex * b IIndex)

/-- The function `EigenQuaternionCalculator::quatMult` on two full quaternions. -/
def quatMult {K : Type} [Field K] (mode : QuaternionMode) (a b : Fin 4 → K) : Fin 4 → K :=
  if mode.isTraditionalMultOrder then quatMultTraditional mode a b
  else quatMultTraditional mode b a

/-- The function `EigenQuaternionCalculator::conjugate`: the block of three coefficients from
`IIndex` on is multiplied by -1. -/
def conjugate {K : Type} [Field K] (mode : QuaternionMode) (v : Fin 4 → K) : Fin 4 → K :=
  fun n =>
    if (getIIndex mode).val ≤ n.val ∧ n.val < (getIIndex mode).val + 3 then v n * -1 else v n

/-- The product `a.dot(b)` of two vectors of four coefficients. -/
def dot {K : Type} [Field K] (a b : Fin 4 → K) : K :=
  a 0 * b 0 + a 1 * b 1 + a 2 * b 2 + a 3 * b 3

/-- The function `EigenQuaternionCalculator::invert`. -/
def invert {K : Type} [Field K] (mode : QuaternionMode) (v : Fin 4 → K) : Fin 4 → K :=
  let r := conjugate mode v
  fun n => r n / dot r r

/-- The method `applyDiff` of the result node of `QuaternionExpression::inverse()`, on the value
of the operand and a tangent vector. -/
def inverseApplyDiff {K : Type} [Field K] (mode : QuaternionMode) (operandValue : Fin 4 → K)
    (tangent_vector : Fin 4 → K) : Fin 4 → K :=
  let operandValConj := conjugate mode operandValue
  let valSquared := dot operandValConj operandValConj
  fun n =>
    -(quatMult mode operandValConj (quatMult mode tangent_vector operandValConj) n)
      / (valSquared * valSquared)

/-- The quaternion over `K` whose real and imaginary coefficients are those that the index
layout of the mode finds in a vector of four coefficients. -/
def toQuaternion {K : Type} [Field K] (mode : QuaternionMode) (a : Fin 4 → K) : Quaternion K :=
  ⟨a (getRealIndex mode), a (getIIndex mode), a (getJIndex mode), a (getKIndex mode)⟩

/-! ## The problem of the single residual `x - 5`

One scalar design variable `x` with the single residual `x - 5`, the identity as inverse
covariance and no M-estimator. The gradient of the objective is `c * (x - 5)` for a positive
factor `c` that the conventions of the problem manager fix (2 for the squared residual); the
update adds the step. -/

/-- The problem of the single residual `x - 5`. -/
def residualProblem (c : ℚ) : ProblemManager ℚ where
  numOptParameters := 1
  computeGradient := fun x => [c * (x - 5)]
  evaluateError := fun x => (x - 5) ^ 2
  applyStateUpdate := fun x dx => x + coeff dx 0

/-- An optimizer on the residual problem as constructed with the options `o`, before
`initialize`, at `x = 0`. -/
def residualFresh (o : OptimizerRpropOptions ℚ) : OptimizerRprop ℚ where
  options := o
  isInitialized := false
  x := 0
  dx := []
  prev_gradient := []
  prev_error := 0
  delta := []
  returnValue := ⟨ConvergenceCriterion.IN_PROGRESS, 0, 0, 0, none, none, 0⟩

/-- Options for the residual problem with the method RPROP_MINUS, unlimited iterations, the
factors 1/2 and 6/5 and the thresholds 1/1000, the step sizes being left open. -/
def residualOptions (initialDelta minDelta maxDelta : ℚ) : OptimizerRpropOptions ℚ where
  etaMinus := 1 / 2
  etaPlus := 6 / 5
  initialDelta := initialDelta
  minDelta := minDelta
  maxDelta := maxDelta
  convergenceGradientNorm := 1 / 1000
  convergenceDx := 1 / 1000
  maxIterations := -1
  nThreads := 1
  method := Method.RPROP_MINUS
  regularizer := none

/-- The overload of `EigenQuaternionCalculator::quatMultTraditional` on a pure imaginary vector
and a full quaternion. -/
def quatMultTraditionalImagLhs {K : Type} [Field K] (mode : QuaternionMode) (a : Fin 3 → K)
    (b : Fin 4 → K) : Fin 4 → K :=
  let RIndex := getRealIndex mode
  let IIndex := getIIndex mode
  let JIndex := getJIndex mode
  let KIndex := getKIndex mode
  let res : Fin 4 → K := fun _ => 0
  let res := Function.update res IIndex (a 0 * b RIndex + a 1 * b KIndex - a 2 * b JIndex)
  let res := Function.update res JIndex (a 2 * b IIndex - a 0 * b KIndex + a 1 * b RIndex)
  let res := Function.update res KIndex (a 0 * b JIndex - a 1 * b IIndex + a 2 * b RIndex)
  Function.update res RIndex (-a 1 * b JIndex - a 2 * b KIndex - a 0 * b IIndex)

/-- The overload of `EigenQuaternionCalculator::quatMultTraditional` on a full quaternion and a
pure imaginary vector. -/
def quatMultTraditionalImagRhs {K : Type} [Field K] (mode : QuaternionMode) (a : Fin 4 → K)
    (b : Fin 3 → K) : Fin 4 → K :=
  let RIndex := getRealIndex mode
  let IIndex := getIIndex mode
  let JIndex := getJIndex mode
  let KIndex := getKIndex mode
  let res : Fin 4 → K := fun _ => 0
  let res := Function.update res IIndex (a JIndex * b 2 - a KIndex * b 1 + a RIndex * b 0)
  let res := Function.update res JIndex (a KIndex * b 0 - a IIndex * b 2 + a RIndex * b 1)
  let res := Function.update res KIndex (a IIndex * b 1 - a JIndex * b 0 + a RIndex * b 2)
  Function.update res RIndex (-a JIndex * b 1 - a KIndex * b 2 - a IIndex * b 0)

/-- The function `EigenQuaternionCalculator::quatMult<3, 4>`, on a pure imaginary vector and a
full quaternion. -/
def quatMultImagLhs {K : Type} [Field K] (mode : QuaternionMode) (a : Fin 3 → K)
    (b : Fin 4 → K) : Fin 4 → K :=
  if mode.isTraditionalMultOrder then quatMultTraditionalImagLhs mode a b
  else quatMultTraditionalImagRhs mode b a

/-- The function `EigenQuaternionCalculator::quatMult<4, 3>`, on a full quaternion and a pure
imaginary vector. -/
def quatMultImagRhs {K : Type} [Field K] (mode : QuaternionMode) (a : Fin 4 → K)
    (b : Fin 3 → K) : Fin 4 → K :=
  if mode.isTraditionalMultOrder then quatMultTraditionalImagRhs mode a b
  else quatMultTraditionalImagLhs mode b a

/-- The function `EigenQuaternionCalculator::getImagPart`: the block of three coefficients from
`IIndex` on. -/
def getImagPart {K : Type} (mode : QuaternionMode) (v : Fin 4 → K) : Fin 3 → K :=
  fun k => v ⟨(getIIndex mode).val + k.val, by
    have hk := k.isLt
    have hI : (getIIndex mode).val ≤ 1 := by
      unfold getIIndex
      split <;> decide
    omega⟩

/-- The method `evaluateImplementation` of the result node of
`QuaternionExpression::operator *`. -/
def QuaternionProductNode.evaluateImplementation {K : Type} [Field K] (mode : QuaternionMode)
    (lhsValue rhsValue : Fin 4 → K) : Fin 4 → K :=
  quatMult mode lhsValue rhsValue

/-- The method `applyLhsDiff` of the result node of `QuaternionExpression::operator *`. -/
def QuaternionProductNode.applyLhsDiff {K : Type} [Field K] (mode : QuaternionMode)
    (rhsValue tangent_vector : Fin 4 → K) : Fin 4 → K :=
  quatMult mode tangent_vector rhsValue

/-- The method `applyRhsDiff` of the result node of `QuaternionExpression::operator *`. -/
def QuaternionProductNode.applyRhsDiff {K : Type} [Field K] (mode : QuaternionMode)
    (lhsValue tangent_vector : Fin 4 → K) : Fin 4 → K :=
  quatMult mode lhsValue tangent_vector

/-- The method `evaluateImplementation` of the result node of
`QuaternionExpression::conjugate()`. -/
def QuaternionConjugateNode.evaluateImplementation {K : Type} [Field K] (mode : QuaternionMode)
    (operandValue : Fin 4 → K) : Fin 4 → K :=
  conjugate mode operandValue

/-- The method `applyDiff` of the result node of `QuaternionExpression::conjugate()`. -/
def QuaternionConjugateNode.applyDiff {K : Type} [Field K] (mode : QuaternionMode)
    (tangent_vector : Fin 4 → K) : Fin 4 → K :=
  conjugate mode tangent_vector

/-- The quaternion `q * v * conj(q)` that the result node of
`UnitQuaternionExpression::rotate3Vector` computes before it takes the imaginary part. -/
def Rotate3VectorNode.rotated {K : Type} [Field K] (mode : QuaternionMode) (lhsVal : Fin 4 → K)
    (rhsVal : Fin 3 → K) : Fin 4 → K :=
  quatMult mode (quatMultImagRhs mode lhsVal rhsVal) (conjugate mode lhsVal)

/-- The method `evaluateImplementation` of the result node of
`UnitQuaternionExpression::rotate3Vector`. -/
def Rotate3VectorNode.evaluateImplementation {K : Type} [Field K] (mode : QuaternionMode)
    (lhsVal : Fin 4 → K) (rhsVal : Fin 3 → K) : Fin 3 → K :=
  getImagPart mode (Rotate3VectorNode.rotated mode lhsVal rhsVal)

/-- The method `applyLhsDiff` of the result node of
`UnitQuaternionExpression::rotate3Vector`. -/
def Rotate3VectorNode.applyLhsDiff {K : Type} [Field K] (mode : QuaternionMode)
    (lhsVal : Fin 4 → K) (rhsVal : Fin 3 → K) (tangent_vector : Fin 4 → K) : Fin 3 → K :=
  getImagPart mode
    (quatMult mode (quatMultImagRhs mode lhsVal rhsVal) (conjugate mode tangent_vector)
      + quatMult mode (quatMultImagRhs mode tangent_vector rhsVal) (conjugate mode lhsVal))

/-- The method `applyRhsDiff` of the result node of
`UnitQuaternionExpression::rotate3Vector`. -/
def Rotate3VectorNode.applyRhsDiff {K : Type} [Field K] (mode : QuaternionMode)
    (lhsVal : Fin 4 → K) (tangent_vector : Fin 3 → K) : Fin 3 → K :=
  getImagPart mode
    (quatMult mode (quatMultImagRhs mode lhsVal tangent_vector) (conjugate mode lhsVal))

/-- The full quaternion with the real coefficient 0 and the imaginary coefficients of a pure
imaginary vector. -/
def embedImag {K : Type} [Field K] (mode : QuaternionMode) (a : Fin 3 → K) : Fin 4 → K :=
  Function.update (Function.update (Function.update (fun _ => 0) (getIIndex mode) (a 0))
    (getJIndex mode) (a 1)) (getKIndex mode) (a 2)

/-- The quaternion with the real coefficient 1 and the imaginary coefficients 0. -/
def identityQuaternion {K : Type} [Field K] (mode : QuaternionMode) : Fin 4 → K :=
  Function.update (fun _ => 0) (getRealIndex mode) 1

/-- The sum of the squares of the coefficients of a vector of three. -/
def squaredNorm3 {K : Type} [Field K] (v : Fin 3 → K) : K :=
  v 0 * v 0 + v 1 * v 1 + v 2 * v 2

/-! ## Differentials: `convertIntoMatrix`

The method `convertIntoMatrix(chainRule, result)` takes a pointer to a chain-rule matrix, which
may be null, and writes the matrix `result`, whose size the caller has fixed: with a chain-rule
matrix of `o` rows the result has `o` rows, without one it has the rows of the matrix that is
written into it. The value of the embedded method is the content of `result` after the call. -/

/-- The type of the matrix `result` of `convertIntoMatrix` for a differential on a domain of
`n` rows: `o` rows with a chain-rule matrix of `o` rows, `r` rows without one. -/
def ConvertResult (K : Type) (o c r n : Nat) : Option (Matrix (Fin o) (Fin c) K) → Type
  | some _ => Matrix (Fin o) (Fin n) K
  | none => Matrix (Fin r) (Fin n) K

/-- The method `NullDifferential::convertIntoMatrix`: `result.setZero()`. -/
def NullDifferential.convertIntoMatrix {K : Type} [Field K] {n r o : Nat}
    (_d : NullDifferential K n r) :
    (chainRule : Option (Matrix (Fin o) (Fin r) K)) → ConvertResult K o r r n chainRule
  | some _ => (0 : Matrix (Fin o) (Fin n) K)
  | none => (0 : Matrix (Fin r) (Fin n) K)

/-- The method `IdentityDifferential::convertIntoMatrix`: the chain-rule matrix, or the
identity. -/
def IdentityDifferential.convertIntoMatrix {K : Type} [Field K] {n o : Nat}
    (_d : IdentityDifferential K n) :
    (chainRule : Option (Matrix (Fin o) (Fin n) K)) → ConvertResult K o n n n chainRule
  | some chainRule => chainRule
  | none => (1 : Matrix (Fin n) (Fin n) K)

/-- The method `MatrixDifferential::convertIntoMatrix`. -/
def MatrixDifferential.convertIntoMatrix {K : Type} [Field K] {n r o : Nat}
    (d : MatrixDifferential K n r) :
    (chainRule : Option (Matrix (Fin o) (Fin r) K)) → ConvertResult K o r r n chainRule
  | some chainRule => chainRule * d._mat
  | none => d._mat

/-- The method `ComposedDifferential::convertIntoMatrix` of the base class, on a
`ComposedMatrixDifferential` as the derived object: the matrix by application, times the
chain-rule matrix if there is one. The class `ComposedMatrixDifferential` overrides it. -/
def ComposedDifferential.convertIntoMatrix {K : Type} [Field K] {n k r o : Nat}
    (d : ComposedMatrixDifferential K n k r) :
    (chainRule : Option (Matrix (Fin o) (Fin r) K)) → ConvertResult K o r r n chainRule
  | some chainRule => chainRule * calcJacobianByApplication d.toDifferential
  | none => calcJacobianByApplication d.toDifferential

/-- The method `ComposedMatrixDifferential::convertIntoMatrix`, which overrides the method of
the base class. The product `(*chainRule) * _mat` takes a chain-rule matrix with as many columns
as `_mat` has rows. -/
def ComposedMatrixDifferential.convertIntoMatrix {K : Type} [Field K] {n k r o : Nat}
    (d : ComposedMatrixDifferential K n k r) :
    (chainRule : Option (Matrix (Fin o) (Fin k) K)) → ConvertResult K o k k n chainRule
  | some chainRule => chainRule * d._mat
  | none => d._mat

/-! ## The reads of `MatrixTransformation::updateImplementation` -/

/-- The body of the loop of `MatrixTransformation::updateImplementation`, with the list of the
indices `j` at which `dp[j]` has been read so far as a third component of the state. -/
def MatrixTransformation.updateStepTraced (UpdatePattern : Matrix (Fin 3) (Fin 3) ℚ)
    (dp : Nat → Option ℚ) (st : Matrix (Fin 3) (Fin 3) (Option ℚ) × Nat × List Nat)
    (i : Fin 9) : Matrix (Fin 3) (Fin 3) (Option ℚ) × Nat × List Nat :=
  let A := setEntry st.1 (patternRow i) (patternCol i)
    (doubleAdd (st.1 (patternRow i) (patternCol i))
      (doubleMul (some (UpdatePattern (patternRow i) (patternCol i))) (dp st.2.1)))
  let reads := st.2.2 ++ [st.2.1]
  if UpdatePattern (patternRow i) (patternCol i) = 1 then (A, st.2.1 + 1, reads)
  else (A, st.2.1, reads)

/-- The indices `j` at which the loop of `MatrixTransformation::updateImplementation` reads
`dp[j]`, in the order of the nine steps. -/
def MatrixTransformation.updateReads (t : MatrixTransformation) (dp : Nat → Option ℚ) :
    List Nat :=
  ((List.finRange 9).foldl (MatrixTransformation.updateStepTraced t._UpdatePattern dp)
    (t._A, 0, [])).2.2

/-! ## `OptimizerBase::updateConvergenceStatus` (`aslam_backend/src/OptimizerBase.cpp`) -/

/-- The class `OptimizerBase`, through the options behind `getOptions()` and the status behind
`status()`. -/
structure OptimizerBase where
  options : OptimizerOptionsBase
  status : OptimizerStatus

/-- The method `OptimizerBase::updateConvergenceStatus`. -/
def OptimizerBase.updateConvergenceStatus (b : OptimizerBase) : OptimizerBase :=
  if b.status.gradientNorm < b.options.convergenceGradientNorm then
    { b with status := { b.status with convergence := ConvergenceStatus.GRADIENT_NORM } }
  else if |b.status.deltaError| < b.options.convergenceDeltaError then
    { b with status := { b.status with convergence := ConvergenceStatus.DOBJECTIVE } }
  else if b.status.maxDeltaX < b.options.convergenceDeltaX then
    { b with status := { b.status with convergence := ConvergenceStatus.DX } }
  else b

/-! ## Scalar expressions (`aslam_backend_expressions/src/ScalarExpression.cpp`)

The class `ScalarExpressionNode` is declared outside the sources at hand. A node is embedded as
the record of the three public methods that the code calls on it; a class derived from it gives
them through its methods `evaluateImplementation`, `evaluateJacobiansImplementation` and
`getDesignVariablesImplementation`. The functions `std::sin` and `std::cos` are parameters. -/

/-- Modelled from the spec: `JacobianContainer::apply(double)` is the view of the container
whose `add` calls are multiplied by the scalar before they reach the accumulators. -/
def JacobianContainer.applyScalar {K : Type} [Field K] {DV : Type}
    {minimalDimensions : DV → Nat} {outRows rows : Nat}
    (jc : JacobianContainer K DV minimalDimensions outRows rows) (c : K) :
    JacobianContainer K DV minimalDimensions outRows rows :=
  { chainRule := c • jc.chainRule, blocks := jc.blocks }

/-- Modelled from the spec: a `ScalarExpressionNode`, through its methods `evaluate()`,
`evaluateJacobians(outJacobians)` and `getDesignVariables(designVariables)`. -/
structure ScalarExpressionNode (K : Type) (DV : Type) (minimalDimensions : DV → Nat) where
  evaluate : K
  evaluateJacobians : {outRows : Nat} → JacobianContainer K DV minimalDimensions outRows 1 →
    JacobianContainer K DV minimalDimensions outRows 1
  getDesignVariables : Finset DV → Finset DV

/-- The class `ScalarExpression`, with its field `_root`. -/
structure ScalarExpression (K : Type) (DV : Type) (minimalDimensions : DV → Nat) where
  _root : ScalarExpressionNode K DV minimalDimensions

/-- The method `ScalarExpression::evaluateJacobians(outJacobians)`. -/
def ScalarExpression.evaluateJacobians {K : Type} {DV : Type} {minimalDimensions : DV → Nat}
    {outRows : Nat} (e : ScalarExpression K DV minimalDimensions)
    (outJacobians : JacobianContainer K DV minimalDimensions outRows 1) :
    JacobianContainer K DV minimalDimensions outRows 1 :=
  e._root.evaluateJacobians outJacobians

/-- The method `ScalarExpression::getDesignVariables`. -/
def ScalarExpression.getDesignVariables {K : Type} {DV : Type} {minimalDimensions : DV → Nat}
    (e : ScalarExpression K DV minimalDimensions) (designVariables : Finset DV) : Finset DV :=
  e._root.getDesignVariables designVariables

/-- The method `UnaryScalarExpressionNode::getDesignVariablesImplementation`. -/
def UnaryScalarExpressionNode.getDesignVariablesImplementation {K : Type} {DV : Type}
    {minimalDimensions : DV → Nat} (_arg : ScalarExpressionNode K DV minimalDimensions)
    (designVariables : Finset DV) : Finset DV :=
  _arg.getDesignVariables designVariables

/-- The method `evaluateImplementation` of the class `Result` of
`createUnaryScalarExpressionOp`. -/
def UnaryScalarExpressionNode.evaluateImplementation {K : Type} {DV : Type}
    {minimalDimensions : DV → Nat} (eval : K → K)
    (_arg : ScalarExpressionNode K DV minimalDimensions) : K :=
  eval _arg.evaluate

/-- The method `evaluateJacobiansImplementation` of the class `Result` of
`createUnaryScalarExpressionOp`. -/
def UnaryScalarExpressionNode.evaluateJacobiansImplementation {K : Type} [Field K] {DV : Type}
    {minimalDimensions : DV → Nat} {outRows : Nat} (evalD : K → K)
    (_arg : ScalarExpressionNode K DV minimalDimensions)
    (outJacobians : JacobianContainer K DV minimalDimensions outRows 1) :
    JacobianContainer K DV minimalDimensions outRows 1 :=
  _arg.evaluateJacobians (outJacobians.applyScalar (evalD _arg.evaluate))

/-- The function `createUnaryScalarExpressionOp(eval, evalD, e)`: the expression whose root is
a `Result` node with the argument `e.root()`. -/
def createUnaryScalarExpressionOp {K : Type} [Field K] {DV : Type}
    {minimalDimensions : DV → Nat} (eval evalD : K → K)
    (e : ScalarExpression K DV minimalDimensions) : ScalarExpression K DV minimalDimensions :=
  { _root :=
      { evaluate := UnaryScalarExpressionNode.evaluateImplementation eval e._root
        evaluateJacobians := fun outJacobians =>
          UnaryScalarExpressionNode.evaluateJacobiansImplementation evalD e._root outJacobians
        getDesignVariables :=
          UnaryScalarExpressionNode.getDesignVariablesImplementation e._root } }

/-- The function `sin(const ScalarExpression&)`, with `std::sin` and `std::cos` as
parameters. -/
def sin {K : Type} [Field K] {DV : Type} {minimalDimensions : DV → Nat} (stdSin stdCos : K → K)
    (e : ScalarExpression K DV minimalDimensions) : ScalarExpression K DV minimalDimensions :=
  createUnaryScalarExpressionOp stdSin stdCos e

/-- The function `cos(const ScalarExpression&)`, with `std::sin` and `std::cos` as
parameters. -/
def cos {K : Type} [Field K] {DV : Type} {minimalDimensions : DV → Nat} (stdSin stdCos : K → K)
    (e : ScalarExpression K DV minimalDimensions) : ScalarExpression K DV minimalDimensions :=
  createUnaryScalarExpressionOp stdCos (fun v => -stdSin v) e

/-- A leaf of a scalar expression: a design variable of the value `x` that adds the block
`J` for itself. -/
def scalarLeaf {K : Type} [Field K] {DV : Type} [DecidableEq DV] {minimalDimensions : DV → Nat}
    (dv : DV) (x : K) (J : Matrix (Fin 1) (Fin (minimalDimensions dv)) K) :
    ScalarExpression K DV minimalDimensions :=
  { _root :=
      { evaluate := x
        evaluateJacobians := fun outJacobians => outJacobians.add dv J
        getDesignVariables := fun designVariables => insert dv designVariables } }

/-! ## Vectors: basic facts -/

theorem coeff_setCoeff_eq (v : List ℚ) (d : Nat) (a : ℚ) (h : d < v.length) :
    coeff (setCoeff v d a) d = a := by
  simp [coeff, setCoeff, List.getD_eq_getElem?_getD, h]

theorem coeff_setCoeff_ne (v : List ℚ) (d e : Nat) (a : ℚ) (h : d ≠ e) :
    coeff (setCoeff v d a) e = coeff v e := by
  simp [coeff, setCoeff, List.getD_eq_getElem?_getD, List.getElem?_set_ne h]

theorem length_setCoeff (v : List ℚ) (d : Nat) (a : ℚ) :
    (setCoeff v d a).length = v.length := by
  simp [setCoeff]

theorem length_Constant (n : Nat) (a : ℚ) : (Constant n a).length = n := by
  simp [Constant]

theorem coeff_Constant (n d : Nat) (a : ℚ) (h : d < n) : coeff (Constant n a) d = a := by
  simp [coeff, Constant, List.getD_eq_getElem?_getD, h]

theorem coeff_cwiseProduct (a b : List ℚ) (d : Nat) :
    coeff (cwiseProduct a b) d = coeff a d * coeff b d := by
  simp only [coeff, cwiseProduct, List.getD_eq_getElem?_getD, List.getElem?_zipWith]
  cases a[d]? <;> cases b[d]? <;> simp

theorem coeff_cwiseAbs (a : List ℚ) (d : Nat) : coeff (cwiseAbs a) d = |coeff a d| := by
  simp only [coeff, cwiseAbs, List.getD_eq_getElem?_getD, List.getElem?_map]
  cases a[d]? <;> simp

theorem coeff_mem (v : List ℚ) (d : Nat) (h : d < v.length) : coeff v d ∈ v := by
  simp only [coeff, List.getD_eq_getElem?_getD, List.getElem?_eq_getElem h, Option.getD_some]
  exact List.getElem_mem h

theorem exists_coeff_of_mem (v : List ℚ) (a : ℚ) (h : a ∈ v) :
    ∃ d, d < v.length ∧ coeff v d = a := by
  obtain ⟨d, hd, hda⟩ := List.getElem_of_mem h
  refine ⟨d, hd, ?_⟩
  simp [coeff, List.getD_eq_getElem?_getD, List.getElem?_eq_getElem hd, hda]

theorem getD_map_pos (v : List ℚ) (d : Nat) :
    (v.map (fun p => decide (p > 0))).getD d false = decide (coeff v d > 0) := by
  simp only [coeff, List.getD_eq_getElem?_getD, List.getElem?_map]
  cases v[d]? <;> simp

theorem getD_map_neg (v : List ℚ) (d : Nat) :
    (v.map (fun p => decide (p < 0))).getD d false = decide (coeff v d < 0) := by
  simp only [coeff, List.getD_eq_getElem?_getD, List.getElem?_map]
  cases v[d]? <;> simp

theorem foldl_max_spec (as : List ℚ) (a : ℚ) :
    as.foldl max a ∈ a :: as ∧ ∀ b ∈ a :: as, b ≤ as.foldl max a := by
  induction as generalizing a with
  | nil => simp
  | cons c cs ih =>
    obtain ⟨hmem, hle⟩ := ih (max a c)
    simp only [List.foldl_cons]
    constructor
    · rcases List.mem_cons.mp hmem with h | h
      · rw [h]
        rcases max_choice a c with h1 | h1 <;> rw [h1] <;> simp
      · exact List.mem_cons_of_mem _ (List.mem_cons_of_mem _ h)
    · intro b hb
      rcases List.mem_cons.mp hb with h | h
      · rw [h]
        exact le_trans (le_max_left a c) (hle _ (List.mem_cons_self _ _))
      · rcases List.mem_cons.mp h with h2 | h2
        · rw [h2]
          exact le_trans (le_max_right a c) (hle _ (List.mem_cons_self _ _))
        · exact hle _ (List.mem_cons_of_mem _ h2)

theorem maxCoeff_spec (v : List ℚ) (m : ℚ) (h : maxCoeff v = some m) :
    m ∈ v ∧ ∀ b ∈ v, b ≤ m := by
  cases v with
  | nil => simp [maxCoeff] at h
  | cons a as =>
    simp only [maxCoeff, Option.some.injEq] at h
    rw [← h]
    exact foldl_max_spec as a

theorem maxCoeff_isSome (v : List ℚ) (h : 0 < v.length) : ∃ m, maxCoeff v = some m := by
  cases v with
  | nil => simp at h
  | cons a as => exact ⟨_, rfl⟩

theorem Norm.lt_iff_sqrt (a : Norm) (c : ℚ) :
    a.lt c ↔ Real.sqrt (a.sq : ℝ) < (c : ℝ) := by
  unfold Norm.lt
  constructor
  · rintro ⟨hc, h⟩
    have hc' : (0 : ℝ) < c := by exact_mod_cast hc
    rw [Real.sqrt_lt' hc']
    have : ((a.sq : ℚ) : ℝ) < ((c * c : ℚ) : ℝ) := by exact_mod_cast h
    simpa [pow_two] using this
  · intro h
    have hc' : (0 : ℝ) < c := lt_of_le_of_lt (Real.sqrt_nonneg _) h
    have hc : 0 < c := by exact_mod_cast hc'
    refine ⟨hc, ?_⟩
    rw [Real.sqrt_lt' hc'] at h
    have : ((a.sq : ℚ) : ℝ) < ((c * c : ℚ) : ℝ) := by simpa [pow_two] using h
    exact_mod_cast this

/-! ## The loop over the dimensions -/

theorem SameFrame.refl {X : Type} (s : OptimizerRprop X) : SameFrame s s := by
  simp [SameFrame]

theorem SameFrame.trans {X : Type} {s t u : OptimizerRprop X} (h1 : SameFrame s t)
    (h2 : SameFrame t u) : SameFrame s u := by
  obtain ⟨a1, a2, a3, a4, a5, a6, a7, a8⟩ := h1
  obtain ⟨b1, b2, b3, b4, b5, b6, b7, b8⟩ := h2
  exact ⟨b1.trans a1, b2.trans a2, b3.trans a3, b4.trans a4, b5.trans a5, b6.trans a6,
    b7.trans a7, b8.trans a8⟩

theorem dimensionStep_frame {X : Type} (gradient : List ℚ) (switchNo switchYes : List Bool)
    (errorIncreased : Bool) (s : OptimizerRprop X) (d : Nat) :
    SameFrame s (OptimizerRprop.dimensionStep gradient switchNo switchYes errorIncreased s d) := by
  unfold OptimizerRprop.dimensionStep SameFrame
  cases hno : switchNo.getD d false <;> cases hyes : switchYes.getD d false <;>
    cases hm : s.options.method <;> cases errorIncreased <;>
    simp [hm, length_setCoeff]

theorem dimensionStep_other {X : Type} (gradient : List ℚ) (switchNo switchYes : List Bool)
    (errorIncreased : Bool) (s : OptimizerRprop X) (d e : Nat) (h : d ≠ e) :
    coeff (OptimizerRprop.dimensionStep gradient switchNo switchYes errorIncreased s d).delta e
        = coeff s.delta e ∧
    coeff (OptimizerRprop.dimensionStep gradient switchNo switchYes errorIncreased s d).dx e
        = coeff s.dx e ∧
    coeff (OptimizerRprop.dimensionStep gradient switchNo switchYes errorIncreased s d).prev_gradient e
        = coeff s.prev_gradient e := by
  unfold OptimizerRprop.dimensionStep
  cases hno : switchNo.getD d false <;> cases hyes : switchYes.getD d false <;>
    cases hm : s.options.method <;> cases errorIncreased <;>
    simp [hm, coeff_setCoeff_ne _ _ _ _ h]

theorem dimensionStep_at {X : Type} (gradient : List ℚ) (switchNo switchYes : List Bool)
    (errorIncreased : Bool) (s : OptimizerRprop X) (d : Nat) (h1 : d < s.delta.length)
    (h2 : d < s.dx.length) (h3 : d < s.prev_gradient.length) :
    coeff (OptimizerRprop.dimensionStep gradient switchNo switchYes errorIncreased s d).delta d
        = newDelta s.options (switchNo.getD d false) (switchYes.getD d false) (coeff s.delta d) ∧
    coeff (OptimizerRprop.dimensionStep gradient switchNo switchYes errorIncreased s d).dx d
        = newDx s.options errorIncreased (switchYes.getD d false) (coeff gradient d)
            (newDelta s.options (switchNo.getD d false) (switchYes.getD d false) (coeff s.delta d))
            (coeff s.dx d) ∧
    coeff (OptimizerRprop.dimensionStep gradient switchNo switchYes errorIncreased s d).prev_gradient d
        = newPrevGradient s.options (switchYes.getD d false) (coeff s.prev_gradient d) := by
  unfold OptimizerRprop.dimensionStep newDelta newDx newPrevGradient
  cases hno : switchNo.getD d false <;> cases hyes : switchYes.getD d false <;>
    cases hm : s.options.method <;> cases errorIncreased <;>
    simp [hm, coeff_setCoeff_eq, h1, h2, h3, length_setCoeff]

theorem dimensionLoop_spec {X : Type} (gradient : List ℚ) (switchNo switchYes : List Bool)
    (errorIncreased : Bool) (s : OptimizerRprop X) (n : Nat) :
    SameFrame s ((List.range n).foldl
        (OptimizerRprop.dimensionStep gradient switchNo switchYes errorIncreased) s) ∧
    (∀ e, n ≤ e →
      coeff ((List.range n).foldl
        (OptimizerRprop.dimensionStep gradient switchNo switchYes errorIncreased) s).delta e
          = coeff s.delta e ∧
      coeff ((List.range n).foldl
        (OptimizerRprop.dimensionStep gradient switchNo switchYes errorIncreased) s).dx e
          = coeff s.dx e ∧
      coeff ((List.range n).foldl
        (OptimizerRprop.dimensionStep gradient switchNo switchYes errorIncreased) s).prev_gradient e
          = coeff s.prev_gradient e) ∧
    (∀ d, d < n → d < s.delta.length → d < s.dx.length → d < s.prev_gradient.length →
      coeff ((List.range n).foldl
        (OptimizerRprop.dimensionStep gradient switchNo switchYes errorIncreased) s).delta d
          = newDelta s.options (switchNo.getD d false) (switchYes.getD d false) (coeff s.delta d) ∧
      coeff ((List.range n).foldl
        (OptimizerRprop.dimensionStep gradient switchNo switchYes errorIncreased) s).dx d
          = newDx s.options errorIncreased (switchYes.getD d false) (coeff gradient d)
              (newDelta s.options (switchNo.getD d false) (switchYes.getD d false)
                (coeff s.delta d))
              (coeff s.dx d) ∧
      coeff ((List.range n).foldl
        (OptimizerRprop.dimensionStep gradient switchNo switchYes errorIncreased) s).prev_gradient d
          = newPrevGradient s.options (switchYes.getD d false) (coeff s.prev_gradient d)) := by
  induction n with
  | zero =>
    refine ⟨by simpa using SameFrame.refl s, ?_, ?_⟩
    · intro e _
      simp
    · intro d hd
      omega
  | succ n ih =>
    obtain ⟨hframe, hge, hlt⟩ := ih
    rw [List.range_succ, List.foldl_append]
    simp only [List.foldl_cons, List.foldl_nil]
    refine ⟨hframe.trans (dimensionStep_frame _ _ _ _ _ _), ?_, ?_⟩
    · intro e he
      have hne : n ≠ e := by omega
      obtain ⟨a1, a2, a3⟩ := dimensionStep_other gradient switchNo switchYes errorIncreased
        ((List.range n).foldl
          (OptimizerRprop.dimensionStep gradient switchNo switchYes errorIncreased) s) n e hne
      obtain ⟨b1, b2, b3⟩ := hge e (by omega)
      exact ⟨a1.trans b1, a2.trans b2, a3.trans b3⟩
    · intro d hd h1 h2 h3
      by_cases hdn : d = n
      · subst hdn
        obtain ⟨f1, _, _, _, _, f6, f7, f8⟩ := hframe
        obtain ⟨b1, b2, b3⟩ := hge d (le_refl d)
        obtain ⟨a1, a2, a3⟩ := dimensionStep_at gradient switchNo switchYes errorIncreased
          ((List.range d).foldl
            (OptimizerRprop.dimensionStep gradient switchNo switchYes errorIncreased) s) d
          (by omega) (by omega) (by omega)
        simp only [f1, b1, b2, b3] at a1 a2 a3
        exact ⟨a1, a2, a3⟩
      · have hne : n ≠ d := fun h => hdn h.symm
        obtain ⟨a1, a2, a3⟩ := dimensionStep_other gradient switchNo switchYes errorIncreased
          ((List.range n).foldl
            (OptimizerRprop.dimensionStep gradient switchNo switchYes errorIncreased) s) n d hne
        obtain ⟨b1, b2, b3⟩ := hlt d (by omega) h1 h2 h3
        exact ⟨a1.trans b1, a2.trans b2, a3.trans b3⟩

/-! ## One iteration -/

theorem computeError_fst {X : Type} (P : ProblemManager X) (s : OptimizerRprop X) :
    ((s.countGradient P).computeError P).1.options = s.options ∧
    ((s.countGradient P).computeError P).1.isInitialized = s.isInitialized ∧
    ((s.countGradient P).computeError P).1.x = s.x ∧
    ((s.countGradient P).computeError P).1.delta = s.delta ∧
    ((s.countGradient P).computeError P).1.dx = s.dx ∧
    ((s.countGradient P).computeError P).1.prev_gradient = s.prev_gradient ∧
    ((s.countGradient P).computeError P).1.returnValue.convergence = s.returnValue.convergence ∧
    ((s.countGradient P).computeError P).1.returnValue.nIterations
      = s.returnValue.nIterations + 1 := by
  unfold OptimizerRprop.computeError OptimizerRprop.countGradient
  by_cases hm : s.options.method = Method.IRPROP_PLUS <;> simp [hm]

theorem errorIncreased_eq {X : Type} (P : ProblemManager X) (s : OptimizerRprop X) :
    s.errorIncreased P
      = decide (s.options.method = Method.IRPROP_PLUS ∧ P.evaluateError s.x > s.prev_error) := by
  unfold OptimizerRprop.errorIncreased OptimizerRprop.computeError OptimizerRprop.countGradient
  by_cases hm : s.options.method = Method.IRPROP_PLUS <;> simp [hm]

theorem computeStep_frame {X : Type} (P : ProblemManager X) (g : List ℚ) (ei : Bool)
    (s : OptimizerRprop X) :
    (OptimizerRprop.computeStep P g ei s).options = s.options ∧
    (OptimizerRprop.computeStep P g ei s).isInitialized = s.isInitialized ∧
    (OptimizerRprop.computeStep P g ei s).x = s.x ∧
    (OptimizerRprop.computeStep P g ei s).returnValue = s.returnValue ∧
    (OptimizerRprop.computeStep P g ei s).delta.length = s.delta.length ∧
    (OptimizerRprop.computeStep P g ei s).dx.length = s.dx.length ∧
    (OptimizerRprop.computeStep P g ei s).prev_gradient.length = g.length := by
  obtain ⟨⟨f1, f2, f3, _, f5, f6, f7, f8⟩, _, _⟩ := dimensionLoop_spec g
    ((cwiseProduct s.prev_gradient g).map (fun p => decide (p > 0)))
    ((cwiseProduct s.prev_gradient g).map (fun p => decide (p < 0))) ei
    { s with prev_gradient := g } P.numOptParameters
  exact ⟨f1, f2, f3, f5, f6, f7, f8⟩

theorem computeStep_coeff {X : Type} (P : ProblemManager X) (g : List ℚ) (ei : Bool)
    (s : OptimizerRprop X) (d : Nat) (hd : d < P.numOptParameters) (h1 : d < s.delta.length)
    (h2 : d < s.dx.length) (h3 : d < g.length) :
    coeff (OptimizerRprop.computeStep P g ei s).delta d
      = newDelta s.options (decide (coeff s.prev_gradient d * coeff g d > 0))
          (decide (coeff s.prev_gradient d * coeff g d < 0)) (coeff s.delta d) ∧
    coeff (OptimizerRprop.computeStep P g ei s).dx d
      = newDx s.options ei (decide (coeff s.prev_gradient d * coeff g d < 0)) (coeff g d)
          (newDelta s.options (decide (coeff s.prev_gradient d * coeff g d > 0))
            (decide (coeff s.prev_gradient d * coeff g d < 0)) (coeff s.delta d))
          (coeff s.dx d) ∧
    coeff (OptimizerRprop.computeStep P g ei s).prev_gradient d
      = newPrevGradient s.options (decide (coeff s.prev_gradient d * coeff g d < 0))
          (coeff g d) := by
  obtain ⟨_, _, hlt⟩ := dimensionLoop_spec g
    ((cwiseProduct s.prev_gradient g).map (fun p => decide (p > 0)))
    ((cwiseProduct s.prev_gradient g).map (fun p => decide (p < 0))) ei
    { s with prev_gradient := g } P.numOptParameters
  have h := hlt d hd h1 h2 h3
  simp only [getD_map_pos, getD_map_neg, coeff_cwiseProduct] at h
  exact h

theorem stepped_frame {X : Type} (P : ProblemManager X) (s : OptimizerRprop X) :
    (s.stepped P).options = s.options ∧ (s.stepped P).isInitialized = s.isInitialized ∧
    (s.stepped P).x = s.x ∧ (s.stepped P).delta.length = s.delta.length ∧
    (s.stepped P).dx.length = s.dx.length ∧
    (s.stepped P).prev_gradient.length = (s.gradient P).length ∧
    (s.stepped P).returnValue.convergence = s.returnValue.convergence ∧
    (s.stepped P).returnValue.nIterations = s.returnValue.nIterations + 1 := by
  obtain ⟨e1, e2, e3, e4, e5, _, e7, e8⟩ := computeError_fst P s
  obtain ⟨f1, f2, f3, f4, f5, f6, f7⟩ := computeStep_frame P (s.gradient P)
    ((s.countGradient P).computeError P).2 ((s.countGradient P).computeError P).1
  refine ⟨f1.trans e1, f2.trans e2, f3.trans e3, ?_, ?_, f7, ?_, ?_⟩
  · exact f5.trans (congrArg List.length e4)
  · exact f6.trans (congrArg List.length e5)
  · exact (congrArg RpropReturnValue.convergence f4).trans e7
  · exact (congrArg RpropReturnValue.nIterations f4).trans e8

theorem stepped_coeff {X : Type} (P : ProblemManager X) (s : OptimizerRprop X) (d : Nat)
    (hd : d < P.numOptParameters) (h1 : d < s.delta.length) (h2 : d < s.dx.length)
    (h3 : d < (s.gradient P).length) :
    coeff (s.stepped P).delta d
      = newDelta s.options (decide (coeff s.prev_gradient d * coeff (s.gradient P) d > 0))
          (decide (coeff s.prev_gradient d * coeff (s.gradient P) d < 0)) (coeff s.delta d) ∧
    coeff (s.stepped P).dx d
      = newDx s.options (s.errorIncreased P)
          (decide (coeff s.prev_gradient d * coeff (s.gradient P) d < 0))
          (coeff (s.gradient P) d) (coeff (s.stepped P).delta d) (coeff s.dx d) ∧
    coeff (s.stepped P).prev_gradient d
      = newPrevGradient s.options (decide (coeff s.prev_gradient d * coeff (s.gradient P) d < 0))
          (coeff (s.gradient P) d) := by
  obtain ⟨e1, _, _, e4, e5, e6, _, _⟩ := computeError_fst P s
  obtain ⟨a1, a2, a3⟩ := computeStep_coeff P (s.gradient P)
    ((s.countGradient P).computeError P).2 ((s.countGradient P).computeError P).1 d hd
    (by rw [e4]; exact h1) (by rw [e5]; exact h2) h3
  rw [e1, e4, e6] at a1
  rw [e1, e4, e5, e6] at a2
  rw [e1, e6] at a3
  have hs : s.stepped P = OptimizerRprop.computeStep P (s.gradient P)
      ((s.countGradient P).computeError P).2 ((s.countGradient P).computeError P).1 := rfl
  have he : s.errorIncreased P = ((s.countGradient P).computeError P).2 := rfl
  rw [hs, he, a1]
  exact ⟨rfl, a2, a3⟩

theorem iteration_of_pass {X : Type} (P : ProblemManager X) (s : OptimizerRprop X)
    (hpass : ¬ s.gradientNormConverged P) :
    s.iteration P = OptimizerRprop.checkDx P (s.stepped P) := by
  unfold OptimizerRprop.iteration
  simp [hpass]

theorem checkDx_state {X : Type} (P : ProblemManager X) (t : OptimizerRprop X)
    (h : 0 < t.dx.length) :
    ∃ c, OptimizerRprop.checkDx P t = Except.ok c ∧ c.state.delta = t.delta ∧
      c.state.dx = t.dx ∧ c.state.prev_gradient = t.prev_gradient ∧
      c.state.prev_error = t.prev_error ∧ c.state.options = t.options := by
  obtain ⟨m, hm⟩ := maxCoeff_isSome (cwiseAbs t.dx) (by simpa [cwiseAbs] using h)
  unfold OptimizerRprop.checkDx
  rw [hm]
  by_cases hlt : m < t.options.convergenceDx
  · simp [hlt, LoopControl.state]
  · simp [hlt, LoopControl.state]

theorem iteration_state {X : Type} (P : ProblemManager X) (s : OptimizerRprop X)
    (hpass : ¬ s.gradientNormConverged P) (h : 0 < s.dx.length) :
    ∃ c, s.iteration P = Except.ok c ∧ c.state.delta = (s.stepped P).delta ∧
      c.state.dx = (s.stepped P).dx ∧ c.state.prev_gradient = (s.stepped P).prev_gradient ∧
      c.state.prev_error = (s.stepped P).prev_error ∧ c.state.options = s.options := by
  obtain ⟨f1, _, _, _, f5, _, _, _⟩ := stepped_frame P s
  obtain ⟨c, hc, h1, h2, h3, h4, h5⟩ := checkDx_state P (s.stepped P) (by rw [f5]; exact h)
  exact ⟨c, by rw [iteration_of_pass P s hpass]; exact hc, h1, h2, h3, h4, h5.trans f1⟩

theorem stepped_prev_error {X : Type} (P : ProblemManager X) (s : OptimizerRprop X)
    (hm : s.options.method = Method.IRPROP_PLUS) :
    (s.stepped P).prev_error = P.evaluateError s.x := by
  obtain ⟨_, _, _, f4, _, _, _, _⟩ := (dimensionLoop_spec (s.gradient P)
    ((cwiseProduct ((s.countGradient P).computeError P).1.prev_gradient (s.gradient P)).map
      (fun p => decide (p > 0)))
    ((cwiseProduct ((s.countGradient P).computeError P).1.prev_gradient (s.gradient P)).map
      (fun p => decide (p < 0)))
    ((s.countGradient P).computeError P).2
    { ((s.countGradient P).computeError P).1 with prev_gradient := s.gradient P }
    P.numOptParameters).1
  have hs : (s.stepped P).prev_error = ((s.countGradient P).computeError P).1.prev_error := f4
  rw [hs]
  unfold OptimizerRprop.computeError OptimizerRprop.countGradient
  simp [hm]

theorem iteration_of_converged {X : Type} (P : ProblemManager X) (s : OptimizerRprop X)
    (hg : s.gradientNormConverged P) :
    s.iteration P = Except.ok (LoopControl.brk
      { s.countGradient P with
        returnValue :=
          { (s.countGradient P).returnValue with
            convergence := ConvergenceCriterion.GRADIENT_NORM } }) := by
  unfold OptimizerRprop.iteration
  simp [hg]

theorem checkDx_brk {X : Type} (P : ProblemManager X) (t : OptimizerRprop X) (m : ℚ)
    (hm : maxCoeff (cwiseAbs t.dx) = some m) (hlt : m < t.options.convergenceDx) :
    OptimizerRprop.checkDx P t = Except.ok (LoopControl.brk
      { t with
        returnValue :=
          { t.returnValue with maxDx := some m, convergence := ConvergenceCriterion.DX } }) := by
  unfold OptimizerRprop.checkDx
  rw [hm]
  simp [hlt]

theorem checkDx_next {X : Type} (P : ProblemManager X) (t : OptimizerRprop X) (m : ℚ)
    (hm : maxCoeff (cwiseAbs t.dx) = some m) (hlt : ¬ m < t.options.convergenceDx) :
    OptimizerRprop.checkDx P t = Except.ok (LoopControl.next
      { t with
        returnValue := { t.returnValue with maxDx := some m }
        x := P.applyStateUpdate t.x t.dx }) := by
  unfold OptimizerRprop.checkDx
  rw [hm]
  simp [hlt]

theorem checkDx_next_inv {X : Type} (P : ProblemManager X) (t u : OptimizerRprop X)
    (h : OptimizerRprop.checkDx P t = Except.ok (LoopControl.next u)) :
    u.options = t.options ∧ u.returnValue.convergence = t.returnValue.convergence ∧
      u.returnValue.nIterations = t.returnValue.nIterations := by
  unfold OptimizerRprop.checkDx at h
  cases hm : maxCoeff (cwiseAbs t.dx) with
  | none => simp [hm] at h
  | some m =>
    by_cases hlt : m < t.options.convergenceDx
    · simp [hm, hlt] at h
    · simp [hm, hlt] at h
      rw [← h]
      simp

theorem iteration_next_inv {X : Type} (P : ProblemManager X) (s u : OptimizerRprop X)
    (h : s.iteration P = Except.ok (LoopControl.next u)) :
    u.options = s.options ∧ u.returnValue.convergence = s.returnValue.convergence ∧
      u.returnValue.nIterations = s.returnValue.nIterations + 1 := by
  by_cases hg : s.gradientNormConverged P
  · rw [iteration_of_converged P s hg] at h
    simp at h
  · rw [iteration_of_pass P s hg] at h
    obtain ⟨h1, h2, h3⟩ := checkDx_next_inv P _ _ h
    obtain ⟨f1, _, _, _, _, _, f7, f8⟩ := stepped_frame P s
    exact ⟨h1.trans f1, h2.trans f7, h3.trans f8⟩

/-! ## The loop -/

theorem static_cast_size_t_of_nonneg (i : Int) (h0 : 0 ≤ i) (h1 : i < 2 ^ 31) :
    static_cast_size_t i = i.toNat := by
  unfold static_cast_size_t
  rw [Int.emod_eq_of_lt h0 (by omega)]

theorem optimizeLoop_done {X : Type} (P : ProblemManager X) (fuel cnt : Nat)
    (s : OptimizerRprop X)
    (h : ¬ (s.options.maxIterations = -1 ∨ cnt < static_cast_size_t s.options.maxIterations)) :
    OptimizerRprop.optimizeLoop P fuel cnt s = Except.ok s := by
  unfold OptimizerRprop.optimizeLoop
  simp only [h, if_false]

theorem optimizeLoop_brk {X : Type} (P : ProblemManager X) (fuel cnt : Nat)
    (s t : OptimizerRprop X)
    (h : s.options.maxIterations = -1 ∨ cnt < static_cast_size_t s.options.maxIterations)
    (hi : s.iteration P = Except.ok (LoopControl.brk t)) :
    OptimizerRprop.optimizeLoop P (fuel + 1) cnt s = Except.ok t := by
  unfold OptimizerRprop.optimizeLoop
  simp only [h, if_true, hi]

theorem optimizeLoop_next {X : Type} (P : ProblemManager X) (fuel cnt : Nat)
    (s t : OptimizerRprop X)
    (h : s.options.maxIterations = -1 ∨ cnt < static_cast_size_t s.options.maxIterations)
    (hi : s.iteration P = Except.ok (LoopControl.next t)) :
    OptimizerRprop.optimizeLoop P (fuel + 1) cnt s
      = OptimizerRprop.optimizeLoop P fuel ((cnt + 1) % 2 ^ 64) t := by
  conv_lhs => unfold OptimizerRprop.optimizeLoop
  simp only [h, if_true, hi]

theorem optimizeLoop_runNext {X : Type} (P : ProblemManager X) (N : Nat) (hN : N < 2 ^ 31)
    (k : Nat) :
    ∀ (fuel cnt : Nat) (s t : OptimizerRprop X), s.options.maxIterations = (N : Int) →
      cnt + k = N → k ≤ fuel → OptimizerRprop.runNext P k s = some t →
      OptimizerRprop.optimizeLoop P fuel cnt s = Except.ok t ∧
        t.returnValue.convergence = s.returnValue.convergence ∧
        t.returnValue.nIterations = s.returnValue.nIterations + k := by
  induction k with
  | zero =>
    intro fuel cnt s t hmax hcnt _ hrun
    simp only [OptimizerRprop.runNext, Option.some.injEq] at hrun
    subst hrun
    refine ⟨optimizeLoop_done P fuel cnt s ?_, rfl, rfl⟩
    rw [hmax, static_cast_size_t_of_nonneg _ (by omega) (by omega)]
    simp only [Int.toNat_ofNat]
    omega
  | succ k ih =>
    intro fuel cnt s t hmax hcnt hfuel hrun
    obtain ⟨f, rfl⟩ : ∃ f, fuel = f + 1 := ⟨fuel - 1, by omega⟩
    unfold OptimizerRprop.runNext at hrun
    cases hi : s.iteration P with
    | error e => simp [hi] at hrun
    | ok c =>
      cases c with
      | brk u => simp [hi] at hrun
      | next u =>
        simp only [hi] at hrun
        obtain ⟨i1, i2, i3⟩ := iteration_next_inv P s u hi
        have hcond : s.options.maxIterations = -1 ∨
            cnt < static_cast_size_t s.options.maxIterations := by
          right
          rw [hmax, static_cast_size_t_of_nonneg _ (by omega) (by omega)]
          simp only [Int.toNat_ofNat]
          omega
        rw [optimizeLoop_next P f cnt s u hcond hi]
        have hmod : (cnt + 1) % 2 ^ 64 = cnt + 1 := Nat.mod_eq_of_lt (by omega)
        rw [hmod]
        obtain ⟨j1, j2, j3⟩ := ih f (cnt + 1) u t (by rw [i1]; exact hmax) (by omega)
          (by omega) hrun
        refine ⟨j1, j2.trans i2, ?_⟩
        rw [j3, i3]
        omega

theorem ensureInitialized_reset {X : Type} (P : ProblemManager X) (s : OptimizerRprop X) :
    ((s.reset P).ensureInitialized P).options = s.options ∧
    ((s.reset P).ensureInitialized P).x = s.x ∧
    ((s.reset P).ensureInitialized P).delta = (s.reset P).delta ∧
    ((s.reset P).ensureInitialized P).dx = (s.reset P).dx ∧
    ((s.reset P).ensureInitialized P).prev_gradient = (s.reset P).prev_gradient ∧
    ((s.reset P).ensureInitialized P).prev_error = (s.reset P).prev_error ∧
    ((s.reset P).ensureInitialized P).returnValue = (s.reset P).returnValue := by
  unfold OptimizerRprop.ensureInitialized OptimizerRprop.init OptimizerRprop.reset
    ProblemManager.init
  cases s.isInitialized <;> simp [RpropReturnValue.reset]

theorem gradient_congr {X : Type} (P : ProblemManager X) (s t : OptimizerRprop X)
    (ho : t.options = s.options) (hx : t.x = s.x) : t.gradient P = s.gradient P := by
  unfold OptimizerRprop.gradient
  rw [ho, hx]

theorem gradientNormConverged_congr {X : Type} (P : ProblemManager X) (s t : OptimizerRprop X)
    (ho : t.options = s.options) (hx : t.x = s.x) :
    t.gradientNormConverged P ↔ s.gradientNormConverged P := by
  unfold OptimizerRprop.gradientNormConverged
  rw [gradient_congr P s t ho hx, ho]

theorem check_ok_iff {X : Type} (o : OptimizerRpropOptions X) :
    o.check = Except.ok () ↔
      (o.etaMinus > 0 ∧ o.etaPlus > o.etaMinus ∧ o.initialDelta > 0 ∧ o.minDelta > 0 ∧
        o.maxDelta > o.minDelta ∧ o.convergenceGradientNorm ≥ 0 ∧ o.convergenceDx ≥ 0 ∧
        (o.convergenceDx > 0 ∨ o.convergenceGradientNorm > 0) ∧ o.maxIterations ≥ -1) := by
  unfold OptimizerRpropOptions.check SM_ASSERT_GT SM_ASSERT_GE SM_ASSERT_TRUE SM_ASSERT_GE_int
  simp only [bind, Except.bind]
  by_cases h1 : o.etaMinus > 0 <;> simp only [h1, if_true, if_false, true_and, false_and] <;>
    [skip; simp]
  by_cases h2 : o.etaPlus > o.etaMinus <;> simp only [h2, if_true, if_false, true_and, false_and] <;>
    [skip; simp]
  by_cases h3 : o.initialDelta > 0 <;> simp only [h3, if_true, if_false, true_and, false_and] <;>
    [skip; simp]
  by_cases h4 : o.minDelta > 0 <;> simp only [h4, if_true, if_false, true_and, false_and] <;>
    [skip; simp]
  by_cases h5 : o.maxDelta > o.minDelta <;> simp only [h5, if_true, if_false, true_and, false_and] <;>
    [skip; simp]
  by_cases h6 : o.convergenceGradientNorm ≥ 0 <;>
    simp only [h6, if_true, if_false, true_and, false_and] <;> [skip; simp]
  by_cases h7 : o.convergenceDx ≥ 0 <;> simp only [h7, if_true, if_false, true_and, false_and] <;>
    [skip; simp]
  by_cases h8 : o.convergenceDx > 0 ∨ o.convergenceGradientNorm > 0
  · have h8b : (decide (o.convergenceDx > 0) || decide (o.convergenceGradientNorm > 0)) = true := by
      simpa using h8
    simp only [h8b, h8, if_true, true_and]
    by_cases h9 : o.maxIterations ≥ -1 <;> simp [h9]
  · have h8b : (decide (o.convergenceDx > 0) || decide (o.convergenceGradientNorm > 0)) = false := by
      rw [Bool.eq_false_iff]
      simpa using h8
    simp [h8b, h8]

/-! ## The claims on one iteration -/

/-- C1: in an iteration of `optimize` that passes the gradient-norm check, for every dimension `d`,
with `p = prev_gradient(d) * gradient(d)`: the new `delta(d)` is `min(delta(d) * etaPlus, maxDelta)`
if `p > 0`, it is `max(delta(d) * etaMinus, minDelta)` if `p < 0`, and it is the old `delta(d)` if
`p = 0`. -/
theorem C1_delta_adaptation {X : Type} (P : ProblemManager X) (s : OptimizerRprop X) (d : Nat)
    (hw : s.WellSized P) (hpass : ¬ s.gradientNormConverged P) (hd : d < P.numOptParameters) :
    ∃ c, s.iteration P = Except.ok c ∧
      (coeff s.prev_gradient d * coeff (s.gradient P) d > 0 →
        coeff c.state.delta d = min (coeff s.delta d * s.options.etaPlus) s.options.maxDelta) ∧
      (coeff s.prev_gradient d * coeff (s.gradient P) d < 0 →
        coeff c.state.delta d = max (coeff s.delta d * s.options.etaMinus) s.options.minDelta) ∧
      (coeff s.prev_gradient d * coeff (s.gradient P) d = 0 →
        coeff c.state.delta d = coeff s.delta d) := by
  obtain ⟨w1, w2, _, w4⟩ := hw
  obtain ⟨c, hc, e1, _, _, _, _⟩ := iteration_state P s hpass (by omega)
  obtain ⟨a1, _, _⟩ := stepped_coeff P s d hd (by omega) (by omega) (by omega)
  refine ⟨c, hc, ?_, ?_, ?_⟩
  · intro hp
    rw [e1, a1]
    simp [newDelta, hp]
  · intro hp
    rw [e1, a1]
    simp [newDelta, hp, not_lt.mpr (le_of_lt hp)]
  · intro hp
    rw [e1, a1]
    simp [newDelta, hp]

/-- Witness of C1 on the quadratic problem: in the second iteration the gradient of dimension 0
switches its sign and `delta(0)` goes from 3 to 3/2. -/
theorem C1_delta_adaptation_witness :
    (quadraticSecond Method.RPROP_PLUS 0).WellSized quadratic ∧
    ¬ (quadraticSecond Method.RPROP_PLUS 0).gradientNormConverged quadratic ∧
    0 < quadratic.numOptParameters ∧
    ∃ c, (quadraticSecond Method.RPROP_PLUS 0).iteration quadratic = Except.ok c ∧
      coeff c.state.delta 0 = 3 / 2 := by
  have hw : (quadraticSecond Method.RPROP_PLUS 0).WellSized quadratic := ⟨rfl, rfl, rfl, rfl⟩
  have hpass : ¬ (quadraticSecond Method.RPROP_PLUS 0).gradientNormConverged quadratic := by
    decide!
  have hd : 0 < quadratic.numOptParameters := by decide
  obtain ⟨c, hc, _, h2, _⟩ :=
    C1_delta_adaptation quadratic (quadraticSecond Method.RPROP_PLUS 0) 0 hw hpass hd
  refine ⟨hw, hpass, hd, c, hc, ?_⟩
  rw [h2 (by decide!)]
  decide!

/-- C2: with the method RPROP_MINUS, in an iteration that passes the gradient-norm check, the
step of every dimension `d` is `dx(d) = -sign(gradient(d)) * delta(d)` with the `delta(d)` adapted
in this iteration, whatever the sign of `prev_gradient(d) * gradient(d)` and the previous
`dx(d)`. -/
theorem C2_rprop_minus_step {X : Type} (P : ProblemManager X) (s : OptimizerRprop X) (d : Nat)
    (hw : s.WellSized P) (hpass : ¬ s.gradientNormConverged P) (hd : d < P.numOptParameters)
    (hm : s.options.method = Method.RPROP_MINUS) :
    ∃ c, s.iteration P = Except.ok c ∧
      coeff c.state.dx d = -(sign (coeff (s.gradient P) d)) * coeff c.state.delta d := by
  obtain ⟨w1, w2, _, w4⟩ := hw
  obtain ⟨c, hc, e1, e2, _, _, _⟩ := iteration_state P s hpass (by omega)
  obtain ⟨_, a2, _⟩ := stepped_coeff P s d hd (by omega) (by omega) (by omega)
  refine ⟨c, hc, ?_⟩
  rw [e1, e2, a2]
  simp [newDx, hm]

/-- Witness of C2 on the quadratic problem: in the second iteration the gradient of dimension 0
has switched to 4 and `delta(0)` is adapted to 3/2, so the step is `-3/2`. -/
theorem C2_rprop_minus_step_witness :
    (quadraticSecond Method.RPROP_MINUS 0).WellSized quadratic ∧
    ¬ (quadraticSecond Method.RPROP_MINUS 0).gradientNormConverged quadratic ∧
    0 < quadratic.numOptParameters ∧
    (quadraticSecond Method.RPROP_MINUS 0).options.method = Method.RPROP_MINUS ∧
    ∃ c, (quadraticSecond Method.RPROP_MINUS 0).iteration quadratic = Except.ok c ∧
      coeff c.state.dx 0
        = -(sign (coeff ((quadraticSecond Method.RPROP_MINUS 0).gradient quadratic) 0))
            * coeff c.state.delta 0 :=
  ⟨⟨rfl, rfl, rfl, rfl⟩, by decide!, by decide, rfl,
    C2_rprop_minus_step quadratic (quadraticSecond Method.RPROP_MINUS 0) 0 ⟨rfl, rfl, rfl, rfl⟩
      (by decide!) (by decide) rfl⟩

/-- C3: with the method RPROP_PLUS, in an iteration that passes the gradient-norm check, for every
dimension `d`: if `prev_gradient(d) * gradient(d) < 0` the new `dx(d)` is the negated previous
`dx(d)` and the stored previous gradient of `d` is 0; otherwise
`dx(d) = -sign(gradient(d)) * delta(d)` and the stored previous gradient of `d` is the current
`gradient(d)`. -/
theorem C3_rprop_plus_step {X : Type} (P : ProblemManager X) (s : OptimizerRprop X) (d : Nat)
    (hw : s.WellSized P) (hpass : ¬ s.gradientNormConverged P) (hd : d < P.numOptParameters)
    (hm : s.options.method = Method.RPROP_PLUS) :
    ∃ c, s.iteration P = Except.ok c ∧
      (coeff s.prev_gradient d * coeff (s.gradient P) d < 0 →
        coeff c.state.dx d = -(coeff s.dx d) ∧ coeff c.state.prev_gradient d = 0) ∧
      (¬ coeff s.prev_gradient d * coeff (s.gradient P) d < 0 →
        coeff c.state.dx d = -(sign (coeff (s.gradient P) d)) * coeff c.state.delta d ∧
        coeff c.state.prev_gradient d = coeff (s.gradient P) d) := by
  obtain ⟨w1, w2, _, w4⟩ := hw
  obtain ⟨c, hc, e1, e2, e3, _, _⟩ := iteration_state P s hpass (by omega)
  obtain ⟨_, a2, a3⟩ := stepped_coeff P s d hd (by omega) (by omega) (by omega)
  refine ⟨c, hc, ?_, ?_⟩
  · intro hp
    rw [e2, e3, a2, a3]
    simp [newDx, newPrevGradient, hm, hp]
  · intro hp
    rw [e1, e2, e3, a2, a3]
    simp [newDx, newPrevGradient, hm, hp]

/-- Witness of C3 on the quadratic problem: in the second iteration dimension 0 switches, its step
3 is reverted to -3 and its stored previous gradient is 0. -/
theorem C3_rprop_plus_step_witness :
    (quadraticSecond Method.RPROP_PLUS 0).WellSized quadratic ∧
    ¬ (quadraticSecond Method.RPROP_PLUS 0).gradientNormConverged quadratic ∧
    0 < quadratic.numOptParameters ∧
    (quadraticSecond Method.RPROP_PLUS 0).options.method = Method.RPROP_PLUS ∧
    ∃ c, (quadraticSecond Method.RPROP_PLUS 0).iteration quadratic = Except.ok c ∧
      coeff c.state.dx 0 = -3 ∧ coeff c.state.prev_gradient 0 = 0 := by
  have hw : (quadraticSecond Method.RPROP_PLUS 0).WellSized quadratic := ⟨rfl, rfl, rfl, rfl⟩
  have hpass : ¬ (quadraticSecond Method.RPROP_PLUS 0).gradientNormConverged quadratic := by
    decide!
  have hd : 0 < quadratic.numOptParameters := by decide
  obtain ⟨c, hc, h1, _⟩ :=
    C3_rprop_plus_step quadratic (quadraticSecond Method.RPROP_PLUS 0) 0 hw hpass hd rfl
  obtain ⟨h1a, h1b⟩ := h1 (by decide!)
  refine ⟨hw, hpass, hd, rfl, c, hc, ?_, h1b⟩
  rw [h1a]
  decide!

/-- C4: with the method IRPROP_MINUS, in an iteration that passes the gradient-norm check, for
every dimension `d`: if `prev_gradient(d) * gradient(d) < 0` then `dx(d) = 0` and the stored
previous gradient of `d` is 0; otherwise `dx(d) = -sign(gradient(d)) * delta(d)`. -/
theorem C4_irprop_minus_step {X : Type} (P : ProblemManager X) (s : OptimizerRprop X) (d : Nat)
    (hw : s.WellSized P) (hpass : ¬ s.gradientNormConverged P) (hd : d < P.numOptParameters)
    (hm : s.options.method = Method.IRPROP_MINUS) :
    ∃ c, s.iteration P = Except.ok c ∧
      (coeff s.prev_gradient d * coeff (s.gradient P) d < 0 →
        coeff c.state.dx d = 0 ∧ coeff c.state.prev_gradient d = 0) ∧
      (¬ coeff s.prev_gradient d * coeff (s.gradient P) d < 0 →
        coeff c.state.dx d = -(sign (coeff (s.gradient P) d)) * coeff c.state.delta d) := by
  obtain ⟨w1, w2, _, w4⟩ := hw
  obtain ⟨c, hc, e1, e2, e3, _, _⟩ := iteration_state P s hpass (by omega)
  obtain ⟨_, a2, a3⟩ := stepped_coeff P s d hd (by omega) (by omega) (by omega)
  refine ⟨c, hc, ?_, ?_⟩
  · intro hp
    rw [e2, e3, a2, a3]
    simp [newDx, newPrevGradient, hm, hp]
  · intro hp
    rw [e1, e2, a2]
    simp [newDx, hm, hp]

/-- Witness of C4 on the quadratic problem: in the second iteration dimension 0 switches, so its
step and its stored previous gradient are 0. -/
theorem C4_irprop_minus_step_witness :
    (quadraticSecond Method.IRPROP_MINUS 0).WellSized quadratic ∧
    ¬ (quadraticSecond Method.IRPROP_MINUS 0).gradientNormConverged quadratic ∧
    0 < quadratic.numOptParameters ∧
    (quadraticSecond Method.IRPROP_MINUS 0).options.method = Method.IRPROP_MINUS ∧
    ∃ c, (quadraticSecond Method.IRPROP_MINUS 0).iteration quadratic = Except.ok c ∧
      coeff c.state.dx 0 = 0 ∧ coeff c.state.prev_gradient 0 = 0 := by
  have hw : (quadraticSecond Method.IRPROP_MINUS 0).WellSized quadratic := ⟨rfl, rfl, rfl, rfl⟩
  have hpass : ¬ (quadraticSecond Method.IRPROP_MINUS 0).gradientNormConverged quadratic := by
    decide!
  have hd : 0 < quadratic.numOptParameters := by decide
  obtain ⟨c, hc, h1, _⟩ :=
    C4_irprop_minus_step quadratic (quadraticSecond Method.IRPROP_MINUS 0) 0 hw hpass hd rfl
  exact ⟨hw, hpass, hd, rfl, c, hc, h1 (by decide!)⟩

/-- C5: with the method IRPROP_PLUS, in an iteration that passes the gradient-norm check, for a
dimension `d` whose gradient sign switched: `dx(d)` is the negated previous `dx(d)` when the
objective evaluated in this iteration is strictly greater than the one stored by the previous
iteration, and `dx(d) = 0` when it is not (so, for a previous `dx(d)` other than 0, the step is
the negated previous step if and only if the objective increased); in both cases the stored
previous gradient of `d` is 0. For a dimension that did not switch,
`dx(d) = -sign(gradient(d)) * delta(d)`. The objective evaluated in this iteration is the one
stored for the next iteration. -/
theorem C5_irprop_plus_step {X : Type} (P : ProblemManager X) (s : OptimizerRprop X) (d : Nat)
    (hw : s.WellSized P) (hpass : ¬ s.gradientNormConverged P) (hd : d < P.numOptParameters)
    (hm : s.options.method = Method.IRPROP_PLUS) :
    ∃ c, s.iteration P = Except.ok c ∧
      c.state.prev_error = P.evaluateError s.x ∧
      (coeff s.prev_gradient d * coeff (s.gradient P) d < 0 →
        (P.evaluateError s.x > s.prev_error → coeff c.state.dx d = -(coeff s.dx d)) ∧
        (¬ P.evaluateError s.x > s.prev_error → coeff c.state.dx d = 0) ∧
        (coeff s.dx d ≠ 0 →
          (coeff c.state.dx d = -(coeff s.dx d) ↔ P.evaluateError s.x > s.prev_error)) ∧
        coeff c.state.prev_gradient d = 0) ∧
      (¬ coeff s.prev_gradient d * coeff (s.gradient P) d < 0 →
        coeff c.state.dx d = -(sign (coeff (s.gradient P) d)) * coeff c.state.delta d) := by
  obtain ⟨w1, w2, _, w4⟩ := hw
  obtain ⟨c, hc, e1, e2, e3, e4, _⟩ := iteration_state P s hpass (by omega)
  obtain ⟨_, a2, a3⟩ := stepped_coeff P s d hd (by omega) (by omega) (by omega)
  refine ⟨c, hc, e4.trans (stepped_prev_error P s hm), ?_, ?_⟩
  · intro hp
    rw [e2, e3, a2, a3, errorIncreased_eq]
    refine ⟨?_, ?_, ?_, ?_⟩
    · intro he
      simp [newDx, hm, hp, he]
    · intro he
      simp [newDx, hm, hp, he]
    · intro hne
      by_cases he : P.evaluateError s.x > s.prev_error
      · simp [newDx, hm, hp, he]
      · simp only [newDx, hm, hp, he, decide_True, decide_False, and_false, if_true, if_false,
          Bool.false_eq_true, iff_false]
        intro h0
        exact hne (neg_eq_zero.mp h0.symm)
    · simp [newPrevGradient, hm, hp]
  · intro hp
    rw [e1, e2, a2]
    simp [newDx, hm, hp]

/-- Witness of C5 on the quadratic problem, second iteration, stored objective 0: the objective
53 has increased, and the step 3 of the switching dimension 0 is reverted to -3. -/
theorem C5_irprop_plus_step_witness :
    (quadraticSecond Method.IRPROP_PLUS 0).WellSized quadratic ∧
    ¬ (quadraticSecond Method.IRPROP_PLUS 0).gradientNormConverged quadratic ∧
    0 < quadratic.numOptParameters ∧
    (quadraticSecond Method.IRPROP_PLUS 0).options.method = Method.IRPROP_PLUS ∧
    ∃ c, (quadraticSecond Method.IRPROP_PLUS 0).iteration quadratic = Except.ok c ∧
      coeff c.state.dx 0 = -3 ∧ coeff c.state.prev_gradient 0 = 0 := by
  have hw : (quadraticSecond Method.IRPROP_PLUS 0).WellSized quadratic := ⟨rfl, rfl, rfl, rfl⟩
  have hpass : ¬ (quadraticSecond Method.IRPROP_PLUS 0).gradientNormConverged quadratic := by
    decide!
  have hd : 0 < quadratic.numOptParameters := by decide
  obtain ⟨c, hc, _, h1, _⟩ :=
    C5_irprop_plus_step quadratic (quadraticSecond Method.IRPROP_PLUS 0) 0 hw hpass hd rfl
  obtain ⟨h1a, _, _, h1c⟩ := h1 (by decide!)
  refine ⟨hw, hpass, hd, rfl, c, hc, ?_, h1c⟩
  rw [h1a (by decide!)]
  decide!

/-! ## The claims on `optimize`, `reset` and `check` -/

/-- C6: for a freshly reset optimizer whose iteration cap allows one iteration (`maxIterations` is
-1 or at least 1): if the norm of the gradient at the initial point is strictly below
`convergenceGradientNorm`, then `optimize` returns with `convergence = GRADIENT_NORM` and
`nIterations = 1`, no state update is applied, and `delta`, `dx` and the stored previous gradient
are as `reset` left them. -/
theorem C6_gradient_norm_first_iteration {X : Type} (P : ProblemManager X)
    (s : OptimizerRprop X) (fuel : Nat)
    (hcap : s.options.maxIterations = -1 ∨
      (1 ≤ s.options.maxIterations ∧ s.options.maxIterations < 2 ^ 31))
    (hg : s.gradientNormConverged P) :
    ∃ t, (s.reset P).optimize P (fuel + 1) = Except.ok t ∧
      t.returnValue.convergence = ConvergenceCriterion.GRADIENT_NORM ∧
      t.returnValue.nIterations = 1 ∧ t.x = s.x ∧ t.delta = (s.reset P).delta ∧
      t.dx = (s.reset P).dx ∧ t.prev_gradient = (s.reset P).prev_gradient := by
  obtain ⟨e1, e2, e3, e4, e5, _, e7⟩ := ensureInitialized_reset P s
  have hg2 : ((s.reset P).ensureInitialized P).gradientNormConverged P :=
    (gradientNormConverged_congr P s _ e1 e2).mpr hg
  have hcond : ((s.reset P).ensureInitialized P).options.maxIterations = -1 ∨
      0 < static_cast_size_t ((s.reset P).ensureInitialized P).options.maxIterations := by
    rw [e1]
    rcases hcap with h | ⟨h0, h1⟩
    · exact Or.inl h
    · right
      rw [static_cast_size_t_of_nonneg _ (by omega) h1]
      omega
  refine ⟨_, optimizeLoop_brk P fuel 0 _ _ hcond (iteration_of_converged P _ hg2), rfl, ?_, e2,
    e3, e4, e5⟩
  simp only [OptimizerRprop.countGradient, e7]
  rfl

/-- Witness of C6: the quadratic problem started at its minimum `(1, -10)`, where the gradient
is 0. -/
theorem C6_gradient_norm_first_iteration_witness :
    ({ quadraticFresh Method.RPROP_PLUS 20 with x := [1, -10] } :
        OptimizerRprop (List ℚ)).gradientNormConverged quadratic ∧
    ∃ t, (({ quadraticFresh Method.RPROP_PLUS 20 with x := [1, -10] } :
        OptimizerRprop (List ℚ)).reset quadratic).optimize quadratic (0 + 1) = Except.ok t ∧
      t.returnValue.convergence = ConvergenceCriterion.GRADIENT_NORM ∧
      t.returnValue.nIterations = 1 ∧ t.x = [1, -10] ∧ t.delta = [3, 3] ∧ t.dx = [0, 0] ∧
      t.prev_gradient = [0, 0] :=
  ⟨by decide!,
    C6_gradient_norm_first_iteration quadratic
      { quadraticFresh Method.RPROP_PLUS 20 with x := [1, -10] } 0
      (Or.inr ⟨by decide, by decide⟩) (by decide!)⟩

/-- C7: in an iteration of `optimize` that passes the gradient-norm check, let `m` be the maximum
over the dimensions of `|dx(d)|` for the step computed in this iteration. If `m` is strictly below
`convergenceDx`, the loop is left with `convergence = DX` and the design variables are not updated;
otherwise the step is applied once to the design variables, the status is unchanged and the loop
goes on with the next value of the counter. -/
theorem C7_dx_convergence {X : Type} (P : ProblemManager X) (s : OptimizerRprop X)
    (hw : s.WellSized P) (hn : 0 < P.numOptParameters) (hpass : ¬ s.gradientNormConverged P) :
    ∃ m, maxCoeff (cwiseAbs (s.stepped P).dx) = some m ∧
      (∀ d, d < P.numOptParameters → |coeff (s.stepped P).dx d| ≤ m) ∧
      (∃ d, d < P.numOptParameters ∧ |coeff (s.stepped P).dx d| = m) ∧
      (m < s.options.convergenceDx →
        ∃ t, s.iteration P = Except.ok (LoopControl.brk t) ∧
          t.returnValue.convergence = ConvergenceCriterion.DX ∧ t.x = s.x ∧
          t.dx = (s.stepped P).dx ∧
          ∀ fuel cnt,
            (s.options.maxIterations = -1 ∨ cnt < static_cast_size_t s.options.maxIterations) →
            OptimizerRprop.optimizeLoop P (fuel + 1) cnt s = Except.ok t) ∧
      (¬ m < s.options.convergenceDx →
        ∃ t, s.iteration P = Except.ok (LoopControl.next t) ∧
          t.x = P.applyStateUpdate s.x (s.stepped P).dx ∧ t.dx = (s.stepped P).dx ∧
          t.returnValue.convergence = s.returnValue.convergence ∧
          ∀ fuel cnt,
            (s.options.maxIterations = -1 ∨ cnt < static_cast_size_t s.options.maxIterations) →
            OptimizerRprop.optimizeLoop P (fuel + 1) cnt s
              = OptimizerRprop.optimizeLoop P fuel ((cnt + 1) % 2 ^ 64) t) := by
  obtain ⟨_, w2, _, _⟩ := hw
  obtain ⟨f1, _, f3, _, f5, _, f7, _⟩ := stepped_frame P s
  have hlen : (cwiseAbs (s.stepped P).dx).length = P.numOptParameters := by
    simp [cwiseAbs, f5, w2]
  obtain ⟨m, hm⟩ := maxCoeff_isSome (cwiseAbs (s.stepped P).dx) (by omega)
  obtain ⟨hmem, hmax⟩ := maxCoeff_spec _ _ hm
  refine ⟨m, hm, ?_, ?_, ?_, ?_⟩
  · intro d hd
    rw [← coeff_cwiseAbs]
    exact hmax _ (coeff_mem _ _ (by omega))
  · obtain ⟨d, hd, hdm⟩ := exists_coeff_of_mem _ _ hmem
    exact ⟨d, by omega, by rw [← coeff_cwiseAbs]; exact hdm⟩
  · intro hlt
    have hi := (iteration_of_pass P s hpass).trans
      (checkDx_brk P (s.stepped P) m hm (by rw [f1]; exact hlt))
    exact ⟨_, hi, rfl, f3, rfl, fun fuel cnt hc => optimizeLoop_brk P fuel cnt s _ hc hi⟩
  · intro hlt
    have hi := (iteration_of_pass P s hpass).trans
      (checkDx_next P (s.stepped P) m hm (by rw [f1]; exact hlt))
    refine ⟨_, hi, ?_, rfl, f7, fun fuel cnt hc => optimizeLoop_next P fuel cnt s _ hc hi⟩
    show P.applyStateUpdate (s.stepped P).x (s.stepped P).dx = _
    rw [f3]

/-- Witness of C7 on the quadratic problem, second iteration, where the largest step is 18/5. -/
theorem C7_dx_convergence_witness :
    (quadraticSecond Method.RPROP_PLUS 0).WellSized quadratic ∧
    0 < quadratic.numOptParameters ∧
    ¬ (quadraticSecond Method.RPROP_PLUS 0).gradientNormConverged quadratic ∧
    ∃ m, maxCoeff (cwiseAbs ((quadraticSecond Method.RPROP_PLUS 0).stepped quadratic).dx)
        = some m ∧ m = 18 / 5 := by
  have hw : (quadraticSecond Method.RPROP_PLUS 0).WellSized quadratic := ⟨rfl, rfl, rfl, rfl⟩
  have hpass : ¬ (quadraticSecond Method.RPROP_PLUS 0).gradientNormConverged quadratic := by
    decide!
  have hn : 0 < quadratic.numOptParameters := by decide
  obtain ⟨m, hm, _⟩ :=
    C7_dx_convergence quadratic (quadraticSecond Method.RPROP_PLUS 0) hw hn hpass
  refine ⟨hw, hn, hpass, m, hm, ?_⟩
  have h2 : maxCoeff (cwiseAbs ((quadraticSecond Method.RPROP_PLUS 0).stepped quadratic).dx)
      = some (18 / 5) := by decide!
  rw [hm] at h2
  exact Option.some.inj h2

/-- C8, as the code has it: when `optimize`, started from a freshly reset state with
`maxIterations = N >= 0`, executes `N` iterations none of which leaves the loop through the
gradient-norm or the DX criterion, it returns normally after exactly `N` iterations with
`convergence = IN_PROGRESS`, for which `success()` and `failure()` are both false. -/
theorem C8_iteration_cap_in_progress {X : Type} (P : ProblemManager X) (s : OptimizerRprop X)
    (N fuel : Nat) (t : OptimizerRprop X) (hN : N < 2 ^ 31)
    (hmax : s.options.maxIterations = (N : Int)) (hfuel : N ≤ fuel)
    (hrun : OptimizerRprop.runNext P N ((s.reset P).ensureInitialized P) = some t) :
    (s.reset P).optimize P fuel = Except.ok t ∧
      t.returnValue.convergence = ConvergenceCriterion.IN_PROGRESS ∧
      t.returnValue.nIterations = N ∧ t.returnValue.success = false ∧
      t.returnValue.failure = false := by
  obtain ⟨e1, _, _, _, _, _, e7⟩ := ensureInitialized_reset P s
  obtain ⟨h1, h2, h3⟩ := optimizeLoop_runNext P N hN N fuel 0 ((s.reset P).ensureInitialized P) t
    (by rw [e1]; exact hmax) (by omega) hfuel hrun
  have hc : t.returnValue.convergence = ConvergenceCriterion.IN_PROGRESS := by
    rw [h2, e7]
    rfl
  refine ⟨h1, hc, ?_, ?_, ?_⟩
  · rw [h3, e7]
    simp [OptimizerRprop.reset, RpropReturnValue.reset]
  · simp [RpropReturnValue.success, hc]
  · simp [RpropReturnValue.failure, hc]

/-- Witness of C8 on the quadratic problem with `maxIterations = 2`: two iterations run without a
criterion firing and `optimize` returns with `IN_PROGRESS`. -/
theorem C8_iteration_cap_in_progress_witness :
    ∃ t, OptimizerRprop.runNext quadratic 2
        (((quadraticFresh Method.RPROP_MINUS 2).reset quadratic).ensureInitialized quadratic)
        = some t ∧
      ((quadraticFresh Method.RPROP_MINUS 2).reset quadratic).optimize quadratic 2 = Except.ok t ∧
      t.returnValue.convergence = ConvergenceCriterion.IN_PROGRESS ∧
      t.returnValue.nIterations = 2 ∧ t.returnValue.success = false ∧
      t.returnValue.failure = false := by
  have h : (OptimizerRprop.runNext quadratic 2
      (((quadraticFresh Method.RPROP_MINUS 2).reset quadratic).ensureInitialized
        quadratic)).isSome = true := by decide!
  obtain ⟨t, ht⟩ := Option.isSome_iff_exists.mp h
  exact ⟨t, ht, C8_iteration_cap_in_progress quadratic (quadraticFresh Method.RPROP_MINUS 2) 2 2 t
    (by decide) rfl (le_refl 2) ht⟩

/-- Counterexample to C8 as stated: on the quadratic problem with `maxIterations = 2`, started
from a freshly reset state, two iterations run without the gradient-norm or the DX criterion
firing, and `optimize` returns with the status IN_PROGRESS, not FAILURE. -/
theorem C8_counterexample :
    (quadraticFresh Method.RPROP_MINUS 2).options.maxIterations = 2 ∧
    (OptimizerRprop.runNext quadratic 2
      (((quadraticFresh Method.RPROP_MINUS 2).reset quadratic).ensureInitialized
        quadratic)).isSome = true ∧
    (((quadraticFresh Method.RPROP_MINUS 2).reset quadratic).optimize quadratic 10).toOption.map
        (fun t => (t.returnValue.convergence, t.returnValue.nIterations, t.returnValue.failure))
      = some (ConvergenceCriterion.IN_PROGRESS, 2, false) := by
  refine ⟨rfl, ?_, ?_⟩
  · decide!
  · decide!

/-- C9: after `reset`, and so after `initialize`, for a problem with `n` parameters: the vectors
`delta`, `prev_gradient` and `dx` have size `n`, every `delta(d)` is `options.initialDelta`, every
coefficient of the previous gradient and of `dx` is 0, the previous error is the largest finite
double, the status is IN_PROGRESS and the three counters are 0; and `optimize` on an optimizer
that is not initialized is `initialize` followed by `optimize`. -/
theorem C9_reset_state {X : Type} (P : ProblemManager X) (s : OptimizerRprop X) (d fuel : Nat)
    (hd : d < P.numOptParameters) :
    ((s.reset P).delta.length = P.numOptParameters ∧
      (s.reset P).prev_gradient.length = P.numOptParameters ∧
      (s.reset P).dx.length = P.numOptParameters ∧
      coeff (s.reset P).delta d = s.options.initialDelta ∧
      coeff (s.reset P).prev_gradient d = 0 ∧ coeff (s.reset P).dx d = 0 ∧
      (s.reset P).prev_error = numeric_limits_max ∧
      numeric_limits_max = (2 - 1 / 2 ^ 52) * 2 ^ 1023 ∧
      (s.reset P).returnValue.convergence = ConvergenceCriterion.IN_PROGRESS ∧
      (s.reset P).returnValue.nIterations = 0 ∧ (s.reset P).returnValue.nGradEvaluations = 0 ∧
      (s.reset P).returnValue.nObjectiveEvaluations = 0) ∧
    ((s.init P).delta = (s.reset P).delta ∧ (s.init P).prev_gradient = (s.reset P).prev_gradient ∧
      (s.init P).dx = (s.reset P).dx ∧ (s.init P).prev_error = (s.reset P).prev_error ∧
      (s.init P).returnValue = (s.reset P).returnValue ∧ (s.init P).isInitialized = true) ∧
    (s.isInitialized = false → s.optimize P fuel = (s.init P).optimize P fuel) := by
  refine ⟨⟨length_Constant _ _, length_Constant _ _, length_Constant _ _,
    coeff_Constant _ _ _ hd, coeff_Constant _ _ _ hd, coeff_Constant _ _ _ hd, rfl, ?_, rfl, rfl,
    rfl, rfl⟩, ⟨rfl, rfl, rfl, rfl, rfl, rfl⟩, ?_⟩
  · norm_num [numeric_limits_max]
  · intro hu
    have h1 : s.ensureInitialized P = s.init P := by
      simp [OptimizerRprop.ensureInitialized, hu]
    have h2 : (s.init P).ensureInitialized P = s.init P := by
      simp [OptimizerRprop.ensureInitialized, OptimizerRprop.init, OptimizerRprop.reset,
        ProblemManager.init]
    unfold OptimizerRprop.optimize
    rw [h1, h2]

/-- Witness of C9 on the quadratic problem, whose optimizer is not initialized when built. -/
theorem C9_reset_state_witness :
    (1 < quadratic.numOptParameters ∧
      (quadraticFresh Method.RPROP_PLUS 20).isInitialized = false) ∧
    coeff ((quadraticFresh Method.RPROP_PLUS 20).reset quadratic).delta 1 = 3 ∧
    (quadraticFresh Method.RPROP_PLUS 20).optimize quadratic 5
      = ((quadraticFresh Method.RPROP_PLUS 20).init quadratic).optimize quadratic 5 :=
  ⟨⟨by decide, rfl⟩,
    (C9_reset_state quadratic (quadraticFresh Method.RPROP_PLUS 20) 1 5 (by decide)).1.2.2.2.1,
    (C9_reset_state quadratic (quadraticFresh Method.RPROP_PLUS 20) 1 5 (by decide)).2.2 rfl⟩

/-- C10: `OptimizerRpropOptions::check` raises an exception if and only if one of these fails:
`etaMinus > 0`, `etaPlus > etaMinus`, `initialDelta > 0`, `minDelta > 0`, `maxDelta > minDelta`,
`convergenceGradientNorm >= 0`, `convergenceDx >= 0`,
`convergenceDx > 0 || convergenceGradientNorm > 0`, `maxIterations >= -1`; and every option set
that it accepts has `0 < minDelta < maxDelta`. -/
theorem C10_check_raises_iff {X : Type} (o : OptimizerRpropOptions X) :
    ((∃ e, o.check = Except.error e) ↔
      ¬ (o.etaMinus > 0 ∧ o.etaPlus > o.etaMinus ∧ o.initialDelta > 0 ∧ o.minDelta > 0 ∧
        o.maxDelta > o.minDelta ∧ o.convergenceGradientNorm ≥ 0 ∧ o.convergenceDx ≥ 0 ∧
        (o.convergenceDx > 0 ∨ o.convergenceGradientNorm > 0) ∧ o.maxIterations ≥ -1)) ∧
    (o.check = Except.ok () → 0 < o.minDelta ∧ o.minDelta < o.maxDelta) := by
  constructor
  · rw [← check_ok_iff]
    cases h : o.check with
    | error e => simp
    | ok u => simp
  · intro h
    obtain ⟨_, _, _, h4, h5, _⟩ := (check_ok_iff o).mp h
    exact ⟨h4, h5⟩

/-! ## The claims on the option checks and on the status -/

theorem check_error_iff {X : Type} (o : OptimizerRpropOptions X) :
    (∃ e, o.check = Except.error e) ↔ ¬ o.check = Except.ok () := by
  cases h : o.check with
  | error e => simp
  | ok u => simp

/-- C11, as the code has it: every option set accepted by `OptimizerRpropOptions::check` has
`etaMinus > 0` and `etaPlus > etaMinus`; `etaMinus` has no upper bound: an option set with
`etaMinus >= 1` is rejected if and only if `etaPlus <= etaMinus` or one of the seven conditions
on the other options fails. -/
theorem C11_eta_bounds {X : Type} (o : OptimizerRpropOptions X) :
    (o.check = Except.ok () → 0 < o.etaMinus ∧ o.etaMinus < o.etaPlus) ∧
    (1 ≤ o.etaMinus →
      ((∃ e, o.check = Except.error e) ↔
        (o.etaPlus ≤ o.etaMinus ∨
          ¬ (o.initialDelta > 0 ∧ o.minDelta > 0 ∧ o.maxDelta > o.minDelta ∧
            o.convergenceGradientNorm ≥ 0 ∧ o.convergenceDx ≥ 0 ∧
            (o.convergenceDx > 0 ∨ o.convergenceGradientNorm > 0) ∧ o.maxIterations ≥ -1)))) := by
  constructor
  · intro h
    obtain ⟨h1, h2, _⟩ := (check_ok_iff o).mp h
    exact ⟨h1, h2⟩
  · intro h1
    rw [check_error_iff, check_ok_iff]
    have h0 : o.etaMinus > 0 := lt_of_lt_of_le one_pos h1
    constructor
    · intro h
      by_cases h2 : o.etaPlus ≤ o.etaMinus
      · exact Or.inl h2
      · right
        intro h3
        exact h ⟨h0, not_le.mp h2, h3⟩
    · rintro (h | h) ⟨_, h2, h3⟩
      · exact absurd h2 (not_lt.mpr h)
      · exact h h3

/-- Counterexample to C11 as stated: the option set with `etaMinus = 2` and `etaPlus = 3` is
accepted by `check`, although `etaMinus` is not below 1. -/
theorem C11_counterexample :
    (quadraticOptionsWith 2 3 3 (1 / 1000) 5).check = Except.ok () ∧
    ¬ (quadraticOptionsWith 2 3 3 (1 / 1000) 5).etaMinus < 1 := by
  constructor
  · rw [check_ok_iff]
    norm_num [quadraticOptionsWith]
  · norm_num [quadraticOptionsWith]

theorem base_check_ok_iff (o : OptimizerOptionsBase) :
    o.check = Except.ok () ↔
      (o.convergenceGradientNorm ≥ 0 ∧ o.convergenceDeltaX ≥ 0 ∧ o.convergenceDeltaError ≥ 0 ∧
        (o.convergenceDeltaX > 0 ∨ o.convergenceGradientNorm > 0 ∨ o.convergenceDeltaError > 0) ∧
        o.maxIterations ≥ -1) := by
  unfold OptimizerOptionsBase.check SM_ASSERT_GE SM_ASSERT_TRUE SM_ASSERT_GE_int
  simp only [bind, Except.bind]
  by_cases h1 : o.convergenceGradientNorm ≥ 0 <;>
    simp only [h1, if_true, if_false, true_and, false_and] <;> [skip; simp]
  by_cases h2 : o.convergenceDeltaX ≥ 0 <;>
    simp only [h2, if_true, if_false, true_and, false_and] <;> [skip; simp]
  by_cases h3 : o.convergenceDeltaError ≥ 0 <;>
    simp only [h3, if_true, if_false, true_and, false_and] <;> [skip; simp]
  by_cases h4 : o.convergenceDeltaX > 0 ∨ o.convergenceGradientNorm > 0 ∨
      o.convergenceDeltaError > 0
  · have h4b : (decide (o.convergenceDeltaX > 0) || decide (o.convergenceGradientNorm > 0)
        || decide (o.convergenceDeltaError > 0)) = true := by
      simpa [or_assoc] using h4
    simp only [h4b, h4, if_true, true_and]
    by_cases h5 : o.maxIterations ≥ -1 <;> simp [h5]
  · have h4b : (decide (o.convergenceDeltaX > 0) || decide (o.convergenceGradientNorm > 0)
        || decide (o.convergenceDeltaError > 0)) = false := by
      rw [Bool.eq_false_iff]
      simpa [or_assoc] using h4
    simp [h4b, h4]

/-- C12: `OptimizerOptionsBase::check` raises an exception if and only if
`convergenceGradientNorm < 0`, or `convergenceDeltaX < 0`, or `convergenceDeltaError < 0`, or the
three thresholds are all 0, or `maxIterations < -1`; and its result does not depend on
`numThreadsJacobian` and `numThreadsError`. -/
theorem C12_base_check_raises_iff (o : OptimizerOptionsBase) (a b : Int) :
    ((∃ e, o.check = Except.error e) ↔
      (o.convergenceGradientNorm < 0 ∨ o.convergenceDeltaX < 0 ∨ o.convergenceDeltaError < 0 ∨
        (o.convergenceGradientNorm = 0 ∧ o.convergenceDeltaX = 0 ∧ o.convergenceDeltaError = 0) ∨
        o.maxIterations < -1)) ∧
    ({ o with numThreadsJacobian := a, numThreadsError := b } : OptimizerOptionsBase).check
      = o.check := by
  constructor
  · have herr : (∃ e, o.check = Except.error e) ↔ ¬ o.check = Except.ok () := by
      cases h : o.check with
      | error e => simp
      | ok u => simp
    rw [herr, base_check_ok_iff]
    constructor
    · intro h
      by_contra hc
      simp only [not_or, not_lt, not_and] at hc
      obtain ⟨c1, c2, c3, c4, c5⟩ := hc
      apply h
      refine ⟨c1, c2, c3, ?_, c5⟩
      by_contra hn
      simp only [not_or, not_lt] at hn
      obtain ⟨n1, n2, n3⟩ := hn
      exact c4 (le_antisymm n2 c1) (le_antisymm n1 c2) (le_antisymm n3 c3)
    · rintro (h | h | h | ⟨h1, h2, h3⟩ | h) ⟨c1, c2, c3, c4, c5⟩
      · exact absurd c1 (not_le.mpr h)
      · exact absurd c2 (not_le.mpr h)
      · exact absurd c3 (not_le.mpr h)
      · rw [h1, h2, h3] at c4
        simp at c4
      · omega
  · rfl

/-- C14, as the code has it: `OptimizerStatus::success()` is true exactly for the statuses
GRADIENT_NORM, DX, DOBJECTIVE and MAX_ITERATIONS, and false for IN_PROGRESS and FAILURE;
`failure()` is true exactly for FAILURE; `success()` and `failure()` are never both true. For
`RpropReturnValue`, `success()` is true exactly for GRADIENT_NORM and DX and `failure()` exactly
for FAILURE. -/
theorem C14_success_failure (s : OptimizerStatus) (r : RpropReturnValue) :
    (s.success = true ↔
      (s.convergence = ConvergenceStatus.GRADIENT_NORM ∨ s.convergence = ConvergenceStatus.DX ∨
        s.convergence = ConvergenceStatus.DOBJECTIVE ∨
        s.convergence = ConvergenceStatus.MAX_ITERATIONS)) ∧
    (s.failure = true ↔ s.convergence = ConvergenceStatus.FAILURE) ∧
    ¬ (s.success = true ∧ s.failure = true) ∧
    (r.success = true ↔
      (r.convergence = ConvergenceCriterion.GRADIENT_NORM ∨
        r.convergence = ConvergenceCriterion.DX)) ∧
    (r.failure = true ↔ r.convergence = ConvergenceCriterion.FAILURE) ∧
    ¬ (r.success = true ∧ r.failure = true) := by
  unfold OptimizerStatus.success OptimizerStatus.failure RpropReturnValue.success
    RpropReturnValue.failure
  refine ⟨?_, ?_, ?_, ?_, ?_, ?_⟩
  · cases s.convergence <;> simp
  · cases s.convergence <;> simp
  · cases s.convergence <;> simp
  · cases r.convergence <;> simp
  · cases r.convergence <;> simp
  · cases r.convergence <;> simp

/-- Counterexample to C14 as stated: `success()` is true for the status MAX_ITERATIONS. -/
theorem C14_counterexample :
    (⟨ConvergenceStatus.MAX_ITERATIONS, 20, 1, 1, 1, 1, 20, 20⟩ : OptimizerStatus).success
      = true := by
  decide

/-! ## The bounds of the step sizes -/

theorem newDelta_bounds {X : Type} (o : OptimizerRpropOptions X) (switchNo switchYes : Bool)
    (delta : ℚ) (hmin : 0 < o.minDelta) (hmm : o.minDelta ≤ o.maxDelta)
    (h1 : o.etaMinus ≤ 1) (h2 : 1 ≤ o.etaPlus) (hl : o.minDelta ≤ delta)
    (hu : delta ≤ o.maxDelta) :
    o.minDelta ≤ newDelta o switchNo switchYes delta ∧
      newDelta o switchNo switchYes delta ≤ o.maxDelta := by
  have hd : 0 < delta := lt_of_lt_of_le hmin hl
  unfold newDelta
  cases switchNo
  · cases switchYes
    · simpa using ⟨hl, hu⟩
    · simp only [Bool.false_eq_true, if_false, if_true]
      refine ⟨le_max_right _ _, max_le ?_ hmm⟩
      calc delta * o.etaMinus ≤ delta * 1 := by
            exact mul_le_mul_of_nonneg_left h1 (le_of_lt hd)
        _ = delta := mul_one delta
        _ ≤ o.maxDelta := hu
  · simp only [if_true]
    refine ⟨le_min ?_ hmm, min_le_right _ _⟩
    calc o.minDelta ≤ delta := hl
      _ = delta * 1 := (mul_one delta).symm
      _ ≤ delta * o.etaPlus := mul_le_mul_of_nonneg_left h2 (le_of_lt hd)

theorem checkDx_ok_inv {X : Type} (P : ProblemManager X) (t : OptimizerRprop X)
    (c : LoopControl (OptimizerRprop X)) (h : OptimizerRprop.checkDx P t = Except.ok c) :
    c.state.options = t.options ∧ c.state.delta = t.delta ∧ c.state.dx = t.dx ∧
      c.state.prev_gradient = t.prev_gradient := by
  unfold OptimizerRprop.checkDx at h
  cases hm : maxCoeff (cwiseAbs t.dx) with
  | none => simp [hm] at h
  | some m =>
    by_cases hlt : m < t.options.convergenceDx
    · simp only [hm, hlt, if_true, Except.ok.injEq] at h
      rw [← h]
      simp [LoopControl.state]
    · simp only [hm, hlt, if_false, Except.ok.injEq] at h
      rw [← h]
      simp [LoopControl.state]

theorem iteration_ok_inv {X : Type} (P : ProblemManager X) (s : OptimizerRprop X)
    (c : LoopControl (OptimizerRprop X)) (h : s.iteration P = Except.ok c) :
    c.state.options = s.options ∧
      ((c.state.delta = s.delta ∧ c.state.dx = s.dx ∧ c.state.prev_gradient = s.prev_gradient) ∨
        (c.state.delta = (s.stepped P).delta ∧ c.state.dx = (s.stepped P).dx ∧
          c.state.prev_gradient = (s.stepped P).prev_gradient)) := by
  by_cases hg : s.gradientNormConverged P
  · rw [iteration_of_converged P s hg] at h
    simp only [Except.ok.injEq] at h
    rw [← h]
    exact ⟨rfl, Or.inl ⟨rfl, rfl, rfl⟩⟩
  · rw [iteration_of_pass P s hg] at h
    obtain ⟨h1, h2, h3, h4⟩ := checkDx_ok_inv P _ c h
    obtain ⟨f1, _⟩ := stepped_frame P s
    exact ⟨h1.trans f1, Or.inr ⟨h2, h3, h4⟩⟩

theorem reset_DeltaBounded {X : Type} (P : ProblemManager X) (s : OptimizerRprop X)
    (hinit : s.options.minDelta ≤ s.options.initialDelta ∧
      s.options.initialDelta ≤ s.options.maxDelta)
    (hgrad : ∀ t : OptimizerRprop X, t.options = s.options →
      (t.gradient P).length = P.numOptParameters) :
    ((s.reset P).ensureInitialized P).DeltaBounded P s.options := by
  obtain ⟨e1, _, e3, e4, e5, _, _⟩ := ensureInitialized_reset P s
  refine ⟨e1, ⟨?_, ?_, ?_, hgrad _ e1⟩, ?_⟩
  · rw [e3]
    exact length_Constant _ _
  · rw [e4]
    exact length_Constant _ _
  · rw [e5]
    exact length_Constant _ _
  · intro d hd
    rw [e3]
    have hc : coeff (s.reset P).delta d = s.options.initialDelta := coeff_Constant _ _ _ hd
    rw [hc]
    exact hinit

theorem iteration_DeltaBounded {X : Type} (P : ProblemManager X) (o : OptimizerRpropOptions X)
    (hmin : 0 < o.minDelta) (hmm : o.minDelta ≤ o.maxDelta)
    (h1 : o.etaMinus ≤ 1) (h2 : 1 ≤ o.etaPlus)
    (hgrad : ∀ t : OptimizerRprop X, t.options = o → (t.gradient P).length = P.numOptParameters)
    (s : OptimizerRprop X) (c : LoopControl (OptimizerRprop X)) (hs : s.DeltaBounded P o)
    (hc : s.iteration P = Except.ok c) : c.state.DeltaBounded P o := by
  obtain ⟨ho, ⟨w1, w2, w3, w4⟩, hb⟩ := hs
  obtain ⟨i1, i2⟩ := iteration_ok_inv P s c hc
  have hco : c.state.options = o := i1.trans ho
  rcases i2 with ⟨j1, j2, j3⟩ | ⟨j1, j2, j3⟩
  · refine ⟨hco, ⟨?_, ?_, ?_, hgrad _ hco⟩, ?_⟩
    · rw [j1]; exact w1
    · rw [j2]; exact w2
    · rw [j3]; exact w3
    · intro d hd
      rw [j1]
      exact hb d hd
  · obtain ⟨_, _, _, f4, f5, f6, _, _⟩ := stepped_frame P s
    refine ⟨hco, ⟨?_, ?_, ?_, hgrad _ hco⟩, ?_⟩
    · rw [j1, f4]; exact w1
    · rw [j2, f5]; exact w2
    · rw [j3, f6]; exact w4
    · intro d hd
      obtain ⟨a1, _, _⟩ := stepped_coeff P s d hd (by omega) (by omega) (by omega)
      rw [j1, a1, ho]
      exact newDelta_bounds o _ _ _ hmin hmm h1 h2 (hb d hd).1 (hb d hd).2

theorem runNext_DeltaBounded {X : Type} (P : ProblemManager X) (o : OptimizerRpropOptions X)
    (hstep : ∀ (s : OptimizerRprop X) (c : LoopControl (OptimizerRprop X)),
      s.DeltaBounded P o → s.iteration P = Except.ok c → c.state.DeltaBounded P o)
    (k : Nat) :
    ∀ s t : OptimizerRprop X, s.DeltaBounded P o → OptimizerRprop.runNext P k s = some t →
      t.DeltaBounded P o := by
  induction k with
  | zero =>
    intro s t hs hrun
    simp only [OptimizerRprop.runNext, Option.some.injEq] at hrun
    rw [← hrun]
    exact hs
  | succ k ih =>
    intro s t hs hrun
    unfold OptimizerRprop.runNext at hrun
    cases hi : s.iteration P with
    | error e => simp [hi] at hrun
    | ok c =>
      cases c with
      | brk u => simp [hi] at hrun
      | next u =>
        simp only [hi] at hrun
        exact ih u t (hstep s _ hs hi) hrun

theorem optimizeLoop_DeltaBounded {X : Type} (P : ProblemManager X)
    (o : OptimizerRpropOptions X)
    (hstep : ∀ (s : OptimizerRprop X) (c : LoopControl (OptimizerRprop X)),
      s.DeltaBounded P o → s.iteration P = Except.ok c → c.state.DeltaBounded P o)
    (fuel : Nat) :
    ∀ (cnt : Nat) (s t : OptimizerRprop X), s.DeltaBounded P o →
      OptimizerRprop.optimizeLoop P fuel cnt s = Except.ok t → t.DeltaBounded P o := by
  induction fuel with
  | zero =>
    intro cnt s t hs hrun
    unfold OptimizerRprop.optimizeLoop at hrun
    by_cases hc : s.options.maxIterations = -1 ∨
        cnt < static_cast_size_t s.options.maxIterations
    · simp [hc] at hrun
    · simp only [hc, if_false, Except.ok.injEq] at hrun
      rw [← hrun]
      exact hs
  | succ fuel ih =>
    intro cnt s t hs hrun
    by_cases hc : s.options.maxIterations = -1 ∨
        cnt < static_cast_size_t s.options.maxIterations
    · cases hi : s.iteration P with
      | error e =>
        unfold OptimizerRprop.optimizeLoop at hrun
        simp [hc, hi] at hrun
      | ok c =>
        cases c with
        | brk u =>
          rw [optimizeLoop_brk P fuel cnt s u hc hi] at hrun
          simp only [Except.ok.injEq] at hrun
          rw [← hrun]
          exact hstep s _ hs hi
        | next u =>
          rw [optimizeLoop_next P fuel cnt s u hc hi] at hrun
          exact ih _ u t (hstep s _ hs hi) hrun
    · rw [optimizeLoop_done P (fuel + 1) cnt s hc] at hrun
      simp only [Except.ok.injEq] at hrun
      rw [← hrun]
      exact hs

/-- C13, as the code has it: for every option set accepted by `OptimizerRpropOptions::check` that
also has `minDelta <= initialDelta <= maxDelta` and `etaMinus <= 1 <= etaPlus`, after `reset` and
after any number of iterations of `optimize`, whatever the gradients (of the size of the
problem), every step size `delta(d)` satisfies `minDelta <= delta(d) <= maxDelta`: this holds
after `k` iterations that go on, after one more iteration of any outcome, and for the optimizer
that `optimize` returns. -/
theorem C13_delta_bounds {X : Type} (P : ProblemManager X) (s : OptimizerRprop X) (d : Nat)
    (hcheck : s.options.check = Except.ok ())
    (hinit : s.options.minDelta ≤ s.options.initialDelta ∧
      s.options.initialDelta ≤ s.options.maxDelta)
    (heta : s.options.etaMinus ≤ 1 ∧ 1 ≤ s.options.etaPlus)
    (hgrad : ∀ t : OptimizerRprop X, t.options = s.options →
      (t.gradient P).length = P.numOptParameters)
    (hd : d < P.numOptParameters) :
    (∀ k t, OptimizerRprop.runNext P k ((s.reset P).ensureInitialized P) = some t →
      (s.options.minDelta ≤ coeff t.delta d ∧ coeff t.delta d ≤ s.options.maxDelta) ∧
      ∀ c, t.iteration P = Except.ok c →
        s.options.minDelta ≤ coeff c.state.delta d ∧ coeff c.state.delta d ≤ s.options.maxDelta) ∧
    (∀ fuel u, (s.reset P).optimize P fuel = Except.ok u →
      s.options.minDelta ≤ coeff u.delta d ∧ coeff u.delta d ≤ s.options.maxDelta) := by
  obtain ⟨_, _, _, c4, c5, _⟩ := (check_ok_iff s.options).mp hcheck
  have hstep : ∀ (t : OptimizerRprop X) (c : LoopControl (OptimizerRprop X)),
      t.DeltaBounded P s.options → t.iteration P = Except.ok c →
      c.state.DeltaBounded P s.options :=
    iteration_DeltaBounded P s.options c4 (le_of_lt c5) heta.1 heta.2 hgrad
  have h0 := reset_DeltaBounded P s hinit hgrad
  constructor
  · intro k t hrun
    have ht := runNext_DeltaBounded P s.options hstep k _ t h0 hrun
    exact ⟨ht.2.2 d hd, fun c hc => (hstep t c ht hc).2.2 d hd⟩
  · intro fuel u hu
    exact (optimizeLoop_DeltaBounded P s.options hstep fuel 0 _ u h0 hu).2.2 d hd

/-- Witness of C13 on the quadratic problem with `etaMinus = 1/2`, `etaPlus = 6/5`,
`initialDelta = 3`, `minDelta = 1/1000` and `maxDelta = 5`. -/
theorem C13_delta_bounds_witness :
    (quadraticFresh Method.RPROP_MINUS 20).options.check = Except.ok () ∧
    (∃ u, ((quadraticFresh Method.RPROP_MINUS 20).reset quadratic).optimize quadratic 20
      = Except.ok u) ∧
    ∀ fuel u, ((quadraticFresh Method.RPROP_MINUS 20).reset quadratic).optimize quadratic fuel
        = Except.ok u →
      1 / 1000 ≤ coeff u.delta 0 ∧ coeff u.delta 0 ≤ 5 := by
  have hcheck : (quadraticFresh Method.RPROP_MINUS 20).options.check = Except.ok () := by
    rw [check_ok_iff]
    norm_num [quadraticFresh, quadraticOptions]
  refine ⟨hcheck, ?_, ?_⟩
  · have h : (((quadraticFresh Method.RPROP_MINUS 20).reset quadratic).optimize quadratic
        20).toOption.isSome = true := by decide!
    cases hr : ((quadraticFresh Method.RPROP_MINUS 20).reset quadratic).optimize quadratic 20 with
    | error e => simp [hr, Except.toOption] at h
    | ok u => exact ⟨u, rfl⟩
  · exact (C13_delta_bounds quadratic (quadraticFresh Method.RPROP_MINUS 20) 0 hcheck
      (by norm_num [quadraticFresh, quadraticOptions])
      (by norm_num [quadraticFresh, quadraticOptions])
      (by
        intro t ht
        simp [OptimizerRprop.gradient, ht, quadraticFresh, quadraticOptions, quadratic])
      (by decide)).2

/-- Counterexample to C13 as stated, on the quadratic problem with option sets that `check`
accepts. With `initialDelta = 10 > maxDelta = 5` and with `initialDelta = 1/10000 < minDelta`,
`delta(0)` is out of the bounds right after `reset`. With `etaPlus = 1/2` and
`initialDelta = minDelta = 1`, the second iteration shrinks `delta(1)` to `1/2 < minDelta`. With
`etaMinus = 2`, the second iteration grows `delta(0)` to `6 > maxDelta = 5`. -/
theorem C13_counterexample :
    ((quadraticOptionsWith (1 / 2) (6 / 5) 10 (1 / 1000) 5).check = Except.ok () ∧
      coeff ((quadraticWith (quadraticOptionsWith (1 / 2) (6 / 5) 10 (1 / 1000) 5)).reset
        quadratic).delta 0 = 10) ∧
    ((quadraticOptionsWith (1 / 2) (6 / 5) (1 / 10000) (1 / 1000) 5).check = Except.ok () ∧
      coeff ((quadraticWith (quadraticOptionsWith (1 / 2) (6 / 5) (1 / 10000) (1 / 1000) 5)).reset
        quadratic).delta 0 = 1 / 10000) ∧
    ((quadraticOptionsWith (1 / 4) (1 / 2) 1 1 5).check = Except.ok () ∧
      (OptimizerRprop.runNext quadratic 2
        (((quadraticWith (quadraticOptionsWith (1 / 4) (1 / 2) 1 1 5)).reset
          quadratic).ensureInitialized quadratic)).map (fun t => coeff t.delta 1)
        = some (1 / 2)) ∧
    ((quadraticOptionsWith 2 3 3 (1 / 1000) 5).check = Except.ok () ∧
      (OptimizerRprop.runNext quadratic 2
        (((quadraticWith (quadraticOptionsWith 2 3 3 (1 / 1000) 5)).reset
          quadratic).ensureInitialized quadratic)).map (fun t => coeff t.delta 0)
        = some 6) := by
  refine ⟨⟨?_, ?_⟩, ⟨?_, ?_⟩, ⟨?_, ?_⟩, ⟨?_, ?_⟩⟩
  · rw [check_ok_iff]
    norm_num [quadraticOptionsWith]
  · decide!
  · rw [check_ok_iff]
    norm_num [quadraticOptionsWith]
  · decide!
  · rw [check_ok_iff]
    norm_num [quadraticOptionsWith]
  · decide!
  · rw [check_ok_iff]
    norm_num [quadraticOptionsWith]
  · decide!

/-! ## The claims on the design variables -/

theorem mappedEuclideanPoint_update_ok (t : MappedEuclideanPoint) (dp : Nat → ℚ) :
    t.updateImplementation dp 3
      = Except.ok { _p := fun i => t._p i + dp i.val, _p_p := t._p } := by
  simp [MappedEuclideanPoint.updateImplementation, SM_ASSERT_EQ_DBG, bind, Except.bind, pure,
    Except.pure]

theorem matrixTransformation_update_ok (t : MatrixTransformation) (dp : Nat → Option ℚ) :
    t.updateImplementation dp t._UpdateDimension
      = Except.ok
          { t with
            _A_a := t._A
            _A := ((List.finRange 9).foldl
              (MatrixTransformation.updateStep t._UpdatePattern dp) (t._A, 0)).1 } := by
  simp [MatrixTransformation.updateImplementation, SM_ASSERT_EQ_DBG, bind, Except.bind, pure,
    Except.pure]

theorem doubleAdd_some (a b : ℚ) : doubleAdd (some a) (some b) = some (a + b) := rfl

theorem doubleMul_some (a b : ℚ) : doubleMul (some a) (some b) = some (a * b) := rfl

theorem doubleAdd_none (a : Option ℚ) : doubleAdd a none = none := by
  cases a <;> rfl

theorem doubleMul_none (a : Option ℚ) : doubleMul a none = none := by
  cases a <;> rfl

theorem doubleMul_one (w : Option ℚ) : doubleMul (some 1) w = w := by
  cases w with
  | none => rfl
  | some v => simp [doubleMul]

theorem doubleAdd_zero_mul (a : Option ℚ) (v : ℚ) :
    doubleAdd a (doubleMul (some 0) (some v)) = a := by
  cases a with
  | none => rfl
  | some x => simp [doubleMul, doubleAdd]

theorem take_succ_finRange (n : Nat) (h : n < 9) :
    (List.finRange 9).take (n + 1) = (List.finRange 9).take n ++ [⟨n, h⟩] := by
  rw [List.take_succ]
  simp [h]

theorem onesBefore_succ (U : Matrix (Fin 3) (Fin 3) ℚ) (n : Nat) (h : n < 9) :
    onesBefore U (n + 1)
      = onesBefore U n + (if U (patternRow ⟨n, h⟩) (patternCol ⟨n, h⟩) = 1 then 1 else 0) := by
  unfold onesBefore
  rw [take_succ_finRange n h, List.countP_append]
  simp [List.countP_cons]

theorem onesBefore_mono (U : Matrix (Fin 3) (Fin 3) ℚ) {n k : Nat} (h : n ≤ k) :
    onesBefore U n ≤ onesBefore U k := by
  unfold onesBefore
  exact List.Sublist.countP_le _ (List.take_sublist_take_left _ h)

theorem onesBefore_lt (U : Matrix (Fin 3) (Fin 3) ℚ) (i : Fin 9) {k : Nat} (h : i.val < k)
    (hi : U (patternRow i) (patternCol i) = 1) : onesBefore U i.val < onesBefore U k := by
  have h1 := onesBefore_succ U i.val i.isLt
  have h2 : onesBefore U (i.val + 1) ≤ onesBefore U k := onesBefore_mono U (Nat.succ_le_of_lt h)
  simp only [Fin.eta, hi, if_true] at h1
  omega

theorem foldl_count_ones (p : Fin 9 → Prop) [DecidablePred p] (l : List (Fin 9)) (a : Int) :
    l.foldl (fun n i => if p i then n + 1 else n) a = a + (l.countP (fun i => decide (p i))) := by
  induction l generalizing a with
  | nil => simp
  | cons x l ih =>
    rw [List.foldl_cons, ih, List.countP_cons]
    by_cases hx : p x
    · simp [hx]
      ring
    · simp [hx]

theorem constructPattern_dimension (A U : Matrix (Fin 3) (Fin 3) ℚ) :
    (MatrixTransformation.constructPattern A U)._UpdateDimension = (onesBefore U 9 : Nat) := by
  unfold MatrixTransformation.constructPattern onesBefore
  simp only
  rw [foldl_count_ones (fun i => U (patternRow i) (patternCol i) = 1)]
  have h9 : (List.finRange 9).take 9 = List.finRange 9 :=
    List.take_of_length_le (by simp)
  simp [h9]

theorem onesBefore_ones : onesBefore (fun _ _ => 1) 9 = 9 := by
  decide

theorem pattern_position (r c : Fin 3) (n : Nat) (h : n < 9) :
    (r = patternRow ⟨n, h⟩ ∧ c = patternCol ⟨n, h⟩) ↔ r.val + 3 * c.val = n := by
  have hr := r.isLt
  have hc := c.isLt
  simp only [patternRow, patternCol, Fin.ext_iff]
  omega

theorem pattern_index (i : Fin 9) : (patternRow i).val + 3 * (patternCol i).val = i.val := by
  simp only [patternRow, patternCol]
  omega

theorem update_fold (U : Matrix (Fin 3) (Fin 3) ℚ) (dp : Nat → Option ℚ)
    (A : Matrix (Fin 3) (Fin 3) (Option ℚ)) (n : Nat) (hn : n ≤ 9) :
    ((List.finRange 9).take n).foldl (MatrixTransformation.updateStep U dp) (A, 0)
      = (fun r c => if r.val + 3 * c.val < n
          then doubleAdd (A r c)
            (doubleMul (some (U r c)) (dp (onesBefore U (r.val + 3 * c.val))))
          else A r c,
         onesBefore U n) := by
  induction n with
  | zero =>
    simp only [List.take_zero, List.foldl_nil, Nat.not_lt_zero, if_false]
    rfl
  | succ n ih =>
    have h : n < 9 := by omega
    rw [take_succ_finRange n h, List.foldl_append, ih (by omega), List.foldl_cons,
      List.foldl_nil, onesBefore_succ U n h]
    have hidx := pattern_index ⟨n, h⟩
    have hstep : ∀ j : Nat,
        (if U (patternRow ⟨n, h⟩) (patternCol ⟨n, h⟩) = 1 then j + 1 else j)
          = j + (if U (patternRow ⟨n, h⟩) (patternCol ⟨n, h⟩) = 1 then 1 else 0) := by
      intro j
      by_cases hU : U (patternRow ⟨n, h⟩) (patternCol ⟨n, h⟩) = 1 <;> simp [hU]
    unfold MatrixTransformation.updateStep
    simp only [apply_ite Prod.fst, apply_ite Prod.snd, ite_self]
    refine Prod.ext ?_ ?_
    · simp only [apply_ite Prod.fst, ite_self]
      funext r c
      simp only [setEntry]
      by_cases hrc : r = patternRow ⟨n, h⟩ ∧ c = patternCol ⟨n, h⟩
      · have hpos := (pattern_position r c n h).mp hrc
        obtain ⟨hr, hc⟩ := hrc
        subst hr hc
        simp [hidx]
      · have hpos : ¬ r.val + 3 * c.val = n := fun e => hrc ((pattern_position r c n h).mpr e)
        simp only [hrc, if_false]
        by_cases hlt : r.val + 3 * c.val < n
        · simp [hlt, Nat.lt_succ_of_lt hlt]
        · have : ¬ r.val + 3 * c.val < n + 1 := by omega
          simp [hlt, this]
    · simp only [apply_ite Prod.snd]
      exact hstep _

/-- The matrix that the loop of `MatrixTransformation::updateImplementation` computes: in the
step of the entry `i`, the word read at the number of entries 1 before `i`, times the entry of
the pattern, is added to the entry. -/
theorem update_entry (U : Matrix (Fin 3) (Fin 3) ℚ) (dp : Nat → Option ℚ)
    (A : Matrix (Fin 3) (Fin 3) (Option ℚ)) (i : Fin 9) :
    ((List.finRange 9).foldl (MatrixTransformation.updateStep U dp) (A, 0)).1
        (patternRow i) (patternCol i)
      = doubleAdd (A (patternRow i) (patternCol i))
          (doubleMul (some (U (patternRow i) (patternCol i))) (dp (onesBefore U i.val))) := by
  have h9 : (List.finRange 9).take 9 = List.finRange 9 := List.take_of_length_le (by simp)
  have hfold := update_fold U dp A 9 (le_refl 9)
  rw [h9] at hfold
  rw [hfold]
  have hi := i.isLt
  simp only [pattern_index i, hi, if_true]

/-- C15: for a `MappedEuclideanPoint` and any `dp` of size 3, and for a `MatrixTransformation`
(any matrix, any update pattern, a pattern of zeros and ones included) and any `dp` of the size
`minimalDimensions()`, whatever the words behind the update vector are, the update succeeds, and
`revert` after it leaves the current value equal to the value before the update. -/
theorem C15_update_revert (p : MappedEuclideanPoint) (m : MatrixTransformation)
    (dp : Nat → ℚ) (dq : Nat → Option ℚ) (size1 size2 : Int)
    (h1 : size1 = p.minimalDimensionsImplementation)
    (h2 : size2 = m.minimalDimensionsImplementation) :
    (∃ p1, p.updateImplementation dp size1 = Except.ok p1 ∧
      p1.revertUpdateImplementation.toEuclideanImplementation = p.toEuclideanImplementation) ∧
    (∃ m1, m.updateImplementation dq size2 = Except.ok m1 ∧
      m1.revertUpdateImplementation.toFullMatrixImplementation
        = m.toFullMatrixImplementation) := by
  subst h1 h2
  exact ⟨⟨_, mappedEuclideanPoint_update_ok p dp, rfl⟩,
    ⟨_, matrixTransformation_update_ok m dq, rfl⟩⟩

/-- Witness of C15: the point (1, 2, 3) updated by (10, 20, 30), and the matrix with the rows
(1, 2, 3), (4, 5, 6), (7, 8, 9) updated at the three entries of its pattern by (10, 20, 30),
with a word that is not finite behind the update vector: the update makes the entry (2, 2) not
finite, and `revert` restores the matrix. -/
theorem C15_update_revert_witness :
    ∃ p1 m1,
      (MappedEuclideanPoint.construct ![1, 2, 3]).updateImplementation (pointerTo [10, 20, 30]) 3
        = Except.ok p1 ∧
      p1.toEuclideanImplementation 0 = 11 ∧
      p1.revertUpdateImplementation.toEuclideanImplementation = ![1, 2, 3] ∧
      (MatrixTransformation.constructPattern !![1, 2, 3; 4, 5, 6; 7, 8, 9]
        !![1, 0, 0; 1, 1, 0; 0, 0, 0]).updateImplementation (memoryAt [10, 20, 30] none) 3
        = Except.ok m1 ∧
      m1.toFullMatrixImplementation 1 1 = some 35 ∧
      m1.toFullMatrixImplementation 2 2 = none ∧
      m1.revertUpdateImplementation.toFullMatrixImplementation
        = finiteMatrix !![1, 2, 3; 4, 5, 6; 7, 8, 9] := by
  obtain ⟨⟨p1, hp1, hp2⟩, ⟨m1, hm1, hm2⟩⟩ :=
    C15_update_revert (MappedEuclideanPoint.construct ![1, 2, 3])
      (MatrixTransformation.constructPattern !![1, 2, 3; 4, 5, 6; 7, 8, 9]
        !![1, 0, 0; 1, 1, 0; 0, 0, 0])
      (pointerTo [10, 20, 30]) (memoryAt [10, 20, 30] none) 3 3 rfl (by decide!)
  refine ⟨p1, m1, hp1, ?_, hp2, hm1, ?_, ?_, hm2⟩
  · have h : ((MappedEuclideanPoint.construct ![1, 2, 3]).updateImplementation
        (pointerTo [10, 20, 30]) 3).toOption.map (fun t => t.toEuclideanImplementation 0)
        = some 11 := by decide!
    rw [hp1] at h
    simpa [Except.toOption] using h
  · have h : ((MatrixTransformation.constructPattern !![1, 2, 3; 4, 5, 6; 7, 8, 9]
        !![1, 0, 0; 1, 1, 0; 0, 0, 0]).updateImplementation (memoryAt [10, 20, 30] none)
        3).toOption.map (fun t => t.toFullMatrixImplementation 1 1) = some (some 35) := by
      decide!
    rw [hm1] at h
    simpa [Except.toOption] using h
  · have h : ((MatrixTransformation.constructPattern !![1, 2, 3; 4, 5, 6; 7, 8, 9]
        !![1, 0, 0; 1, 1, 0; 0, 0, 0]).updateImplementation (memoryAt [10, 20, 30] none)
        3).toOption.map (fun t => t.toFullMatrixImplementation 2 2) = some none := by
      decide!
    rw [hm1] at h
    simpa [Except.toOption] using h

/-- C16: for `MappedEuclideanPoint` and `MatrixTransformation`, `revert` is idempotent: a second
`revert` without an update in between leaves the current and the previous value as the first one
left them; and `revert` on a variable as constructed leaves its value unchanged. `revert` is a
total function, so no call of it fails. -/
theorem C16_revert_idempotent (p : MappedEuclideanPoint) (m : MatrixTransformation)
    (v : Fin 3 → ℚ) (A U : Matrix (Fin 3) (Fin 3) ℚ) :
    p.revertUpdateImplementation.revertUpdateImplementation = p.revertUpdateImplementation ∧
    m.revertUpdateImplementation.revertUpdateImplementation = m.revertUpdateImplementation ∧
    (MappedEuclideanPoint.construct v).revertUpdateImplementation
      = MappedEuclideanPoint.construct v ∧
    (MappedEuclideanPoint.construct v).revertUpdateImplementation.toEuclideanImplementation = v ∧
    (MatrixTransformation.construct A).revertUpdateImplementation
      = MatrixTransformation.construct A ∧
    (MatrixTransformation.construct A).revertUpdateImplementation.toFullMatrixImplementation
      = finiteMatrix A ∧
    (MatrixTransformation.constructPattern A U).revertUpdateImplementation
      = MatrixTransformation.constructPattern A U ∧
    (MatrixTransformation.constructPattern A U).revertUpdateImplementation.toFullMatrixImplementation
      = finiteMatrix A :=
  ⟨rfl, rfl, rfl, rfl, rfl, rfl, rfl, rfl⟩

/-- C17: the undo buffer of `MappedEuclideanPoint` and of `MatrixTransformation` holds one level:
after `update(d1); update(d2); revert(); revert()` the current value is the value after
`update(d1)`. For the point that value is the original value plus `d1`, and it differs from the
original value when `d1` is not zero. For the matrix that value has, at every entry `i`, the
original entry plus the entry of the pattern times the word of `d1` read in the step `i`, which
is the word at the number of entries 1 before `i`: at an entry 1 of the pattern with a finite
original entry `a` and a finite word `d` it is `a + d`, and the value after the four calls
differs from the original value when such a `d` is not zero. With the rows (1, 2, 3), (4, 5, 6),
(7, 8, 9), the entries 1 of the pattern at (0, 0), (1, 0), (1, 1), `d1 = (10, 20, 30)` and
`d2 = (1, 1, 1)` the entry (1, 1) is 35 after the four calls, not 5 and not 36. And
`MappedEuclideanPoint::setParameters` stores the prior value, so that one `revert` after it
restores that value. -/
theorem C17_one_level_undo (p : MappedEuclideanPoint) (m : MatrixTransformation)
    (d1 d2 : Nat → ℚ) (e1 e2 : Nat → Option ℚ) (v : Fin 3 → ℚ) :
    (∃ p1 p2, p.updateImplementation d1 3 = Except.ok p1 ∧
      p1.updateImplementation d2 3 = Except.ok p2 ∧
      p2.revertUpdateImplementation.revertUpdateImplementation.toEuclideanImplementation
        = p1.toEuclideanImplementation ∧
      p1.toEuclideanImplementation = (fun i => p.toEuclideanImplementation i + d1 i.val) ∧
      ((∃ i : Fin 3, d1 i.val ≠ 0) →
        p2.revertUpdateImplementation.revertUpdateImplementation.toEuclideanImplementation
          ≠ p.toEuclideanImplementation)) ∧
    (∃ m1 m2, m.updateImplementation e1 m.minimalDimensionsImplementation = Except.ok m1 ∧
      m1.updateImplementation e2 m1.minimalDimensionsImplementation = Except.ok m2 ∧
      m2.revertUpdateImplementation.revertUpdateImplementation.toFullMatrixImplementation
        = m1.toFullMatrixImplementation ∧
      (∀ i : Fin 9, m1.toFullMatrixImplementation (patternRow i) (patternCol i)
        = doubleAdd (m.toFullMatrixImplementation (patternRow i) (patternCol i))
            (doubleMul (some (m._UpdatePattern (patternRow i) (patternCol i)))
              (e1 (onesBefore m._UpdatePattern i.val)))) ∧
      (∀ (i : Fin 9) (a d : ℚ), m._UpdatePattern (patternRow i) (patternCol i) = 1 →
        m.toFullMatrixImplementation (patternRow i) (patternCol i) = some a →
        e1 (onesBefore m._UpdatePattern i.val) = some d →
        m2.revertUpdateImplementation.revertUpdateImplementation.toFullMatrixImplementation
          (patternRow i) (patternCol i) = some (a + d)) ∧
      ((∃ (i : Fin 9) (a d : ℚ), m._UpdatePattern (patternRow i) (patternCol i) = 1 ∧
          m.toFullMatrixImplementation (patternRow i) (patternCol i) = some a ∧
          e1 (onesBefore m._UpdatePattern i.val) = some d ∧ d ≠ 0) →
        m2.revertUpdateImplementation.revertUpdateImplementation.toFullMatrixImplementation
          ≠ m.toFullMatrixImplementation)) ∧
    ((((MatrixTransformation.constructPattern !![1, 2, 3; 4, 5, 6; 7, 8, 9]
          !![1, 0, 0; 1, 1, 0; 0, 0, 0]).updateImplementation (memoryAt [10, 20, 30] (some 0))
          3).bind (fun m1 => (m1.updateImplementation (memoryAt [1, 1, 1] (some 0)) 3).map
            (fun m2 => (m1.toFullMatrixImplementation 1 1, m2.toFullMatrixImplementation 1 1,
              m2.revertUpdateImplementation.revertUpdateImplementation.toFullMatrixImplementation
                1 1)))).toOption
      = some (some 35, some 36, some 35)) ∧
    (p.setParametersImplementation v).toEuclideanImplementation = v ∧
    (p.setParametersImplementation v).revertUpdateImplementation.toEuclideanImplementation
      = p.toEuclideanImplementation := by
  have hentry : ∀ i : Fin 9,
      ((List.finRange 9).foldl (MatrixTransformation.updateStep m._UpdatePattern e1)
          (m._A, 0)).1 (patternRow i) (patternCol i)
        = doubleAdd (m._A (patternRow i) (patternCol i))
            (doubleMul (some (m._UpdatePattern (patternRow i) (patternCol i)))
              (e1 (onesBefore m._UpdatePattern i.val))) :=
    fun i => update_entry m._UpdatePattern e1 m._A i
  have hone : ∀ (i : Fin 9) (a d : ℚ), m._UpdatePattern (patternRow i) (patternCol i) = 1 →
      m._A (patternRow i) (patternCol i) = some a →
      e1 (onesBefore m._UpdatePattern i.val) = some d →
      ((List.finRange 9).foldl (MatrixTransformation.updateStep m._UpdatePattern e1)
          (m._A, 0)).1 (patternRow i) (patternCol i) = some (a + d) := by
    intro i a d hU ha hd
    rw [hentry i, hU, ha, hd, doubleMul_one, doubleAdd_some]
  refine ⟨⟨_, _, mappedEuclideanPoint_update_ok p d1, mappedEuclideanPoint_update_ok _ d2,
    rfl, rfl, ?_⟩, ⟨_, _, matrixTransformation_update_ok m e1,
    matrixTransformation_update_ok _ e2, rfl, hentry, hone, ?_⟩, ?_, rfl, rfl⟩
  · rintro ⟨i, hi⟩ h
    have h2 := congrFun h i
    simp only [MappedEuclideanPoint.revertUpdateImplementation,
      MappedEuclideanPoint.toEuclideanImplementation] at h2
    exact hi (by linarith)
  · rintro ⟨i, a, d, hU, ha, hd, hne⟩ h
    have h2 := congrFun (congrFun h (patternRow i)) (patternCol i)
    have h3 := hone i a d hU ha hd
    have h4 : m.toFullMatrixImplementation (patternRow i) (patternCol i) = some a := ha
    simp only [MatrixTransformation.revertUpdateImplementation,
      MatrixTransformation.toFullMatrixImplementation] at h2 h4
    rw [h3, h4, Option.some.injEq] at h2
    exact hne (by linarith)
  · decide!

/-! ## The claims on the error terms -/

/-- C18: for an error term with an M-estimator policy of weight function `w`, `evaluateError()`
stores the value `r` of `evaluateErrorImplementation()` as the raw squared error and returns
`w(r) * r`; afterwards `getRawSquaredError() = r`,
`getWeightedSquaredError() = getSquaredError() = getSquaredError(true) = w(r) * r` and
`getSquaredError(false) = r`. -/
theorem C18_evaluateError {K : Type} [Field K] (e : ErrorTerm K) (m : MEstimator K) (r : K)
    (hm : e._mEstimatorPolicy = some m) :
    ∃ e1, e.evaluateError r = some (m.getWeight r * r, e1) ∧
      e1 = { e with _squaredError := r } ∧
      e1.getRawSquaredError = r ∧
      e1.getWeightedSquaredError = some (m.getWeight r * r) ∧
      e1.getSquaredError = some (m.getWeight r * r) ∧
      e1.getSquaredErrorUsing true = some (m.getWeight r * r) ∧
      e1.getSquaredErrorUsing false = some r := by
  refine ⟨{ e with _squaredError := r }, ?_, rfl, rfl, ?_, ?_, ?_, rfl⟩ <;>
    simp [ErrorTerm.evaluateError, ErrorTerm.updateRawSquaredError, ErrorTerm.getSquaredError,
      ErrorTerm.getSquaredErrorUsing, ErrorTerm.getWeightedSquaredError,
      ErrorTerm.getCurrentMEstimatorWeight, ErrorTerm.getMEstimatorWeight, hm]

/-- Witness of C18 over the rationals: the policy with the weight `1 / (1 + r)` and the raw
squared error 3 give the weighted squared error 3/4. -/
theorem C18_evaluateError_witness :
    ∃ e1, (⟨some ⟨fun r => 1 / (1 + r)⟩, 0⟩ : ErrorTerm ℚ).evaluateError 3 = some (3 / 4, e1) ∧
      e1.getRawSquaredError = 3 ∧ e1.getSquaredErrorUsing true = some (3 / 4) := by
  obtain ⟨e1, h1, _, h3, _, _, h6, _⟩ :=
    C18_evaluateError (⟨some ⟨fun r => 1 / (1 + r)⟩, 0⟩ : ErrorTerm ℚ) ⟨fun r => 1 / (1 + r)⟩ 3 rfl
  have hv : (1 / (1 + 3) * 3 : ℚ) = 3 / 4 := by norm_num
  simp only [hv] at h1 h6
  exact ⟨e1, h1, h3, h6⟩

theorem JacobianContainer.apply_add {K : Type} [Field K] {DV : Type} [DecidableEq DV]
    {minimalDimensions : DV → Nat} {outRows rows rows2 : Nat}
    (jc : JacobianContainer K DV minimalDimensions outRows rows)
    (M : Matrix (Fin rows) (Fin rows2) K) (dv : DV)
    (block : Matrix (Fin rows2) (Fin (minimalDimensions dv)) K) :
    (jc.apply M).add dv block = (jc.add dv (M * block)).apply M := by
  simp only [JacobianContainer.apply, JacobianContainer.add, Matrix.mul_assoc]

theorem evaluateJacobians_chainRule {K : Type} [Field K] {DV : Type} [DecidableEq DV]
    {minimalDimensions : DV → Nat} {outRows D : Nat}
    (jacobians : List (JacobianBlock K DV minimalDimensions D)) :
    ∀ jc : JacobianContainer K DV minimalDimensions outRows D,
      (ErrorTerm.evaluateJacobians jacobians jc).chainRule = jc.chainRule := by
  induction jacobians with
  | nil => intro jc; rfl
  | cons b bs ih =>
    intro jc
    simp only [ErrorTerm.evaluateJacobians, List.foldl_cons] at ih ⊢
    rw [ih]
    rfl

theorem evaluateJacobians_apply {K : Type} [Field K] {DV : Type} [DecidableEq DV]
    {minimalDimensions : DV → Nat} {outRows D k : Nat} (M : Matrix (Fin k) (Fin D) K)
    (jacobians : List (JacobianBlock K DV minimalDimensions D)) :
    ∀ jc : JacobianContainer K DV minimalDimensions outRows k,
      ErrorTerm.evaluateJacobians jacobians (jc.apply M)
        = (ErrorTerm.evaluateJacobians (jacobians.map (JacobianBlock.premultiply M)) jc).apply
            M := by
  induction jacobians with
  | nil => intro jc; rfl
  | cons b bs ih =>
    intro jc
    simp only [ErrorTerm.evaluateJacobians, List.foldl_cons, List.map_cons] at ih ⊢
    rw [JacobianContainer.apply_add, ih]
    rfl

theorem evaluateWeightedJacobian_eq {K : Type} [Field K] {DV : Type} [DecidableEq DV]
    {minimalDimensions : DV → Nat} {outRows D k : Nat} (e : ErrorTerm K) (sqrt : K → K)
    (jacobians : List (JacobianBlock K DV minimalDimensions D))
    (outJc : JacobianContainer K DV minimalDimensions outRows k) (useMEstimator : Bool)
    (weight : Matrix (Fin D) (Fin k) K) :
    e.evaluateWeightedJacobian sqrt jacobians outJc useMEstimator weight
      = (e.sqrtWeight sqrt useMEstimator).map (fun s =>
          ErrorTerm.evaluateJacobians
            (jacobians.map (JacobianBlock.premultiply (s • weight.transpose))) outJc) := by
  unfold ErrorTerm.evaluateWeightedJacobian
  congr 1
  funext s
  rw [evaluateJacobians_apply]
  have h := evaluateJacobians_chainRule
    (jacobians.map (JacobianBlock.premultiply (s • weight.transpose))) outJc
  cases hr : ErrorTerm.evaluateJacobians
    (jacobians.map (JacobianBlock.premultiply (s • weight.transpose))) outJc with
  | mk c b =>
    rw [hr] at h
    simp only [JacobianContainer.apply] at h ⊢
    simp only [h]

/-- C19, as the code has it: for an error term whose M-estimator policy has the weight 1 for
every squared error, the weight is 1, `getWeightedSquaredError()` equals
`getRawSquaredError()`, `evaluateError()` returns the raw squared error, and
`evaluateWeightedJacobian` with `useMEstimator = true` scales by `sqrt(1) = 1`, that is, as it
does with `useMEstimator = false`; none of these calls fails. -/
theorem C19_unit_weight_policy {K : Type} [Field K] {DV : Type} [DecidableEq DV]
    {minimalDimensions : DV → Nat} {outRows D k : Nat} (e : ErrorTerm K) (m : MEstimator K)
    (sqrt : K → K) (jacobians : List (JacobianBlock K DV minimalDimensions D))
    (outJc : JacobianContainer K DV minimalDimensions outRows k)
    (weight : Matrix (Fin D) (Fin k) K) (r : K) (hm : e._mEstimatorPolicy = some m)
    (hone : ∀ x, m.getWeight x = 1) (hsqrt : sqrt 1 = 1) :
    e.getCurrentMEstimatorWeight = some 1 ∧
    e.getWeightedSquaredError = some e.getRawSquaredError ∧
    (∃ e1, e.evaluateError r = some (r, e1) ∧ e1.getRawSquaredError = r) ∧
    e.sqrtWeight sqrt true = some 1 ∧
    e.evaluateWeightedJacobian sqrt jacobians outJc true weight
      = e.evaluateWeightedJacobian sqrt jacobians outJc false weight ∧
    e.evaluateWeightedJacobian sqrt jacobians outJc true weight
      = some (ErrorTerm.evaluateJacobians
          (jacobians.map (JacobianBlock.premultiply ((1 : K) • weight.transpose))) outJc) := by
  have hs : e.sqrtWeight sqrt true = some 1 := by
    simp [ErrorTerm.sqrtWeight, hm, hone, hsqrt]
  have hf : e.sqrtWeight sqrt false = some 1 := by
    simp [ErrorTerm.sqrtWeight]
  refine ⟨?_, ?_, ⟨{ e with _squaredError := r }, ?_, rfl⟩, hs, ?_, ?_⟩
  · simp [ErrorTerm.getCurrentMEstimatorWeight, ErrorTerm.getMEstimatorWeight, hm, hone]
  · simp [ErrorTerm.getWeightedSquaredError, ErrorTerm.getCurrentMEstimatorWeight,
      ErrorTerm.getMEstimatorWeight, ErrorTerm.getRawSquaredError, hm, hone]
  · simp [ErrorTerm.evaluateError, ErrorTerm.updateRawSquaredError, ErrorTerm.getSquaredError,
      ErrorTerm.getWeightedSquaredError, ErrorTerm.getCurrentMEstimatorWeight,
      ErrorTerm.getMEstimatorWeight, hm, hone]
  · rw [evaluateWeightedJacobian_eq, evaluateWeightedJacobian_eq, hs, hf]
  · rw [evaluateWeightedJacobian_eq, hs]
    rfl

/-- Witness of C19 over the reals, with the square root of the reals. -/
theorem C19_unit_weight_policy_witness :
    (constantOnePolicy ℝ).getWeight 7 = 1 ∧ Real.sqrt 1 = 1 ∧
    (⟨some (constantOnePolicy ℝ), 7⟩ : ErrorTerm ℝ).getWeightedSquaredError = some 7 ∧
    ((⟨some (constantOnePolicy ℝ), 7⟩ : ErrorTerm ℝ).evaluateWeightedJacobian Real.sqrt
      [(⟨0, 1⟩ : JacobianBlock ℝ (Fin 1) (fun _ => 1) 1)] (emptyContainer ℝ) true 1).isSome
      = true := by
  obtain ⟨_, h2, _, _, _, h6⟩ :=
    C19_unit_weight_policy (⟨some (constantOnePolicy ℝ), 7⟩ : ErrorTerm ℝ) (constantOnePolicy ℝ)
      Real.sqrt [(⟨0, 1⟩ : JacobianBlock ℝ (Fin 1) (fun _ => 1) 1)] (emptyContainer ℝ) 1 3 rfl
      (fun _ => rfl) Real.sqrt_one
  refine ⟨rfl, Real.sqrt_one, h2, ?_⟩
  rw [h6]
  rfl

/-- Counterexample to C19 as stated: for an error term whose policy pointer is null,
`getWeightedSquaredError()`, `evaluateError()` and `evaluateWeightedJacobian` with
`useMEstimator = true` call through the null pointer and have no result. -/
theorem C19_counterexample :
    (⟨none, 4⟩ : ErrorTerm ℚ).getWeightedSquaredError = none ∧
    (⟨none, 4⟩ : ErrorTerm ℚ).getWeightedSquaredError
      ≠ some (⟨none, 4⟩ : ErrorTerm ℚ).getRawSquaredError ∧
    (⟨none, 4⟩ : ErrorTerm ℚ).evaluateError 4 = none ∧
    (⟨none, 4⟩ : ErrorTerm ℚ).evaluateWeightedJacobian (fun x => x)
      [(⟨0, 1⟩ : JacobianBlock ℚ (Fin 1) (fun _ => 1) 1)] (emptyContainer ℚ) true 1 = none := by
  refine ⟨rfl, ?_, rfl, rfl⟩
  intro h
  cases h

/-- C20: `ErrorTerm::evaluateWeightedJacobian(outJc, useMEstimator, W)` adds to the container
every Jacobian block of the error term multiplied from the left by `s * W^T`, where `s` is
`sqrt(w(rawSquaredError))` if `useMEstimator` is true and 1 if it is false; a single block `B` of
a design variable adds `chainRule * ((s * W^T) * B)` to the accumulator of that variable. For a
weight `w` whose square root is exact (`sqrt(w) * sqrt(w) = w`, as for every `w >= 0` over the
reals) and any Jacobian `J`, the weighted Jacobian `Jw = s * W^T * J` satisfies
`Jw^T * Jw = w * (W^T J)^T (W^T J)`. -/
theorem C20_weighted_jacobian {K : Type} [Field K] {DV : Type} [DecidableEq DV]
    {minimalDimensions : DV → Nat} {outRows D k n : Nat} (e : ErrorTerm K) (m : MEstimator K)
    (sqrt : K → K) (jacobians : List (JacobianBlock K DV minimalDimensions D))
    (outJc : JacobianContainer K DV minimalDimensions outRows k)
    (W : Matrix (Fin D) (Fin k) K) (dv : DV) (B : Matrix (Fin D) (Fin (minimalDimensions dv)) K)
    (J : Matrix (Fin D) (Fin n) K) (hm : e._mEstimatorPolicy = some m)
    (hs : sqrt (m.getWeight e.getRawSquaredError) * sqrt (m.getWeight e.getRawSquaredError)
      = m.getWeight e.getRawSquaredError) :
    e.evaluateWeightedJacobian sqrt jacobians outJc true W
      = some (ErrorTerm.evaluateJacobians
          (jacobians.map (JacobianBlock.premultiply
            (sqrt (m.getWeight e.getRawSquaredError) • W.transpose))) outJc) ∧
    e.evaluateWeightedJacobian sqrt jacobians outJc false W
      = some (ErrorTerm.evaluateJacobians
          (jacobians.map (JacobianBlock.premultiply ((1 : K) • W.transpose))) outJc) ∧
    (∃ jc, e.evaluateWeightedJacobian sqrt [⟨dv, B⟩] outJc true W = some jc ∧
      jc.blocks dv = outJc.blocks dv
        + outJc.chainRule * ((sqrt (m.getWeight e.getRawSquaredError) • W.transpose) * B)) ∧
    ((sqrt (m.getWeight e.getRawSquaredError) • W.transpose) * J).transpose
        * ((sqrt (m.getWeight e.getRawSquaredError) • W.transpose) * J)
      = m.getWeight e.getRawSquaredError • ((W.transpose * J).transpose * (W.transpose * J)) := by
  have ht : e.sqrtWeight sqrt true = some (sqrt (m.getWeight e.getRawSquaredError)) := by
    simp [ErrorTerm.sqrtWeight, hm]
  have hf : e.sqrtWeight sqrt false = some 1 := by
    simp [ErrorTerm.sqrtWeight]
  have h1 : e.evaluateWeightedJacobian sqrt [⟨dv, B⟩] outJc true W
      = some (outJc.add dv ((sqrt (m.getWeight e.getRawSquaredError) • W.transpose) * B)) := by
    rw [evaluateWeightedJacobian_eq, ht]
    rfl
  refine ⟨?_, ?_, ⟨_, h1, ?_⟩, ?_⟩
  · rw [evaluateWeightedJacobian_eq, ht]
    rfl
  · rw [evaluateWeightedJacobian_eq, hf]
    rfl
  · simp [JacobianContainer.add]
  · rw [Matrix.smul_mul, Matrix.transpose_smul, Matrix.smul_mul, Matrix.mul_smul, smul_smul, hs]

/-- Witness of C20 over the reals, with the square root of the reals and the weight 2, whose
square root is not rational. -/
theorem C20_weighted_jacobian_witness :
    Real.sqrt 2 * Real.sqrt 2 = 2 ∧
    ((⟨some ⟨fun _ => 2⟩, 7⟩ : ErrorTerm ℝ).evaluateWeightedJacobian Real.sqrt
      [(⟨0, 1⟩ : JacobianBlock ℝ (Fin 1) (fun _ => 1) 1)] (emptyContainer ℝ) true 1).isSome
      = true ∧
    ((Real.sqrt 2 • (1 : Matrix (Fin 1) (Fin 1) ℝ).transpose) * 1).transpose
        * ((Real.sqrt 2 • (1 : Matrix (Fin 1) (Fin 1) ℝ).transpose) * 1)
      = (2 : ℝ) • (((1 : Matrix (Fin 1) (Fin 1) ℝ).transpose * 1).transpose
          * ((1 : Matrix (Fin 1) (Fin 1) ℝ).transpose * 1)) := by
  have hs : Real.sqrt 2 * Real.sqrt 2 = 2 := Real.mul_self_sqrt (by norm_num)
  obtain ⟨h1, _, _, h4⟩ :=
    C20_weighted_jacobian (⟨some ⟨fun _ => 2⟩, 7⟩ : ErrorTerm ℝ) ⟨fun _ => 2⟩ Real.sqrt
      [(⟨0, 1⟩ : JacobianBlock ℝ (Fin 1) (fun _ => 1) 1)] (emptyContainer ℝ) 1 0 1
      (1 : Matrix (Fin 1) (Fin 1) ℝ) rfl hs
  refine ⟨hs, ?_, h4⟩
  rw [h1]
  rfl

/-! ## The claims on the differentials -/

theorem getDomainBasisVectorByIndex_eq_single {K : Type} [Field K] {n : Nat} (i : Fin n) :
    (getDomainBasisVectorByIndex i : Fin n → K) = Pi.single i 1 := by
  funext a
  simp [getDomainBasisVectorByIndex, Pi.single, Function.update]

theorem mulVec_basisVector {K : Type} [Field K] {n r : Nat} (M : Matrix (Fin r) (Fin n) K)
    (i : Fin n) : M.mulVec (getDomainBasisVectorByIndex i) = fun a => M a i := by
  rw [getDomainBasisVectorByIndex_eq_single, Matrix.mulVec_single]
  funext a
  simp

/-- C21: for every differential of `Differential.hpp` and every valid basis index `i`,
`applyBasisVectorInto(i)` yields the same vector as `applyInto` on the `i`-th standard basis
vector of the domain: for `NullDifferential` both are the zero vector, as is `applyInto` on every
input; for `IdentityDifferential` both are the basis vector; for `MatrixDifferential` both are
column `i` of the matrix; for `ComposedMatrixDifferential` with a matrix and any next
differential both are the next differential applied to column `i` of the matrix. -/
theorem C21_basis_vector_application {K : Type} [Field K] {n k r : Nat} (i : Fin n)
    (d0 : NullDifferential K n r) (d1 : IdentityDifferential K n) (d2 : MatrixDifferential K n r)
    (d3 : ComposedMatrixDifferential K n k r) (v : Fin n → K) :
    (d0.applyBasisVectorInto i = d0.applyInto (getDomainBasisVectorByIndex i) ∧
      d0.applyBasisVectorInto i = 0 ∧ d0.applyInto v = 0) ∧
    (d1.applyBasisVectorInto i = d1.applyInto (getDomainBasisVectorByIndex i) ∧
      d1.applyBasisVectorInto i = getDomainBasisVectorByIndex i) ∧
    (d2.applyBasisVectorInto i = d2.applyInto (getDomainBasisVectorByIndex i) ∧
      d2.applyBasisVectorInto i = fun a => d2._mat a i) ∧
    (d3.applyBasisVectorInto i = d3.applyInto (getDomainBasisVectorByIndex i) ∧
      d3.applyBasisVectorInto i = d3._next_differential.applyInto (fun a => d3._mat a i)) := by
  refine ⟨⟨rfl, rfl, rfl⟩, ⟨rfl, rfl⟩, ⟨?_, rfl⟩, ⟨?_, rfl⟩⟩
  · simp only [MatrixDifferential.applyInto, mulVec_basisVector]
    rfl
  · simp only [ComposedMatrixDifferential.applyBasisVectorInto,
      ComposedMatrixDifferential.applyInto, ComposedMatrixDifferential.apply,
      mulVec_basisVector]
    rfl

theorem calcJacobianByApplication_null {K : Type} [Field K] {n r : Nat}
    (d : NullDifferential K n r) : calcJacobianByApplication d.toDifferential = 0 := rfl

theorem calcJacobianByApplication_identity {K : Type} [Field K] {n : Nat}
    (d : IdentityDifferential K n) : calcJacobianByApplication d.toDifferential = 1 := by
  funext a i
  simp only [calcJacobianByApplication, IdentityDifferential.toDifferential,
    IdentityDifferential.applyBasisVectorInto, Function.update, Matrix.one_apply]
  by_cases h : a = i <;> simp [h]

theorem calcJacobianByApplication_matrix {K : Type} [Field K] {n r : Nat}
    (d : MatrixDifferential K n r) : calcJacobianByApplication d.toDifferential = d._mat := rfl

theorem calcJacobianByApplication_composed {K : Type} [Field K] {n k r : Nat}
    (d : ComposedMatrixDifferential K n k r) (hnext : d._next_differential.IsLinear) :
    calcJacobianByApplication d.toDifferential
      = calcJacobianByApplication d._next_differential * d._mat := by
  funext a i
  have h := congrFun (hnext (fun b => d._mat b i)) a
  exact h

theorem isLinear_null {K : Type} [Field K] {n r : Nat} (d : NullDifferential K n r) :
    d.toDifferential.IsLinear := by
  intro v
  rw [calcJacobianByApplication_null]
  simp [NullDifferential.toDifferential, NullDifferential.applyInto]
  rfl

theorem isLinear_identity {K : Type} [Field K] {n : Nat} (d : IdentityDifferential K n) :
    d.toDifferential.IsLinear := by
  intro v
  rw [calcJacobianByApplication_identity]
  simp [IdentityDifferential.toDifferential, IdentityDifferential.applyInto]

theorem isLinear_matrix {K : Type} [Field K] {n r : Nat} (d : MatrixDifferential K n r) :
    d.toDifferential.IsLinear := by
  intro v
  rfl

theorem isLinear_composed {K : Type} [Field K] {n k r : Nat}
    (d : ComposedMatrixDifferential K n k r) (hnext : d._next_differential.IsLinear) :
    d.toDifferential.IsLinear := by
  intro v
  rw [calcJacobianByApplication_composed d hnext]
  simp only [ComposedMatrixDifferential.toDifferential, ComposedMatrixDifferential.applyInto,
    ComposedMatrixDifferential.apply]
  rw [hnext, Matrix.mulVec_mulVec]

/-- C22: for every differential `D` of `Differential.hpp` with the matrix representation
`Mat(D)`, whose columns are the images of the basis vectors, and every preceding Jacobian `J`,
`addToJacobianContainer(jc, dv, J)` adds to the accumulator of `dv` the block `Mat(D) * J`:
`IdentityDifferential` adds `J`, `MatrixDifferential(M)` adds `M * J`,
`ComposedMatrixDifferential(M, next)` adds `Mat(next) * M * J` for a next differential that acts
as its matrix representation, and `NullDifferential` leaves the container unchanged. The four
classes act as their matrix representations, the composed one if its next differential does. -/
theorem C22_addToJacobianContainer {K : Type} [Field K] {DV : Type} [DecidableEq DV]
    {minimalDimensions : DV → Nat} {outRows n k r : Nat} (dv : DV)
    (J : Matrix (Fin n) (Fin (minimalDimensions dv)) K) (d0 : NullDifferential K n r)
    (d1 : IdentityDifferential K n) (d2 : MatrixDifferential K n r)
    (d3 : ComposedMatrixDifferential K n k r)
    (jc : JacobianContainer K DV minimalDimensions outRows r)
    (jc1 : JacobianContainer K DV minimalDimensions outRows n)
    (hnext : d3._next_differential.IsLinear) :
    (d0.addToJacobianContainer jc dv J = jc ∧
      calcJacobianByApplication d0.toDifferential = 0) ∧
    (d1.addToJacobianContainer jc1 dv J = jc1.add dv J ∧
      d1.addToJacobianContainer jc1 dv J
        = jc1.add dv (calcJacobianByApplication d1.toDifferential * J)) ∧
    (d2.addToJacobianContainer jc dv J = jc.add dv (d2._mat * J) ∧
      d2.addToJacobianContainer jc dv J
        = jc.add dv (calcJacobianByApplication d2.toDifferential * J)) ∧
    (d3.addToJacobianContainer jc dv J
        = jc.add dv (calcJacobianByApplication d3._next_differential * d3._mat * J) ∧
      d3.addToJacobianContainer jc dv J
        = jc.add dv (calcJacobianByApplication d3.toDifferential * J)) ∧
    (d0.toDifferential.IsLinear ∧ d1.toDifferential.IsLinear ∧ d2.toDifferential.IsLinear ∧
      d3.toDifferential.IsLinear) := by
  have h3 : d3.addToJacobianContainer jc dv J
      = jc.add dv (calcJacobianByApplication d3._next_differential * d3._mat * J) := by
    simp only [ComposedMatrixDifferential.addToJacobianContainer,
      ComposedMatrixDifferential.addToJacobianByApplication]
    rw [calcJacobianByApplication_composed (d3.compose J) hnext]
    simp only [ComposedMatrixDifferential.compose, Matrix.mul_assoc]
  refine ⟨⟨rfl, rfl⟩, ⟨rfl, ?_⟩, ⟨rfl, rfl⟩, ⟨h3, ?_⟩,
    ⟨isLinear_null d0, isLinear_identity d1, isLinear_matrix d2, isLinear_composed d3 hnext⟩⟩
  · rw [calcJacobianByApplication_identity, Matrix.one_mul]
    rfl
  · rw [h3, calcJacobianByApplication_composed d3 hnext]

/-- Witness of C22 over the rationals: the composed differential with the matrix (2) and the
next differential of the matrix (3) adds `3 * 2 * 5 = 30` to the accumulator, which was 0. -/
theorem C22_addToJacobianContainer_witness :
    (MatrixDifferential.toDifferential (⟨!![3]⟩ : MatrixDifferential ℚ 1 1)).IsLinear ∧
    ((⟨!![2], MatrixDifferential.toDifferential ⟨!![3]⟩⟩ :
        ComposedMatrixDifferential ℚ 1 1 1).addToJacobianContainer (emptyContainer ℚ) 0
      !![5]).blocks 0 0 0 = 30 := by
  have hl : (MatrixDifferential.toDifferential (⟨!![3]⟩ : MatrixDifferential ℚ 1 1)).IsLinear :=
    isLinear_matrix _
  obtain ⟨_, _, _, ⟨h, _⟩, _⟩ :=
    C22_addToJacobianContainer (0 : Fin 1) (!![5] : Matrix (Fin 1) (Fin 1) ℚ)
      (⟨⟩ : NullDifferential ℚ 1 1) (⟨⟩ : IdentityDifferential ℚ 1)
      (⟨!![3]⟩ : MatrixDifferential ℚ 1 1)
      (⟨!![2], MatrixDifferential.toDifferential ⟨!![3]⟩⟩ : ComposedMatrixDifferential ℚ 1 1 1)
      (emptyContainer ℚ) (emptyContainer ℚ) hl
  refine ⟨hl, ?_⟩
  rw [h]
  have hm : calcJacobianByApplication
      (MatrixDifferential.toDifferential (⟨!![3]⟩ : MatrixDifferential ℚ 1 1)) = !![3] := rfl
  simp only [hm]
  simp [JacobianContainer.add, emptyContainer, Matrix.mul_apply]
  norm_num

/-- C23: composition of `ComposedMatrixDifferential` agrees with application and is associative:
for `D = ComposedMatrixDifferential(M, next)`, matrices `J1`, `J2` and a tangent vector `v`,
`applyInto(D.compose(J1), v) = applyInto(D, J1 * v)`, and `D.compose(J1).compose(J2)` is
`D.compose(J1 * J2)`, with the matrix `M * J1 * J2` and the next differential of `D`. -/
theorem C23_compose {K : Type} [Field K] {n k r c e : Nat}
    (d : ComposedMatrixDifferential K n k r) (J1 : Matrix (Fin n) (Fin c) K)
    (J2 : Matrix (Fin c) (Fin e) K) (v : Fin c → K) :
    (d.compose J1).applyInto v = d.applyInto (J1.mulVec v) ∧
    (d.compose J1).compose J2 = d.compose (J1 * J2) ∧
    ((d.compose J1).compose J2)._mat = d._mat * J1 * J2 ∧
    ((d.compose J1).compose J2)._next_differential = d._next_differential := by
  refine ⟨?_, ?_, rfl, rfl⟩
  · simp only [ComposedMatrixDifferential.compose, ComposedMatrixDifferential.applyInto,
      ComposedMatrixDifferential.apply, Matrix.mulVec_mulVec]
  · simp only [ComposedMatrixDifferential.compose, Matrix.mul_assoc]

/-! ## The claim on two consecutive iterations -/

/-- C25: for the methods RPROP_PLUS, IRPROP_MINUS and IRPROP_PLUS, if dimension `d` is classified
as a sign switch in an iteration (which shrinks `delta(d)`) and the next iteration passes the
gradient-norm check, then in the next iteration the product `prev_gradient(d) * gradient(d)` is
neither negative nor positive, so dimension `d` is neither a switch nor same-sign, `delta(d)`
is not adapted and `dx(d) = -sign(gradient(d)) * delta(d)`: `delta(d)` is not shrunk in two
consecutive iterations. -/
theorem C25_no_consecutive_switch {X : Type} (P : ProblemManager X) (s t : OptimizerRprop X)
    (d : Nat) (hw : s.WellSized P) (hd : d < P.numOptParameters)
    (hm : s.options.method = Method.RPROP_PLUS ∨ s.options.method = Method.IRPROP_MINUS ∨
      s.options.method = Method.IRPROP_PLUS)
    (hpass0 : ¬ s.gradientNormConverged P)
    (hsw : coeff s.prev_gradient d * coeff (s.gradient P) d < 0)
    (hk : s.iteration P = Except.ok (LoopControl.next t))
    (hg : (t.gradient P).length = P.numOptParameters)
    (hpass1 : ¬ t.gradientNormConverged P) :
    coeff t.delta d = max (coeff s.delta d * s.options.etaMinus) s.options.minDelta ∧
    ¬ coeff t.prev_gradient d * coeff (t.gradient P) d < 0 ∧
    ¬ coeff t.prev_gradient d * coeff (t.gradient P) d > 0 ∧
    ∃ c, t.iteration P = Except.ok c ∧
      coeff c.state.delta d = coeff t.delta d ∧
      coeff c.state.dx d = -(sign (coeff (t.gradient P) d)) * coeff c.state.delta d := by
  obtain ⟨w1, w2, w3, w4⟩ := hw
  have hk2 := hk
  rw [iteration_of_pass P s hpass0] at hk2
  obtain ⟨i1, i2, i3, i4⟩ := checkDx_ok_inv P _ _ hk2
  simp only [LoopControl.state] at i1 i2 i3 i4
  obtain ⟨f1, _, _, f4, f5, f6, _, _⟩ := stepped_frame P s
  obtain ⟨a1, _, a3⟩ := stepped_coeff P s d hd (by omega) (by omega) (by omega)
  have hnot : ¬ coeff s.prev_gradient d * coeff (s.gradient P) d > 0 := not_lt.mpr hsw.le
  have hpg : coeff t.prev_gradient d = 0 := by
    rw [i4, a3]
    rcases hm with hm | hm | hm <;> simp [newPrevGradient, hm, hsw]
  have hdelta : coeff t.delta d
      = max (coeff s.delta d * s.options.etaMinus) s.options.minDelta := by
    rw [i2, a1]
    simp [newDelta, hsw, hnot]
  have hp : coeff t.prev_gradient d * coeff (t.gradient P) d = 0 := by
    rw [hpg, zero_mul]
  have ht1 : t.delta.length = P.numOptParameters := by rw [i2, f4, w1]
  have ht2 : t.dx.length = P.numOptParameters := by rw [i3, f5, w2]
  obtain ⟨c, hc, e1, e2, _, _, _⟩ := iteration_state P t hpass1 (by omega)
  obtain ⟨b1, b2, _⟩ := stepped_coeff P t d hd (by omega) (by omega) (by omega)
  have hmt : t.options.method = s.options.method := by rw [i1, f1]
  refine ⟨hdelta, by rw [hp]; exact lt_irrefl 0, by rw [hp]; exact lt_irrefl 0, c, hc, ?_, ?_⟩
  · rw [e1, b1, hp]
    simp [newDelta]
  · rw [e2, e1, b2, hp]
    rcases hm with hm | hm | hm <;> simp [newDx, hmt, hm]

/-- Witness of C25 on the quadratic problem with RPROP_PLUS: dimension 0 switches in the second
iteration, which shrinks its step size from 3 to 3/2; in the third iteration the step size of
dimension 0 is 3/2 still and the step is 3/2, against the gradient -2. -/
theorem C25_no_consecutive_switch_witness :
    ∃ t, (quadraticSecond Method.RPROP_PLUS 0).iteration quadratic
        = Except.ok (LoopControl.next t) ∧
      ¬ t.gradientNormConverged quadratic ∧
      coeff t.delta 0 = 3 / 2 ∧
      ∃ c, t.iteration quadratic = Except.ok c ∧ coeff c.state.delta 0 = 3 / 2 ∧
        coeff c.state.dx 0 = 3 / 2 := by
  have hw : (quadraticSecond Method.RPROP_PLUS 0).WellSized quadratic := ⟨rfl, rfl, rfl, rfl⟩
  have hpass0 : ¬ (quadraticSecond Method.RPROP_PLUS 0).gradientNormConverged quadratic := by
    decide!
  have hm : maxCoeff (cwiseAbs ((quadraticSecond Method.RPROP_PLUS 0).stepped quadratic).dx)
      = some (18 / 5) := by decide!
  have hi := (iteration_of_pass quadratic _ hpass0).trans
    (checkDx_next quadratic ((quadraticSecond Method.RPROP_PLUS 0).stepped quadratic) (18 / 5) hm
      (by decide!))
  have hpass1 : ¬ OptimizerRprop.gradientNormConverged quadratic
      { (quadraticSecond Method.RPROP_PLUS 0).stepped quadratic with
        returnValue :=
          { ((quadraticSecond Method.RPROP_PLUS 0).stepped quadratic).returnValue with
            maxDx := some (18 / 5) }
        x := quadratic.applyStateUpdate ((quadraticSecond Method.RPROP_PLUS 0).stepped quadratic).x
          ((quadraticSecond Method.RPROP_PLUS 0).stepped quadratic).dx } := by
    decide!
  obtain ⟨h1, _, _, c, hc, h2, h3⟩ :=
    C25_no_consecutive_switch quadratic (quadraticSecond Method.RPROP_PLUS 0) _ 0 hw (by decide)
      (Or.inl rfl) hpass0 (by decide!) hi (by decide!) hpass1
  have hd : coeff ((quadraticSecond Method.RPROP_PLUS 0).stepped quadratic).delta 0 = 3 / 2 := by
    decide!
  refine ⟨_, hi, hpass1, hd, c, hc, h2.trans hd, ?_⟩
  rw [h3, h2]
  decide!

/-! ## The pattern of a `MatrixTransformation` -/

/-- The `k`-th entry equal to 1 of a pattern, in column-major order: below the number of these
entries, every `k` belongs to exactly one position. -/
theorem exists_unique_kth_one (U : Matrix (Fin 3) (Fin 3) ℚ) (k : Nat)
    (hk : k < onesBefore U 9) :
    ∃! i : Fin 9, U (patternRow i) (patternCol i) = 1 ∧ onesBefore U i.val = k := by
  have hex : ∀ N, N ≤ 9 → k < onesBefore U N →
      ∃ i : Fin 9, U (patternRow i) (patternCol i) = 1 ∧ onesBefore U i.val = k := by
    intro N
    induction N with
    | zero =>
      intro _ h
      simp [onesBefore] at h
    | succ N ih =>
      intro hN h
      by_cases hlt : k < onesBefore U N
      · exact ih (by omega) hlt
      · have hs := onesBefore_succ U N (by omega)
        by_cases hU : U (patternRow ⟨N, by omega⟩) (patternCol ⟨N, by omega⟩) = 1
        · refine ⟨⟨N, by omega⟩, hU, ?_⟩
          simp only [hU, if_true] at hs
          show onesBefore U N = k
          omega
        · simp only [hU, if_false] at hs
          omega
  obtain ⟨i, hi1, hi2⟩ := hex 9 (le_refl 9) hk
  refine ⟨i, ⟨hi1, hi2⟩, ?_⟩
  rintro j ⟨hj1, hj2⟩
  rcases lt_trichotomy i.val j.val with h | h | h
  · have := onesBefore_lt U i h hi1
    omega
  · exact (Fin.ext h).symm
  · have := onesBefore_lt U j h hj1
    omega

/-- With the last entry of the pattern equal to 1, every step of the loop of
`MatrixTransformation::updateImplementation` reads inside the update vector. -/
theorem onesBefore_lt_of_last (U : Matrix (Fin 3) (Fin 3) ℚ) (h : U 2 2 = 1) (i : Fin 9) :
    onesBefore U i.val < onesBefore U 9 := by
  have h8 : onesBefore U 9 = onesBefore U 8
      + (if U (patternRow ⟨8, by decide⟩) (patternCol ⟨8, by decide⟩) = 1 then 1 else 0) :=
    onesBefore_succ U 8 (by decide)
  have hrc : U (patternRow ⟨8, by decide⟩) (patternCol ⟨8, by decide⟩) = U 2 2 := rfl
  rw [hrc] at h8
  simp only [h, if_true] at h8
  have hi := i.isLt
  have hmono := onesBefore_mono U (show i.val ≤ 8 by omega)
  omega

theorem jacobian_fold (t : MatrixTransformation) {m : Nat}
    (hdim : t._UpdateDimension = (onesBefore t._UpdatePattern 9 : Nat))
    (CR : Matrix (Fin 3) (Fin 9) ℚ) (J0 : Matrix (Fin 3) (Fin m) ℚ) (n : Nat) (hn : n ≤ 9) :
    ∃ J : Matrix (Fin 3) (Fin m) ℚ,
      ((List.finRange 9).take n).foldlM (t.jacobianStep CR) (J0, 0)
        = Except.ok (J, onesBefore t._UpdatePattern n) ∧
      (∀ i : Fin 9, i.val < n → t._UpdatePattern (patternRow i) (patternCol i) = 1 →
        ∀ r (k : Fin m), k.val = onesBefore t._UpdatePattern i.val → J r k = CR r i) ∧
      (∀ r (k : Fin m), onesBefore t._UpdatePattern n ≤ k.val → J r k = J0 r k) := by
  induction n with
  | zero =>
    refine ⟨J0, ?_, ?_, ?_⟩
    · simp only [List.take_zero, List.foldlM_nil]
      rfl
    · intro i hi
      exact absurd hi (Nat.not_lt_zero _)
    · intro r k _
      rfl
  | succ n ih =>
    have h : n < 9 := by omega
    obtain ⟨J, hJ, h1, h2⟩ := ih (by omega)
    have hs := onesBefore_succ t._UpdatePattern n h
    rw [take_succ_finRange n h, List.foldlM_append, hJ]
    by_cases hU : t._UpdatePattern (patternRow ⟨n, h⟩) (patternCol ⟨n, h⟩) = 1
    · simp only [hU, if_true] at hs
      have hlt : onesBefore t._UpdatePattern n < onesBefore t._UpdatePattern 9 :=
        onesBefore_lt t._UpdatePattern ⟨n, h⟩ h hU
      have hgt : t._UpdateDimension > ((onesBefore t._UpdatePattern n : Nat) : Int) := by
        rw [hdim]
        exact_mod_cast hlt
      refine ⟨fun r k => if k.val = onesBefore t._UpdatePattern n then CR r ⟨n, h⟩ else J r k,
        ?_, ?_, ?_⟩
      · rw [hs]
        simp [MatrixTransformation.jacobianStep, hU, SM_ASSERT_GT_DBG, hgt, bind, Except.bind,
          pure, Except.pure]
      · intro i hi hiU r k hk
        by_cases hin : i.val = n
        · have hi2 : i = ⟨n, h⟩ := Fin.ext hin
          subst hi2
          simp [hk]
        · have hi3 : i.val < n := by omega
          have := onesBefore_lt t._UpdatePattern i hi3 hiU
          have hne : ¬ k.val = onesBefore t._UpdatePattern n := by omega
          simp only [hne, if_false]
          exact h1 i hi3 hiU r k hk
      · intro r k hk
        have hne : ¬ k.val = onesBefore t._UpdatePattern n := by omega
        simp only [hne, if_false]
        exact h2 r k (by omega)
    · simp only [hU, if_false, Nat.add_zero] at hs
      refine ⟨J, ?_, ?_, ?_⟩
      · rw [hs]
        simp [MatrixTransformation.jacobianStep, hU, bind, Except.bind, pure, Except.pure]
      · intro i hi hiU r k hk
        by_cases hin : i.val = n
        · have hi2 : i = ⟨n, h⟩ := Fin.ext hin
          subst hi2
          exact absurd hiU hU
        · exact h1 i (by omega) hiU r k hk
      · intro r k hk
        exact h2 r k (by omega)

/-! ## The claims on the pattern of a `MatrixTransformation` -/

/-- C26, as the code has it: for a `MatrixTransformation` built with a pattern, whatever its
matrices after the updates since, `minimalDimensions()` is the number of entries of the pattern
that are 1, which is 9 for the constructor with one argument; every `k` below that number
belongs to exactly one position `i` in column-major order (row `i mod 3`, column `i div 3`)
whose entry is 1 and which has `k` entries equal to 1 before it; and `update(dp)` adds `dp[k]` to
the entry of the matrix at the `k`-th entry 1, where `k` is inside the update vector. At an
entry `i` whose pattern value is 0 it adds 0 times the word read in the step `i`, at the number
of entries 1 before `i`: the entry is unchanged when that word is finite and is no longer
finite when that word is not. The word is inside the update vector, for every `i`, when the
last entry of the pattern is 1. With the pattern of the entries 1 at (0, 0) and (1, 1) only,
the update vector (10, 20) and a word behind it that is not finite, the entries (2, 1) and
(2, 2), whose pattern value is 0, are finite before the update and not finite after it. The
pattern and the dimension are not changed by the update. -/
theorem C26_pattern_update (A U : Matrix (Fin 3) (Fin 3) ℚ) (t : MatrixTransformation)
    (dp : Nat → Option ℚ)
    (hp : t._UpdatePattern = (MatrixTransformation.constructPattern A U)._UpdatePattern)
    (hdim : t._UpdateDimension = (MatrixTransformation.constructPattern A U)._UpdateDimension) :
    t.minimalDimensionsImplementation = (onesBefore U 9 : Nat) ∧
    (MatrixTransformation.construct A
        = MatrixTransformation.constructPattern A (fun _ _ => 1) ∧
      (MatrixTransformation.construct A).minimalDimensionsImplementation = 9) ∧
    (∀ k, k < onesBefore U 9 →
      ∃! i : Fin 9, U (patternRow i) (patternCol i) = 1 ∧ onesBefore U i.val = k) ∧
    (∃ t1, t.updateImplementation dp t.minimalDimensionsImplementation = Except.ok t1 ∧
      t1._UpdatePattern = t._UpdatePattern ∧ t1._UpdateDimension = t._UpdateDimension ∧
      (∀ i : Fin 9, U (patternRow i) (patternCol i) = 1 →
        onesBefore U i.val < onesBefore U 9 ∧
        t1.toFullMatrixImplementation (patternRow i) (patternCol i)
          = doubleAdd (t.toFullMatrixImplementation (patternRow i) (patternCol i))
              (dp (onesBefore U i.val))) ∧
      (∀ i : Fin 9, U (patternRow i) (patternCol i) = 0 →
        t1.toFullMatrixImplementation (patternRow i) (patternCol i)
          = doubleAdd (t.toFullMatrixImplementation (patternRow i) (patternCol i))
              (doubleMul (some 0) (dp (onesBefore U i.val))) ∧
        (∀ v, dp (onesBefore U i.val) = some v →
          t1.toFullMatrixImplementation (patternRow i) (patternCol i)
            = t.toFullMatrixImplementation (patternRow i) (patternCol i)) ∧
        (dp (onesBefore U i.val) = none →
          t1.toFullMatrixImplementation (patternRow i) (patternCol i) = none)) ∧
      (U 2 2 = 1 → ∀ i : Fin 9, onesBefore U i.val < onesBefore U 9) ∧
      (U 2 2 = 1 → (∀ k, k < onesBefore U 9 → ∃ v, dp k = some v) →
        ∀ i : Fin 9, U (patternRow i) (patternCol i) = 0 →
          t1.toFullMatrixImplementation (patternRow i) (patternCol i)
            = t.toFullMatrixImplementation (patternRow i) (patternCol i))) ∧
    ((MatrixTransformation.constructPattern !![1, 2, 3; 4, 5, 6; 7, 8, 9]
        !![1, 0, 0; 0, 1, 0; 0, 0, 0]).minimalDimensionsImplementation = 2 ∧
      ((MatrixTransformation.constructPattern !![1, 2, 3; 4, 5, 6; 7, 8, 9]
        !![1, 0, 0; 0, 1, 0; 0, 0, 0]).updateImplementation (memoryAt [10, 20] none)
          2).toOption.map (fun t1 => (t1.toFullMatrixImplementation 0 0,
            t1.toFullMatrixImplementation 1 0, t1.toFullMatrixImplementation 1 1,
            t1.toFullMatrixImplementation 2 1, t1.toFullMatrixImplementation 2 2))
        = some (some 11, some 4, some 25, none, none) ∧
      (MatrixTransformation.constructPattern !![1, 2, 3; 4, 5, 6; 7, 8, 9]
        !![1, 0, 0; 0, 1, 0; 0, 0, 0]).toFullMatrixImplementation 2 1 = some 8 ∧
      (MatrixTransformation.constructPattern !![1, 2, 3; 4, 5, 6; 7, 8, 9]
        !![1, 0, 0; 0, 1, 0; 0, 0, 0]).toFullMatrixImplementation 2 2 = some 9) := by
  have hU : t._UpdatePattern = U := hp
  have hentry : ∀ i : Fin 9,
      ((List.finRange 9).foldl (MatrixTransformation.updateStep U dp) (t._A, 0)).1
          (patternRow i) (patternCol i)
        = doubleAdd (t._A (patternRow i) (patternCol i))
            (doubleMul (some (U (patternRow i) (patternCol i))) (dp (onesBefore U i.val))) :=
    fun i => update_entry U dp t._A i
  have hzero : ∀ i : Fin 9, U (patternRow i) (patternCol i) = 0 →
      ((List.finRange 9).foldl (MatrixTransformation.updateStep t._UpdatePattern dp)
          (t._A, 0)).1 (patternRow i) (patternCol i)
        = doubleAdd (t._A (patternRow i) (patternCol i))
            (doubleMul (some 0) (dp (onesBefore U i.val))) := by
    intro i hi
    rw [hU, hentry i, hi]
  refine ⟨?_, ⟨?_, rfl⟩, fun k hk => exists_unique_kth_one U k hk, ?_, ?_⟩
  · show t._UpdateDimension = _
    rw [hdim, constructPattern_dimension]
  · have h : (MatrixTransformation.constructPattern A (fun _ _ => 1))._UpdateDimension = 9 := by
      rw [constructPattern_dimension, onesBefore_ones]
      rfl
    have e : MatrixTransformation.constructPattern A (fun _ _ => 1)
        = ⟨finiteMatrix A, finiteMatrix A, fun _ _ => 1,
            (MatrixTransformation.constructPattern A (fun _ _ => 1))._UpdateDimension⟩ := rfl
    rw [e, h]
    rfl
  · refine ⟨_, matrixTransformation_update_ok t dp, rfl, rfl, ?_, ?_,
      fun h i => onesBefore_lt_of_last U h i, ?_⟩
    · intro i hi
      refine ⟨onesBefore_lt U i i.isLt hi, ?_⟩
      show ((List.finRange 9).foldl (MatrixTransformation.updateStep t._UpdatePattern dp)
        (t._A, 0)).1 (patternRow i) (patternCol i) = _
      rw [hU, hentry i, hi, doubleMul_one]
      rfl
    · intro i hi
      refine ⟨hzero i hi, ?_, ?_⟩
      · intro v hv
        show ((List.finRange 9).foldl (MatrixTransformation.updateStep t._UpdatePattern dp)
          (t._A, 0)).1 (patternRow i) (patternCol i) = _
        rw [hzero i hi, hv, doubleAdd_zero_mul]
        rfl
      · intro hn
        show ((List.finRange 9).foldl (MatrixTransformation.updateStep t._UpdatePattern dp)
          (t._A, 0)).1 (patternRow i) (patternCol i) = _
        rw [hzero i hi, hn, doubleMul_none, doubleAdd_none]
    · intro h22 hfin i hi
      obtain ⟨v, hv⟩ := hfin _ (onesBefore_lt_of_last U h22 i)
      show ((List.finRange 9).foldl (MatrixTransformation.updateStep t._UpdatePattern dp)
        (t._A, 0)).1 (patternRow i) (patternCol i) = _
      rw [hzero i hi, hv, doubleAdd_zero_mul]
      rfl
  · refine ⟨by decide!, by decide!, by decide!, by decide!⟩

/-- Witness of C26: with the pattern of the diagonal, whose entries 1 are at the positions 0, 4
and 8, the update by (10, 20, 30) adds 20 to the entry (1, 1), the entry 1 with one entry 1
before it, and leaves the entry (0, 1) as it is, whatever lies behind the update vector. -/
theorem C26_pattern_update_witness :
    (MatrixTransformation.constructPattern !![1, 2, 3; 4, 5, 6; 7, 8, 9]
        !![1, 0, 0; 0, 1, 0; 0, 0, 1]).minimalDimensionsImplementation = 3 ∧
    onesBefore !![1, 0, 0; 0, 1, 0; 0, 0, 1] 4 = 1 ∧
    ∃ t1, (MatrixTransformation.constructPattern !![1, 2, 3; 4, 5, 6; 7, 8, 9]
        !![1, 0, 0; 0, 1, 0; 0, 0, 1]).updateImplementation (memoryAt [10, 20, 30] none) 3
          = Except.ok t1 ∧
      t1.toFullMatrixImplementation 1 1 = some 25 ∧
      t1.toFullMatrixImplementation 0 1 = some 2 := by
  obtain ⟨h1, _, _, ⟨t1, ht1, _, _, h2, h3, _, _⟩, _⟩ :=
    C26_pattern_update !![1, 2, 3; 4, 5, 6; 7, 8, 9] !![1, 0, 0; 0, 1, 0; 0, 0, 1]
      (MatrixTransformation.constructPattern !![1, 2, 3; 4, 5, 6; 7, 8, 9]
        !![1, 0, 0; 0, 1, 0; 0, 0, 1]) (memoryAt [10, 20, 30] none) rfl rfl
  have hm : (MatrixTransformation.constructPattern !![1, 2, 3; 4, 5, 6; 7, 8, 9]
      !![1, 0, 0; 0, 1, 0; 0, 0, 1]).minimalDimensionsImplementation = 3 := by decide!
  have ho : onesBefore !![1, 0, 0; 0, 1, 0; 0, 0, 1] 4 = 1 := by decide!
  rw [hm] at ht1
  refine ⟨hm, ho, t1, ht1, ?_, ?_⟩
  · have h := (h2 4 (by decide!)).2
    have e : onesBefore !![1, 0, 0; 0, 1, 0; 0, 0, 1] (4 : Fin 9).val = 1 := ho
    rw [e] at h
    have hr : patternRow 4 = 1 := by decide
    have hc : patternCol 4 = 1 := by decide
    rw [hr, hc] at h
    rw [h]
    decide!
  · have h := (h3 3 (by decide!)).2.1 20 (by decide!)
    have hr : patternRow 3 = 0 := by decide
    have hc : patternCol 3 = 1 := by decide
    rw [hr, hc] at h
    rw [h]
    decide!

/-- C27: for a `MatrixTransformation` built with a pattern that has `m` entries equal to 1 and a
chain-rule matrix `CR` of three rows and nine columns, `evaluateJacobians(container, CR)` ends
without a failure of the assertion `_UpdateDimension > j` and adds a block of three rows and `m`
columns to the container. The loop reaches every step `n` with `j` the number of entries 1
before `n`, so that the step of the `k`-th entry 1 writes column `k`; every `k` below `m`
belongs to exactly one such step `i`, and column `k` of the block is column `i` of `CR`. -/
theorem C27_pattern_jacobian {outRows : Nat} (A U : Matrix (Fin 3) (Fin 3) ℚ)
    (t : MatrixTransformation)
    (hp : t._UpdatePattern = (MatrixTransformation.constructPattern A U)._UpdatePattern)
    (hdim : t._UpdateDimension = (MatrixTransformation.constructPattern A U)._UpdateDimension)
    (finalJacobian : Matrix (Fin 3) (Fin t._UpdateDimension.toNat) ℚ)
    (outJacobians : JacobianContainer ℚ Unit (fun _ => t._UpdateDimension.toNat) outRows 3)
    (CR : Matrix (Fin 3) (Fin 9) ℚ) :
    t._UpdateDimension.toNat = onesBefore U 9 ∧
    (∀ n, n ≤ 9 → ∃ J, ((List.finRange 9).take n).foldlM (t.jacobianStep CR) (finalJacobian, 0)
      = Except.ok (J, onesBefore U n)) ∧
    ∃ J, t.evaluateJacobiansImplementationChainRule finalJacobian outJacobians CR
        = Except.ok (outJacobians.add () J) ∧
      (∀ i : Fin 9, U (patternRow i) (patternCol i) = 1 →
        ∀ r (k : Fin t._UpdateDimension.toNat), k.val = onesBefore U i.val → J r k = CR r i) ∧
      (∀ k : Fin t._UpdateDimension.toNat,
        ∃! i : Fin 9, U (patternRow i) (patternCol i) = 1 ∧ onesBefore U i.val = k.val) ∧
      (∀ k : Fin t._UpdateDimension.toNat, ∃ i : Fin 9, U (patternRow i) (patternCol i) = 1 ∧
        onesBefore U i.val = k.val ∧ ∀ r, J r k = CR r i) := by
  have hU : t._UpdatePattern = U := hp
  have hd : t._UpdateDimension = (onesBefore t._UpdatePattern 9 : Nat) := by
    rw [hdim, constructPattern_dimension, hU]
  have hm : t._UpdateDimension.toNat = onesBefore U 9 := by
    rw [hd, hU]
    rfl
  have h9 : (List.finRange 9).take 9 = List.finRange 9 := List.take_of_length_le (by simp)
  refine ⟨hm, ?_, ?_⟩
  · intro n hn
    obtain ⟨J, hJ, _, _⟩ := jacobian_fold t hd CR finalJacobian n hn
    rw [hU] at hJ
    exact ⟨J, hJ⟩
  · obtain ⟨J, hJ, h1, _⟩ := jacobian_fold t hd CR finalJacobian 9 (le_refl 9)
    rw [h9] at hJ
    rw [hU] at h1
    have hcol : ∀ i : Fin 9, U (patternRow i) (patternCol i) = 1 →
        ∀ r (k : Fin t._UpdateDimension.toNat), k.val = onesBefore U i.val → J r k = CR r i :=
      fun i hi r k hk => h1 i i.isLt hi r k hk
    have huniq : ∀ k : Fin t._UpdateDimension.toNat,
        ∃! i : Fin 9, U (patternRow i) (patternCol i) = 1 ∧ onesBefore U i.val = k.val :=
      fun k => exists_unique_kth_one U k.val (by rw [← hm]; exact k.isLt)
    refine ⟨J, ?_, hcol, huniq, ?_⟩
    · simp [MatrixTransformation.evaluateJacobiansImplementationChainRule, hJ, bind, Except.bind,
        pure, Except.pure]
    · intro k
      obtain ⟨i, ⟨hi1, hi2⟩, _⟩ := huniq k
      exact ⟨i, hi1, hi2, fun r => hcol i hi1 r k hi2.symm⟩

/-- Witness of C27: with the pattern of the diagonal, whose entries 1 are at the positions 0, 4
and 8, the block has three columns and its column 1 is column 4 of the chain-rule matrix. -/
theorem C27_pattern_jacobian_witness :
    (MatrixTransformation.constructPattern 0 !![1, 0, 0; 0, 1, 0; 0, 0, 1])._UpdateDimension.toNat
      = 3 ∧
    ∃ J, (MatrixTransformation.constructPattern 0
          !![1, 0, 0; 0, 1, 0; 0, 0, 1]).evaluateJacobiansImplementationChainRule 0
          (⟨1, fun _ => 0⟩ : JacobianContainer ℚ Unit _ 3 3)
          (fun r c => 10 * (r.val : ℚ) + (c.val : ℚ))
        = Except.ok ((⟨1, fun _ => 0⟩ : JacobianContainer ℚ Unit _ 3 3).add () J) ∧
      ∀ k : Fin (MatrixTransformation.constructPattern 0
          !![1, 0, 0; 0, 1, 0; 0, 0, 1])._UpdateDimension.toNat,
        k.val = 1 → J 2 k = 24 := by
  obtain ⟨_, _, J, hJ, hcol, _, _⟩ :=
    C27_pattern_jacobian (0 : Matrix (Fin 3) (Fin 3) ℚ) !![1, 0, 0; 0, 1, 0; 0, 0, 1]
      (MatrixTransformation.constructPattern 0 !![1, 0, 0; 0, 1, 0; 0, 0, 1]) rfl rfl 0
      (⟨1, fun _ => 0⟩ : JacobianContainer ℚ Unit _ 3 3)
      (fun r c => 10 * (r.val : ℚ) + (c.val : ℚ))
  refine ⟨by decide!, J, hJ, ?_⟩
  intro k hk
  have ho : onesBefore !![1, 0, 0; 0, 1, 0; 0, 0, 1] (4 : Fin 9).val = 1 := by decide!
  rw [hcol 4 (by decide!) 2 k (by rw [ho]; exact hk)]
  have h4 : ((4 : Fin 9) : Nat) = 4 := rfl
  have h2 : ((2 : Fin 3) : Nat) = 2 := rfl
  rw [h4, h2]
  norm_num

/-- C28, as the code has it: `MappedEuclideanPoint::evaluateJacobiansImplementation(outJacobians)`
adds the 3 x 3 identity, which has `minimalDimensions() = 3` columns and is the derivative of the
value: the update by `dp` adds the identity times `dp` to it. For a `MatrixTransformation` built
by the constructor with one argument the update by `dp` adds `dp[i]` to the entry `i` of the
value in column-major order, for each of the nine entries, and `minimalDimensions()` is 9, but
`evaluateJacobiansImplementation(outJacobians)` adds a block of 3 columns, the 3 x 3 identity. -/
theorem C28_matrixTransformation_identity_block (p : MappedEuclideanPoint)
    (A : Matrix (Fin 3) (Fin 3) ℚ) (dp : Nat → ℚ) (dq : Nat → Option ℚ) :
    (p.evaluateJacobiansImplementation = ⟨3, 1⟩ ∧
      (p.evaluateJacobiansImplementation.1 : Int) = p.minimalDimensionsImplementation ∧
      ∃ p1, p.updateImplementation dp p.minimalDimensionsImplementation = Except.ok p1 ∧
        p1.toEuclideanImplementation
          = p.toEuclideanImplementation
            + (p.evaluateJacobiansImplementation.2).mulVec (fun i => dp i.val)) ∧
    ((MatrixTransformation.construct A).evaluateJacobiansImplementation = ⟨3, 1⟩ ∧
      (MatrixTransformation.construct A).minimalDimensionsImplementation = 9 ∧
      ((MatrixTransformation.construct A).evaluateJacobiansImplementation.1 : Int)
        ≠ (MatrixTransformation.construct A).minimalDimensionsImplementation ∧
      ∃ t1, (MatrixTransformation.construct A).updateImplementation dq
          (MatrixTransformation.construct A).minimalDimensionsImplementation = Except.ok t1 ∧
        (∀ i : Fin 9, t1.vectorized i
          = doubleAdd ((MatrixTransformation.construct A).vectorized i) (dq i.val)) ∧
        (∀ (i : Fin 9) (v : ℚ), dq i.val = some v →
          t1.vectorized i = some (A (patternRow i) (patternCol i) + v))) := by
  have hne : ((3 : Nat) : Int) ≠ 9 := by decide
  have hvec : ∀ i : Fin 9,
      ((List.finRange 9).foldl (MatrixTransformation.updateStep (fun _ _ => 1) dq)
          (finiteMatrix A, 0)).1 (patternRow i) (patternCol i)
        = doubleAdd (finiteMatrix A (patternRow i) (patternCol i)) (dq i.val) := by
    intro i
    have ho : ∀ j : Fin 9, onesBefore (fun _ _ => 1) j.val = j.val := by decide
    rw [update_entry (fun _ _ => 1) dq (finiteMatrix A) i, ho i, doubleMul_one]
  refine ⟨⟨rfl, rfl, _, mappedEuclideanPoint_update_ok p dp, ?_⟩, rfl, rfl, hne,
    _, matrixTransformation_update_ok (MatrixTransformation.construct A) dq, hvec, ?_⟩
  · funext a
    simp [MappedEuclideanPoint.toEuclideanImplementation,
      MappedEuclideanPoint.evaluateJacobiansImplementation, Matrix.one_mulVec]
  · intro i v hv
    show ((List.finRange 9).foldl (MatrixTransformation.updateStep (fun _ _ => 1) dq)
      (finiteMatrix A, 0)).1 (patternRow i) (patternCol i) = _
    rw [hvec i, hv]
    rfl

/-! ## The claims on the quaternions -/

theorem conjugate_coeff {K : Type} [Field K] (mode : QuaternionMode) (v : Fin 4 → K) :
    conjugate mode v (getIIndex mode) = -v (getIIndex mode) ∧
    conjugate mode v (getJIndex mode) = -v (getJIndex mode) ∧
    conjugate mode v (getKIndex mode) = -v (getKIndex mode) ∧
    conjugate mode v (getRealIndex mode) = v (getRealIndex mode) := by
  have h1 : ((1 : Fin 4) : Nat) = 1 := rfl
  have h2 : ((2 : Fin 4) : Nat) = 2 := rfl
  have h3 : ((3 : Fin 4) : Nat) = 3 := rfl
  rcases mode with ⟨_ | _, o⟩ <;>
    simp [conjugate, getRealIndex, getIIndex, getJIndex, getKIndex, h1, h2, h3]

theorem dot_eq {K : Type} [Field K] (mode : QuaternionMode) (a b : Fin 4 → K) :
    dot a b = a (getRealIndex mode) * b (getRealIndex mode)
      + a (getIIndex mode) * b (getIIndex mode) + a (getJIndex mode) * b (getJIndex mode)
      + a (getKIndex mode) * b (getKIndex mode) := by
  rcases mode with ⟨_ | _, o⟩
  · simp only [dot, getRealIndex, getIIndex, getJIndex, getKIndex, if_false,
      Bool.false_eq_true]
    ring
  · simp only [dot, getRealIndex, getIIndex, getJIndex, getKIndex, if_true]

theorem dot_conjugate {K : Type} [Field K] (mode : QuaternionMode) (q : Fin 4 → K) :
    dot (conjugate mode q) (conjugate mode q) = dot q q := by
  obtain ⟨hI, hJ, hK, hR⟩ := conjugate_coeff mode q
  rw [dot_eq mode (conjugate mode q), dot_eq mode q, hI, hJ, hK, hR]
  ring

theorem quatMultTraditional_coeff {K : Type} [Field K] (mode : QuaternionMode)
    (a b : Fin 4 → K) :
    quatMultTraditional mode a b (getIIndex mode)
      = a (getIIndex mode) * b (getRealIndex mode) + a (getJIndex mode) * b (getKIndex mode)
        - a (getKIndex mode) * b (getJIndex mode) + a (getRealIndex mode) * b (getIIndex mode) ∧
    quatMultTraditional mode a b (getJIndex mode)
      = a (getKIndex mode) * b (getIIndex mode) - a (getIIndex mode) * b (getKIndex mode)
        + a (getJIndex mode) * b (getRealIndex mode) + a (getRealIndex mode) * b (getJIndex mode) ∧
    quatMultTraditional mode a b (getKIndex mode)
      = a (getIIndex mode) * b (getJIndex mode) - a (getJIndex mode) * b (getIIndex mode)
        + a (getKIndex mode) * b (getRealIndex mode) + a (getRealIndex mode) * b (getKIndex mode) ∧
    quatMultTraditional mode a b (getRealIndex mode)
      = a (getRealIndex mode) * b (getRealIndex mode) - a (getJIndex mode) * b (getJIndex mode)
        - a (getKIndex mode) * b (getKIndex mode) - a (getIIndex mode) * b (getIIndex mode) := by
  rcases mode with ⟨_ | _, o⟩ <;>
    simp [quatMultTraditional, getRealIndex, getIIndex, getJIndex, getKIndex, Function.update]

theorem quaternion_ext {K : Type} (mode : QuaternionMode) (a b : Fin 4 → K)
    (hI : a (getIIndex mode) = b (getIIndex mode)) (hJ : a (getJIndex mode) = b (getJIndex mode))
    (hK : a (getKIndex mode) = b (getKIndex mode))
    (hR : a (getRealIndex mode) = b (getRealIndex mode)) : a = b := by
  funext n
  rcases mode with ⟨_ | _, o⟩ <;>
    simp only [getRealIndex, getIIndex, getJIndex, getKIndex, if_true, if_false,
      Bool.false_eq_true] at hI hJ hK hR <;>
    fin_cases n <;> assumption

theorem invert_coeff {K : Type} [Field K] (mode : QuaternionMode) (q : Fin 4 → K) :
    invert mode q (getIIndex mode) = -q (getIIndex mode) / dot q q ∧
    invert mode q (getJIndex mode) = -q (getJIndex mode) / dot q q ∧
    invert mode q (getKIndex mode) = -q (getKIndex mode) / dot q q ∧
    invert mode q (getRealIndex mode) = q (getRealIndex mode) / dot q q := by
  obtain ⟨hI, hJ, hK, hR⟩ := conjugate_coeff mode q
  simp only [invert, dot_conjugate, hI, hJ, hK, hR, and_self]

theorem quatMultTraditional_invert {K : Type} [Field K] (mode : QuaternionMode)
    (q : Fin 4 → K) (h : dot q q ≠ 0) :
    quatMultTraditional mode q (invert mode q) (getRealIndex mode) = 1 ∧
    quatMultTraditional mode q (invert mode q) (getIIndex mode) = 0 ∧
    quatMultTraditional mode q (invert mode q) (getJIndex mode) = 0 ∧
    quatMultTraditional mode q (invert mode q) (getKIndex mode) = 0 := by
  obtain ⟨iI, iJ, iK, iR⟩ := invert_coeff mode q
  obtain ⟨aI, aJ, aK, aR⟩ := quatMultTraditional_coeff mode q (invert mode q)
  have hd := dot_eq mode q q
  have hd2 : q (getRealIndex mode) * q (getRealIndex mode)
      + q (getIIndex mode) * q (getIIndex mode) + q (getJIndex mode) * q (getJIndex mode)
      + q (getKIndex mode) * q (getKIndex mode) ≠ 0 := by
    rw [← hd]
    exact h
  refine ⟨?_, ?_, ?_, ?_⟩
  · rw [aR, iI, iJ, iK, iR, hd]
    field_simp
    ring
  · rw [aI, iI, iJ, iK, iR, hd]
    field_simp
    ring
  · rw [aJ, iI, iJ, iK, iR, hd]
    field_simp
    ring
  · rw [aK, iI, iJ, iK, iR, hd]
    field_simp
    ring

theorem quatMultTraditional_invert_comm {K : Type} [Field K] (mode : QuaternionMode)
    (q : Fin 4 → K) :
    quatMultTraditional mode (invert mode q) q = quatMultTraditional mode q (invert mode q) := by
  obtain ⟨iI, iJ, iK, iR⟩ := invert_coeff mode q
  obtain ⟨aI, aJ, aK, aR⟩ := quatMultTraditional_coeff mode q (invert mode q)
  obtain ⟨bI, bJ, bK, bR⟩ := quatMultTraditional_coeff mode (invert mode q) q
  apply quaternion_ext mode
  · rw [aI, bI, iI, iJ, iK, iR]
    ring
  · rw [aJ, bJ, iI, iJ, iK, iR]
    ring
  · rw [aK, bK, iI, iJ, iK, iR]
    ring
  · rw [aR, bR]
    ring

theorem quatMult_invert_comm {K : Type} [Field K] (mode : QuaternionMode) (q : Fin 4 → K) :
    quatMult mode (invert mode q) q = quatMult mode q (invert mode q) := by
  unfold quatMult
  by_cases ho : mode.isTraditionalMultOrder
  · simp only [ho, if_true]
    exact quatMultTraditional_invert_comm mode q
  · simp only [ho, if_false, Bool.false_eq_true]
    exact (quatMultTraditional_invert_comm mode q).symm

theorem quatMult_invert {K : Type} [Field K] (mode : QuaternionMode)
    (q : Fin 4 → K) (h : dot q q ≠ 0) :
    quatMult mode q (invert mode q) (getRealIndex mode) = 1 ∧
    quatMult mode q (invert mode q) (getIIndex mode) = 0 ∧
    quatMult mode q (invert mode q) (getJIndex mode) = 0 ∧
    quatMult mode q (invert mode q) (getKIndex mode) = 0 := by
  unfold quatMult
  by_cases ho : mode.isTraditionalMultOrder
  · simp only [ho, if_true]
    exact quatMultTraditional_invert mode q h
  · simp only [ho, if_false, Bool.false_eq_true, quatMultTraditional_invert_comm]
    exact quatMultTraditional_invert mode q h

theorem conjugate_conjugate {K : Type} [Field K] (mode : QuaternionMode) (q : Fin 4 → K) :
    conjugate mode (conjugate mode q) = q := by
  obtain ⟨cI, cJ, cK, cR⟩ := conjugate_coeff mode q
  obtain ⟨dI, dJ, dK, dR⟩ := conjugate_coeff mode (conjugate mode q)
  apply quaternion_ext mode
  · rw [dI, cI, neg_neg]
  · rw [dJ, cJ, neg_neg]
  · rw [dK, cK, neg_neg]
  · rw [dR, cR]

/-- C29: for every quaternion `q` with `q . q` different from 0, in each of the four quaternion
modes, `invert(q)` is a two-sided inverse for `quatMult`: both products with `q` have the real
coefficient 1 and the three imaginary coefficients 0; and `conjugate` is an involution that
negates the three imaginary coefficients and keeps the real one. -/
theorem C29_quaternion_inverse {K : Type} [Field K] (mode : QuaternionMode) (q : Fin 4 → K)
    (h : dot q q ≠ 0) :
    (quatMult mode q (invert mode q) (getRealIndex mode) = 1 ∧
      quatMult mode q (invert mode q) (getIIndex mode) = 0 ∧
      quatMult mode q (invert mode q) (getJIndex mode) = 0 ∧
      quatMult mode q (invert mode q) (getKIndex mode) = 0) ∧
    (quatMult mode (invert mode q) q (getRealIndex mode) = 1 ∧
      quatMult mode (invert mode q) q (getIIndex mode) = 0 ∧
      quatMult mode (invert mode q) q (getJIndex mode) = 0 ∧
      quatMult mode (invert mode q) q (getKIndex mode) = 0) ∧
    conjugate mode (conjugate mode q) = q ∧
    (conjugate mode q (getRealIndex mode) = q (getRealIndex mode) ∧
      conjugate mode q (getIIndex mode) = -q (getIIndex mode) ∧
      conjugate mode q (getJIndex mode) = -q (getJIndex mode) ∧
      conjugate mode q (getKIndex mode) = -q (getKIndex mode)) := by
  obtain ⟨cI, cJ, cK, cR⟩ := conjugate_coeff mode q
  refine ⟨quatMult_invert mode q h, ?_, conjugate_conjugate mode q, cR, cI, cJ, cK⟩
  rw [quatMult_invert_comm]
  exact quatMult_invert mode q h

/-- Witness of C29 over the rationals, in the mode with the real coefficient last and the
reversed order of multiplication: the quaternion (1, 2, 3, 4) has `q . q = 30`, its inverse is
(-1/30, -2/30, -3/30, 4/30), and its product with the inverse has the real coefficient 1. -/
theorem C29_quaternion_inverse_witness :
    dot (![1, 2, 3, 4] : Fin 4 → ℚ) ![1, 2, 3, 4] ≠ 0 ∧
    invert ⟨false, false⟩ (![1, 2, 3, 4] : Fin 4 → ℚ) 0 = -1 / 30 ∧
    quatMult ⟨false, false⟩ (![1, 2, 3, 4] : Fin 4 → ℚ)
      (invert ⟨false, false⟩ ![1, 2, 3, 4]) 3 = 1 :=
  ⟨by decide!, by decide!,
    (C29_quaternion_inverse ⟨false, false⟩ (![1, 2, 3, 4] : Fin 4 → ℚ) (by decide!)).1.1⟩

theorem quatMultTraditional_assoc {K : Type} [Field K] (mode : QuaternionMode)
    (a b c : Fin 4 → K) :
    quatMultTraditional mode (quatMultTraditional mode a b) c
      = quatMultTraditional mode a (quatMultTraditional mode b c) := by
  obtain ⟨xI, xJ, xK, xR⟩ := quatMultTraditional_coeff mode a b
  obtain ⟨yI, yJ, yK, yR⟩ := quatMultTraditional_coeff mode b c
  obtain ⟨lI, lJ, lK, lR⟩ := quatMultTraditional_coeff mode (quatMultTraditional mode a b) c
  obtain ⟨rI, rJ, rK, rR⟩ := quatMultTraditional_coeff mode a (quatMultTraditional mode b c)
  apply quaternion_ext mode
  · rw [lI, rI, xI, xJ, xK, xR, yI, yJ, yK, yR]
    ring
  · rw [lJ, rJ, xI, xJ, xK, xR, yI, yJ, yK, yR]
    ring
  · rw [lK, rK, xI, xJ, xK, xR, yI, yJ, yK, yR]
    ring
  · rw [lR, rR, xI, xJ, xK, xR, yI, yJ, yK, yR]
    ring

theorem quatMult_assoc {K : Type} [Field K] (mode : QuaternionMode) (a b c : Fin 4 → K) :
    quatMult mode (quatMult mode a b) c = quatMult mode a (quatMult mode b c) := by
  unfold quatMult
  by_cases ho : mode.isTraditionalMultOrder
  · simp only [ho, if_true]
    exact quatMultTraditional_assoc mode a b c
  · simp only [ho, if_false, Bool.false_eq_true]
    exact (quatMultTraditional_assoc mode c b a).symm

theorem quatMultTraditional_smul {K : Type} [Field K] (mode : QuaternionMode)
    (a b : Fin 4 → K) (s u : K) :
    quatMultTraditional mode (fun n => a n * s) (fun n => b n * u)
      = fun n => quatMultTraditional mode a b n * (s * u) := by
  obtain ⟨xI, xJ, xK, xR⟩ := quatMultTraditional_coeff mode a b
  obtain ⟨lI, lJ, lK, lR⟩ :=
    quatMultTraditional_coeff mode (fun n => a n * s) (fun n => b n * u)
  apply quaternion_ext mode
  · rw [lI, xI]
    ring
  · rw [lJ, xJ]
    ring
  · rw [lK, xK]
    ring
  · rw [lR, xR]
    ring

theorem quatMult_smul {K : Type} [Field K] (mode : QuaternionMode) (a b : Fin 4 → K)
    (s u : K) :
    quatMult mode (fun n => a n * s) (fun n => b n * u)
      = fun n => quatMult mode a b n * (s * u) := by
  unfold quatMult
  by_cases ho : mode.isTraditionalMultOrder
  · simp only [ho, if_true]
    exact quatMultTraditional_smul mode a b s u
  · simp only [ho, if_false, Bool.false_eq_true]
    rw [quatMultTraditional_smul mode b a u s, mul_comm u s]

theorem invert_eq_smul {K : Type} [Field K] (mode : QuaternionMode) (q : Fin 4 → K) :
    invert mode q = fun n => conjugate mode q n * (dot q q)⁻¹ := by
  funext n
  simp only [invert, dot_conjugate, div_eq_mul_inv]

theorem inverseApplyDiff_eq {K : Type} [Field K] (mode : QuaternionMode) (q v : Fin 4 → K) :
    inverseApplyDiff mode q v = fun n =>
      -(quatMult mode (invert mode q) (quatMult mode v (invert mode q)) n) := by
  funext n
  have h1 : quatMult mode v (invert mode q)
      = fun n => quatMult mode v (conjugate mode q) n * (1 * (dot q q)⁻¹) := by
    rw [invert_eq_smul, ← quatMult_smul mode v (conjugate mode q) 1 (dot q q)⁻¹]
    simp only [mul_one]
  have h2 : quatMult mode (invert mode q) (quatMult mode v (invert mode q))
      = fun n => quatMult mode (conjugate mode q) (quatMult mode v (conjugate mode q)) n
          * ((dot q q)⁻¹ * (1 * (dot q q)⁻¹)) := by
    rw [h1, invert_eq_smul, quatMult_smul]
  rw [h2]
  simp only [inverseApplyDiff, dot_conjugate, div_eq_mul_inv, mul_inv, one_mul, neg_mul]

theorem toQuaternion_injective {K : Type} [Field K] (mode : QuaternionMode) (a b : Fin 4 → K)
    (h : toQuaternion mode a = toQuaternion mode b) : a = b := by
  have h1 := congrArg (fun x : Quaternion K => x.re) h
  have h2 := congrArg (fun x : Quaternion K => x.imI) h
  have h3 := congrArg (fun x : Quaternion K => x.imJ) h
  have h4 := congrArg (fun x : Quaternion K => x.imK) h
  exact quaternion_ext mode a b h2 h3 h4 h1

theorem toQuaternion_quatMultTraditional {K : Type} [Field K] (mode : QuaternionMode)
    (a b : Fin 4 → K) :
    toQuaternion mode (quatMultTraditional mode a b) = toQuaternion mode a * toQuaternion mode b := by
  obtain ⟨xI, xJ, xK, xR⟩ := quatMultTraditional_coeff mode a b
  apply Quaternion.ext
  · simp only [toQuaternion, Quaternion.mul_re, xR]
    ring
  · simp only [toQuaternion, Quaternion.mul_imI, xI]
    ring
  · simp only [toQuaternion, Quaternion.mul_imJ, xJ]
    ring
  · simp only [toQuaternion, Quaternion.mul_imK, xK]
    ring

theorem toQuaternion_quatMult {K : Type} [Field K] (mode : QuaternionMode) (a b : Fin 4 → K) :
    toQuaternion mode (quatMult mode a b)
      = if mode.isTraditionalMultOrder then toQuaternion mode a * toQuaternion mode b
        else toQuaternion mode b * toQuaternion mode a := by
  unfold quatMult
  by_cases ho : mode.isTraditionalMultOrder
  · simp only [ho, if_true, toQuaternion_quatMultTraditional]
  · simp only [ho, if_false, Bool.false_eq_true, toQuaternion_quatMultTraditional]

theorem toQuaternion_add {K : Type} [Field K] (mode : QuaternionMode) (a b : Fin 4 → K) :
    toQuaternion mode (a + b) = toQuaternion mode a + toQuaternion mode b := by
  apply Quaternion.ext <;> simp [toQuaternion]

theorem toQuaternion_neg {K : Type} [Field K] (mode : QuaternionMode) (a : Fin 4 → K) :
    toQuaternion mode (fun n => -a n) = -toQuaternion mode a := by
  apply Quaternion.ext <;> simp [toQuaternion]

theorem toQuaternion_invert {K : Type} [Field K] (mode : QuaternionMode) (q : Fin 4 → K)
    (h : dot q q ≠ 0) :
    toQuaternion mode q * toQuaternion mode (invert mode q) = 1 ∧
    toQuaternion mode (invert mode q) * toQuaternion mode q = 1 := by
  obtain ⟨hR, hI, hJ, hK⟩ := quatMultTraditional_invert mode q h
  have h1 : toQuaternion mode q * toQuaternion mode (invert mode q) = 1 := by
    rw [← toQuaternion_quatMultTraditional]
    apply Quaternion.ext <;> simp [toQuaternion, hR, hI, hJ, hK]
  refine ⟨h1, ?_⟩
  rw [← toQuaternion_quatMultTraditional, quatMultTraditional_invert_comm,
    toQuaternion_quatMultTraditional]
  exact h1

theorem inverse_expansion {R : Type} [Ring R] (P Q V S : R) (h1 : P * (Q + V) = 1)
    (h2 : Q * S = 1) : P = S + -(S * (V * S)) + P * ((V * S) * (V * S)) := by
  have e1 : P * Q = 1 - P * V := by
    rw [mul_add] at h1
    rw [← h1]
    abel
  have e2 : P = S - P * V * S := by
    calc P = P * (Q * S) := by rw [h2, mul_one]
      _ = (P * Q) * S := by rw [mul_assoc]
      _ = (1 - P * V) * S := by rw [e1]
      _ = S - P * V * S := by rw [sub_mul, one_mul]
  have e3 : P * ((V * S) * (V * S)) = (P * V * S) * (V * S) := by
    simp only [mul_assoc]
  have e4 : P * V * S = S - P := by
    rw [eq_sub_iff_add_eq, add_comm]
    exact (sub_eq_iff_eq_add.mp e2.symm).symm
  rw [e3, e4, sub_mul, ← mul_assoc P V S, e4]
  abel

theorem inverse_expansion_reversed {R : Type} [Ring R] (P Q V S : R) (h1 : (Q + V) * P = 1)
    (h2 : S * Q = 1) : P = S + -((S * V) * S) + ((S * V) * (S * V)) * P := by
  have e1 : Q * P = 1 - V * P := by
    rw [add_mul] at h1
    rw [← h1]
    abel
  have e2 : P = S - S * (V * P) := by
    calc P = (S * Q) * P := by rw [h2, one_mul]
      _ = S * (Q * P) := by rw [mul_assoc]
      _ = S * (1 - V * P) := by rw [e1]
      _ = S - S * (V * P) := by rw [mul_sub, mul_one]
  have e3 : ((S * V) * (S * V)) * P = (S * V) * (S * (V * P)) := by
    simp only [mul_assoc]
  have e4 : S * (V * P) = S - P := by
    rw [eq_sub_iff_add_eq, add_comm]
    exact (sub_eq_iff_eq_add.mp e2.symm).symm
  rw [e3, e4, mul_sub, mul_assoc S V P, e4]
  abel

theorem invert_expansion {K : Type} [Field K] (mode : QuaternionMode) (q v : Fin 4 → K)
    (hq : dot q q ≠ 0) (hqv : dot (q + v) (q + v) ≠ 0) :
    invert mode (q + v)
      = invert mode q + inverseApplyDiff mode q v
        + quatMult mode (invert mode (q + v))
            (quatMult mode (quatMult mode v (invert mode q))
              (quatMult mode v (invert mode q))) := by
  obtain ⟨a1, a2⟩ := toQuaternion_invert mode q hq
  obtain ⟨b1, b2⟩ := toQuaternion_invert mode (q + v) hqv
  rw [toQuaternion_add] at b1 b2
  apply toQuaternion_injective mode
  rw [toQuaternion_add, toQuaternion_add, inverseApplyDiff_eq, toQuaternion_neg]
  simp only [toQuaternion_quatMult]
  by_cases ho : mode.isTraditionalMultOrder
  · simp only [ho, if_true]
    exact inverse_expansion _ _ _ _ b2 a1
  · simp only [ho, if_false, Bool.false_eq_true]
    exact inverse_expansion_reversed _ _ _ _ b1 a2

theorem conjugate_mul_conjugate {K : Type} [Field K] (mode : QuaternionMode) (q v : Fin 4 → K) :
    quatMult mode (conjugate mode q) (quatMult mode v (conjugate mode q))
      = fun n => conjugate mode q n * (2 * dot q v) - conjugate mode v n * dot q q := by
  obtain ⟨cI, cJ, cK, cR⟩ := conjugate_coeff mode q
  obtain ⟨dI, dJ, dK, dR⟩ := conjugate_coeff mode v
  have h1 := dot_eq mode q v
  have h2 := dot_eq mode q q
  have key : quatMultTraditional mode (conjugate mode q)
      (quatMultTraditional mode v (conjugate mode q))
      = fun n => conjugate mode q n * (2 * dot q v) - conjugate mode v n * dot q q := by
    obtain ⟨xI, xJ, xK, xR⟩ := quatMultTraditional_coeff mode v (conjugate mode q)
    obtain ⟨yI, yJ, yK, yR⟩ := quatMultTraditional_coeff mode (conjugate mode q)
      (quatMultTraditional mode v (conjugate mode q))
    apply quaternion_ext mode
    · rw [yI, xI, xJ, xK, xR, cI, cJ, cK, cR]
      simp only [cI, dI, h1, h2]
      ring
    · rw [yJ, xI, xJ, xK, xR, cI, cJ, cK, cR]
      simp only [cJ, dJ, h1, h2]
      ring
    · rw [yK, xI, xJ, xK, xR, cI, cJ, cK, cR]
      simp only [cK, dK, h1, h2]
      ring
    · rw [yR, xI, xJ, xK, xR, cI, cJ, cK, cR]
      simp only [cR, dR, h1, h2]
      ring
  unfold quatMult
  by_cases ho : mode.isTraditionalMultOrder
  · simp only [ho, if_true]
    exact key
  · simp only [ho, if_false, Bool.false_eq_true]
    rw [quatMultTraditional_assoc]
    exact key

theorem conjugate_eq_mul {K : Type} [Field K] (mode : QuaternionMode) (w : Fin 4 → K)
    (n : Fin 4) : conjugate mode w n = conjugate mode (fun _ => 1) n * w n := by
  unfold conjugate
  split_ifs <;> ring

theorem invert_hasDerivAt (mode : QuaternionMode) (q v : Fin 4 → ℝ) (hq : dot q q ≠ 0)
    (n : Fin 4) :
    HasDerivAt (fun t : ℝ => invert mode (q + t • v) n) (inverseApplyDiff mode q v n) 0 := by
  have hN : HasDerivAt (fun t : ℝ => conjugate mode (fun _ => 1) n * (q n + t * v n))
      (conjugate mode (fun _ => 1) n * v n) 0 := by
    have h := (((hasDerivAt_id (0 : ℝ)).mul_const (v n)).const_add (q n)).const_mul
      (conjugate mode (fun _ => (1 : ℝ)) n)
    simpa using h
  have hterm : ∀ m : Fin 4,
      HasDerivAt (fun t : ℝ => (q m + t * v m) * (q m + t * v m)) (2 * (q m * v m)) 0 := by
    intro m
    have h0 := ((hasDerivAt_id (0 : ℝ)).mul_const (v m)).const_add (q m)
    have h := h0.mul h0
    have e : 1 * v m * (q m + id (0 : ℝ) * v m) + (q m + id (0 : ℝ) * v m) * (1 * v m)
        = 2 * (q m * v m) := by
      simp only [id]
      ring
    rw [e] at h
    exact h
  have hD : HasDerivAt (fun t : ℝ => dot (q + t • v) (q + t • v)) (2 * dot q v) 0 := by
    have h := (((hterm 0).add (hterm 1)).add (hterm 2)).add (hterm 3)
    have e : 2 * (q 0 * v 0) + 2 * (q 1 * v 1) + 2 * (q 2 * v 2) + 2 * (q 3 * v 3)
        = 2 * dot q v := by
      simp only [dot]
      ring
    rw [e] at h
    exact h
  have hD0 : dot (q + (0 : ℝ) • v) (q + (0 : ℝ) • v) ≠ 0 := by
    simpa using hq
  have h := hN.div hD hD0
  have hf : (fun t : ℝ => invert mode (q + t • v) n)
      = fun t : ℝ => conjugate mode (fun _ => 1) n * (q n + t * v n)
          / dot (q + t • v) (q + t • v) := by
    funext t
    simp only [invert, dot_conjugate]
    rw [conjugate_eq_mul mode (q + t • v) n]
    simp
  have hv : inverseApplyDiff mode q v n
      = (conjugate mode (fun _ => 1) n * v n * dot (q + (0 : ℝ) • v) (q + (0 : ℝ) • v)
          - conjugate mode (fun _ => 1) n * (q n + 0 * v n) * (2 * dot q v))
        / dot (q + (0 : ℝ) • v) (q + (0 : ℝ) • v) ^ 2 := by
    simp only [inverseApplyDiff, dot_conjugate, conjugate_mul_conjugate, zero_smul, add_zero,
      zero_mul]
    rw [conjugate_eq_mul mode q n, conjugate_eq_mul mode v n]
    ring
  rw [hf, hv]
  exact h

/-- C30: the differential of the quaternion inverse node is as its comment documents. For every
`q` with `q . q` different from 0 and every tangent `v`, in both multiplication orders and both
index layouts, `applyDiff(v) = -(conj(q) * v * conj(q)) / (q . q)^2`, where the grouping of the
two products does not matter, and this is `-invert(q) * v * invert(q)`. It is the derivative of
`invert` at `q` in the direction `v`: `invert(q + v)` is `invert(q) + applyDiff(v)` plus a term
with two factors `v`, whenever `q + v` has an inverse, and over the real numbers the function
`t -> invert(q + t v)` has the derivative `applyDiff(v)` at `t = 0`, coefficient by
coefficient. -/
theorem C30_inverse_differential {K : Type} [Field K] (mode : QuaternionMode)
    (q v : Fin 4 → K) (h : dot q q ≠ 0) :
    (∀ n, inverseApplyDiff mode q v n
      = -(quatMult mode (conjugate mode q) (quatMult mode v (conjugate mode q)) n)
        / (dot q q) ^ 2) ∧
    quatMult mode (quatMult mode (conjugate mode q) v) (conjugate mode q)
      = quatMult mode (conjugate mode q) (quatMult mode v (conjugate mode q)) ∧
    (∀ n, inverseApplyDiff mode q v n
      = -(quatMult mode (invert mode q) (quatMult mode v (invert mode q)) n)) ∧
    quatMult mode (quatMult mode (invert mode q) v) (invert mode q)
      = quatMult mode (invert mode q) (quatMult mode v (invert mode q)) ∧
    (dot (q + v) (q + v) ≠ 0 →
      invert mode (q + v)
        = invert mode q + inverseApplyDiff mode q v
          + quatMult mode (invert mode (q + v))
              (quatMult mode (quatMult mode v (invert mode q))
                (quatMult mode v (invert mode q)))) ∧
    (∀ q1 v1 : Fin 4 → ℝ, dot q1 q1 ≠ 0 → ∀ n,
      HasDerivAt (fun t : ℝ => invert mode (q1 + t • v1) n) (inverseApplyDiff mode q1 v1 n) 0) := by
  refine ⟨?_, quatMult_assoc mode _ _ _, ?_, quatMult_assoc mode _ _ _,
    fun hqv => invert_expansion mode q v h hqv,
    fun q1 v1 h1 n => invert_hasDerivAt mode q1 v1 h1 n⟩
  · intro n
    simp only [inverseApplyDiff, dot_conjugate, pow_two]
  · intro n
    rw [inverseApplyDiff_eq]

/-- Witness of C30 over the rationals, real coefficient first and traditional order: at
`q = 1 + 2i + 3j + 4k` and `v = 1` the real coefficient of `applyDiff(v)` and of
`-invert(q) * v * invert(q)` is 7/225. -/
theorem C30_inverse_differential_witness :
    dot (![1, 2, 3, 4] : Fin 4 → ℚ) ![1, 2, 3, 4] ≠ 0 ∧
    inverseApplyDiff ⟨true, true⟩ (![1, 2, 3, 4] : Fin 4 → ℚ) ![1, 0, 0, 0] 0 = 7 / 225 ∧
    -(quatMult ⟨true, true⟩ (invert ⟨true, true⟩ (![1, 2, 3, 4] : Fin 4 → ℚ))
      (quatMult ⟨true, true⟩ ![1, 0, 0, 0] (invert ⟨true, true⟩ ![1, 2, 3, 4])) 0) = 7 / 225 := by
  have e : inverseApplyDiff ⟨true, true⟩ (![1, 2, 3, 4] : Fin 4 → ℚ) ![1, 0, 0, 0] 0
      = 7 / 225 := by decide!
  have h := (C30_inverse_differential ⟨true, true⟩ (![1, 2, 3, 4] : Fin 4 → ℚ) ![1, 0, 0, 0]
    (by decide!)).2.2.1 0
  exact ⟨by decide!, e, h.symm.trans e⟩

/-! ## The residual problem, end to end -/

theorem optimizeLoop_fuel_succ {X : Type} (P : ProblemManager X) (fuel : Nat) :
    ∀ (cnt : Nat) (s t : OptimizerRprop X),
      OptimizerRprop.optimizeLoop P fuel cnt s = Except.ok t →
      OptimizerRprop.optimizeLoop P (fuel + 1) cnt s = Except.ok t := by
  induction fuel with
  | zero =>
    intro cnt s t h
    unfold OptimizerRprop.optimizeLoop at h ⊢
    by_cases hc : s.options.maxIterations = -1 ∨ cnt < static_cast_size_t s.options.maxIterations
    · simp [hc] at h
    · simpa [hc] using h
  | succ fuel ih =>
    intro cnt s t h
    unfold OptimizerRprop.optimizeLoop at h ⊢
    by_cases hc : s.options.maxIterations = -1 ∨ cnt < static_cast_size_t s.options.maxIterations
    · simp only [hc, if_true] at h ⊢
      cases hi : s.iteration P with
      | error e => simp [hi] at h
      | ok r =>
        cases r with
        | brk s1 => simpa [hi] using h
        | next s1 =>
          simp only [hi] at h ⊢
          exact ih _ _ _ h
    · simpa [hc] using h

theorem optimizeLoop_fuel_le {X : Type} (P : ProblemManager X) (fuel fuel1 cnt : Nat)
    (s t : OptimizerRprop X) (hle : fuel ≤ fuel1)
    (h : OptimizerRprop.optimizeLoop P fuel cnt s = Except.ok t) :
    OptimizerRprop.optimizeLoop P fuel1 cnt s = Except.ok t := by
  induction hle with
  | refl => exact h
  | step _ ih => exact optimizeLoop_fuel_succ P _ cnt s t ih

theorem embedImag_coeff {K : Type} [Field K] (mode : QuaternionMode) (a : Fin 3 → K) :
    embedImag mode a (getIIndex mode) = a 0 ∧ embedImag mode a (getJIndex mode) = a 1 ∧
    embedImag mode a (getKIndex mode) = a 2 ∧ embedImag mode a (getRealIndex mode) = 0 := by
  rcases mode with ⟨_ | _, o⟩ <;>
    simp [embedImag, getRealIndex, getIIndex, getJIndex, getKIndex, Function.update]

theorem identityQuaternion_coeff {K : Type} [Field K] (mode : QuaternionMode) :
    (identityQuaternion mode : Fin 4 → K) (getIIndex mode) = 0 ∧
    (identityQuaternion mode : Fin 4 → K) (getJIndex mode) = 0 ∧
    (identityQuaternion mode : Fin 4 → K) (getKIndex mode) = 0 ∧
    (identityQuaternion mode : Fin 4 → K) (getRealIndex mode) = 1 := by
  rcases mode with ⟨_ | _, o⟩ <;>
    simp [identityQuaternion, getRealIndex, getIIndex, getJIndex, getKIndex, Function.update]

theorem quatMultTraditionalImagLhs_coeff {K : Type} [Field K] (mode : QuaternionMode)
    (a : Fin 3 → K) (b : Fin 4 → K) :
    quatMultTraditionalImagLhs mode a b (getIIndex mode)
      = a 0 * b (getRealIndex mode) + a 1 * b (getKIndex mode) - a 2 * b (getJIndex mode) ∧
    quatMultTraditionalImagLhs mode a b (getJIndex mode)
      = a 2 * b (getIIndex mode) - a 0 * b (getKIndex mode) + a 1 * b (getRealIndex mode) ∧
    quatMultTraditionalImagLhs mode a b (getKIndex mode)
      = a 0 * b (getJIndex mode) - a 1 * b (getIIndex mode) + a 2 * b (getRealIndex mode) ∧
    quatMultTraditionalImagLhs mode a b (getRealIndex mode)
      = -a 1 * b (getJIndex mode) - a 2 * b (getKIndex mode) - a 0 * b (getIIndex mode) := by
  rcases mode with ⟨_ | _, o⟩ <;>
    simp [quatMultTraditionalImagLhs, getRealIndex, getIIndex, getJIndex, getKIndex,
      Function.update]

theorem quatMultTraditionalImagRhs_coeff {K : Type} [Field K] (mode : QuaternionMode)
    (a : Fin 4 → K) (b : Fin 3 → K) :
    quatMultTraditionalImagRhs mode a b (getIIndex mode)
      = a (getJIndex mode) * b 2 - a (getKIndex mode) * b 1 + a (getRealIndex mode) * b 0 ∧
    quatMultTraditionalImagRhs mode a b (getJIndex mode)
      = a (getKIndex mode) * b 0 - a (getIIndex mode) * b 2 + a (getRealIndex mode) * b 1 ∧
    quatMultTraditionalImagRhs mode a b (getKIndex mode)
      = a (getIIndex mode) * b 1 - a (getJIndex mode) * b 0 + a (getRealIndex mode) * b 2 ∧
    quatMultTraditionalImagRhs mode a b (getRealIndex mode)
      = -a (getJIndex mode) * b 1 - a (getKIndex mode) * b 2 - a (getIIndex mode) * b 0 := by
  rcases mode with ⟨_ | _, o⟩ <;>
    simp [quatMultTraditionalImagRhs, getRealIndex, getIIndex, getJIndex, getKIndex,
      Function.update]

theorem quatMultTraditionalImagLhs_eq {K : Type} [Field K] (mode : QuaternionMode)
    (a : Fin 3 → K) (b : Fin 4 → K) :
    quatMultTraditionalImagLhs mode a b = quatMultTraditional mode (embedImag mode a) b := by
  obtain ⟨eI, eJ, eK, eR⟩ := embedImag_coeff mode a
  obtain ⟨xI, xJ, xK, xR⟩ := quatMultTraditionalImagLhs_coeff mode a b
  obtain ⟨yI, yJ, yK, yR⟩ := quatMultTraditional_coeff mode (embedImag mode a) b
  apply quaternion_ext mode
  · rw [xI, yI, eI, eJ, eK, eR]
    ring
  · rw [xJ, yJ, eI, eJ, eK, eR]
    ring
  · rw [xK, yK, eI, eJ, eK, eR]
    ring
  · rw [xR, yR, eI, eJ, eK, eR]
    ring

theorem quatMultTraditionalImagRhs_eq {K : Type} [Field K] (mode : QuaternionMode)
    (a : Fin 4 → K) (b : Fin 3 → K) :
    quatMultTraditionalImagRhs mode a b = quatMultTraditional mode a (embedImag mode b) := by
  obtain ⟨eI, eJ, eK, eR⟩ := embedImag_coeff mode b
  obtain ⟨xI, xJ, xK, xR⟩ := quatMultTraditionalImagRhs_coeff mode a b
  obtain ⟨yI, yJ, yK, yR⟩ := quatMultTraditional_coeff mode a (embedImag mode b)
  apply quaternion_ext mode
  · rw [xI, yI, eI, eJ, eK, eR]
    ring
  · rw [xJ, yJ, eI, eJ, eK, eR]
    ring
  · rw [xK, yK, eI, eJ, eK, eR]
    ring
  · rw [xR, yR, eI, eJ, eK, eR]
    ring

theorem quatMultImagRhs_eq {K : Type} [Field K] (mode : QuaternionMode)
    (a : Fin 4 → K) (b : Fin 3 → K) :
    quatMultImagRhs mode a b = quatMult mode a (embedImag mode b) := by
  unfold quatMultImagRhs quatMult
  by_cases ho : mode.isTraditionalMultOrder
  · simp only [ho, if_true, quatMultTraditionalImagRhs_eq]
  · simp only [ho, if_false, Bool.false_eq_true, quatMultTraditionalImagLhs_eq]

theorem quatMultImagLhs_eq {K : Type} [Field K] (mode : QuaternionMode)
    (a : Fin 3 → K) (b : Fin 4 → K) :
    quatMultImagLhs mode a b = quatMult mode (embedImag mode a) b := by
  unfold quatMultImagLhs quatMult
  by_cases ho : mode.isTraditionalMultOrder
  · simp only [ho, if_true, quatMultTraditionalImagLhs_eq]
  · simp only [ho, if_false, Bool.false_eq_true, quatMultTraditionalImagRhs_eq]

/-- C39: the two overloads of `quatMultTraditional` on a pure imaginary vector equal the product
of full quaternions with the vector embedded as the quaternion of real coefficient 0, in both
index layouts; the embedding puts the three coefficients at `IIndex`, `JIndex`, `KIndex` and 0
at `RIndex`, and `quatMult` on a vector and a quaternion is `quatMult` on the embedded vector. -/
theorem C39_pure_imaginary_overloads {K : Type} [Field K] (mode : QuaternionMode)
    (v : Fin 3 → K) (q : Fin 4 → K) :
    quatMultTraditionalImagLhs mode v q = quatMultTraditional mode (embedImag mode v) q ∧
    quatMultTraditionalImagRhs mode q v = quatMultTraditional mode q (embedImag mode v) ∧
    (embedImag mode v (getIIndex mode) = v 0 ∧ embedImag mode v (getJIndex mode) = v 1 ∧
      embedImag mode v (getKIndex mode) = v 2 ∧ embedImag mode v (getRealIndex mode) = 0) ∧
    quatMultImagLhs mode v q = quatMult mode (embedImag mode v) q ∧
    quatMultImagRhs mode q v = quatMult mode q (embedImag mode v) :=
  ⟨quatMultTraditionalImagLhs_eq mode v q, quatMultTraditionalImagRhs_eq mode q v,
    embedImag_coeff mode v, quatMultImagLhs_eq mode v q, quatMultImagRhs_eq mode q v⟩

theorem toQuaternion_sub {K : Type} [Field K] (mode : QuaternionMode) (a b : Fin 4 → K) :
    toQuaternion mode (a - b) = toQuaternion mode a - toQuaternion mode b := by
  apply Quaternion.ext <;> simp [toQuaternion]

theorem toQuaternion_smul {K : Type} [Field K] (mode : QuaternionMode) (c : K)
    (a : Fin 4 → K) : toQuaternion mode (c • a) = c • toQuaternion mode a := by
  apply Quaternion.ext <;> simp [toQuaternion]

theorem toQuaternion_conjugate {K : Type} [Field K] (mode : QuaternionMode) (a : Fin 4 → K) :
    toQuaternion mode (conjugate mode a) = star (toQuaternion mode a) := by
  obtain ⟨cI, cJ, cK, cR⟩ := conjugate_coeff mode a
  apply Quaternion.ext <;> simp [toQuaternion, cI, cJ, cK, cR]

theorem toQuaternion_identity {K : Type} [Field K] (mode : QuaternionMode) :
    toQuaternion mode (identityQuaternion mode : Fin 4 → K) = 1 := by
  obtain ⟨cI, cJ, cK, cR⟩ := @identityQuaternion_coeff K _ mode
  apply Quaternion.ext <;> simp [toQuaternion, cI, cJ, cK, cR]

theorem toQuaternion_normSq {K : Type} [Field K] (mode : QuaternionMode) (a : Fin 4 → K) :
    Quaternion.normSq (toQuaternion mode a) = dot a a := by
  rw [Quaternion.normSq_def', dot_eq mode a a]
  simp only [toQuaternion]
  ring

theorem toQuaternion_surjective {K : Type} [Field K] (mode : QuaternionMode) (x : Quaternion K) :
    ∃ a : Fin 4 → K, toQuaternion mode a = x := by
  refine ⟨Function.update (embedImag mode ![x.imI, x.imJ, x.imK]) (getRealIndex mode) x.re, ?_⟩
  rcases mode with ⟨_ | _, o⟩ <;>
    apply Quaternion.ext <;>
    simp [toQuaternion, embedImag, getRealIndex, getIIndex, getJIndex, getKIndex,
      Function.update]

theorem quatMult_laws {K : Type} [Field K] (mode : QuaternionMode) (a b : Fin 4 → K) :
    quatMult mode (identityQuaternion mode) a = a ∧
    quatMult mode a (identityQuaternion mode) = a ∧
    conjugate mode (quatMult mode a b) = quatMult mode (conjugate mode b) (conjugate mode a) ∧
    dot (quatMult mode a b) (quatMult mode a b) = dot a a * dot b b := by
  refine ⟨?_, ?_, ?_, ?_⟩
  · apply toQuaternion_injective mode
    rw [toQuaternion_quatMult, toQuaternion_identity]
    simp
  · apply toQuaternion_injective mode
    rw [toQuaternion_quatMult, toQuaternion_identity]
    simp
  · apply toQuaternion_injective mode
    rw [toQuaternion_conjugate, toQuaternion_quatMult, toQuaternion_quatMult,
      toQuaternion_conjugate, toQuaternion_conjugate]
    by_cases ho : mode.isTraditionalMultOrder
    · simp only [ho, if_true, star_mul]
    · simp only [ho, if_false, Bool.false_eq_true, star_mul]
  · rw [← toQuaternion_normSq mode, ← toQuaternion_normSq mode a, ← toQuaternion_normSq mode b,
      toQuaternion_quatMult]
    by_cases ho : mode.isTraditionalMultOrder
    · simp only [ho, if_true, map_mul]
    · simp only [ho, if_false, Bool.false_eq_true, map_mul]
      ring

/-- C38: `quatMultTraditional` on two full quaternions is the Hamilton product under the index
layout of the mode: read through the layout, which is a bijection onto the quaternions over the
scalars, it is their product. It is associative, the quaternion with real coefficient 1 and
imaginary coefficients 0 is its two-sided identity, `conjugate(a * b) = conjugate(b) *
conjugate(a)` and `(a * b) . (a * b) = (a . a) * (b . b)`. With the reversed order
`quatMult(a, b) = quatMultTraditional(b, a)`, with the traditional one
`quatMult(a, b) = quatMultTraditional(a, b)`, and the same laws hold for `quatMult` in every
mode. -/
theorem C38_hamilton_product {K : Type} [Field K] (mode : QuaternionMode)
    (a b c : Fin 4 → K) :
    (toQuaternion mode (quatMultTraditional mode a b)
        = toQuaternion mode a * toQuaternion mode b ∧
      Function.Bijective (toQuaternion mode : (Fin 4 → K) → Quaternion K)) ∧
    (quatMultTraditional mode (quatMultTraditional mode a b) c
        = quatMultTraditional mode a (quatMultTraditional mode b c) ∧
      quatMultTraditional mode (identityQuaternion mode) a = a ∧
      quatMultTraditional mode a (identityQuaternion mode) = a ∧
      conjugate mode (quatMultTraditional mode a b)
        = quatMultTraditional mode (conjugate mode b) (conjugate mode a) ∧
      dot (quatMultTraditional mode a b) (quatMultTraditional mode a b) = dot a a * dot b b) ∧
    (quatMult mode a b
        = (if mode.isTraditionalMultOrder then quatMultTraditional mode a b
            else quatMultTraditional mode b a)) ∧
    (quatMult mode (quatMult mode a b) c = quatMult mode a (quatMult mode b c) ∧
      quatMult mode (identityQuaternion mode) a = a ∧
      quatMult mode a (identityQuaternion mode) = a ∧
      conjugate mode (quatMult mode a b) = quatMult mode (conjugate mode b) (conjugate mode a) ∧
      dot (quatMult mode a b) (quatMult mode a b) = dot a a * dot b b) := by
  obtain ⟨l1, l2, l3, l4⟩ := quatMult_laws ⟨mode.realIsFirst, true⟩ a b
  obtain ⟨m1, m2, m3, m4⟩ := quatMult_laws mode a b
  have hbij : Function.Bijective (toQuaternion mode : (Fin 4 → K) → Quaternion K) :=
    ⟨fun x y h => toQuaternion_injective mode x y h, toQuaternion_surjective mode⟩
  exact ⟨⟨toQuaternion_quatMultTraditional mode a b, hbij⟩,
    ⟨quatMultTraditional_assoc mode a b c, l1, l2, l3, l4⟩, rfl,
    ⟨quatMult_assoc mode a b c, m1, m2, m3, m4⟩⟩

theorem quatMult_add_left {K : Type} [Field K] (mode : QuaternionMode) (a s b : Fin 4 → K) :
    quatMult mode (a + s) b = quatMult mode a b + quatMult mode s b := by
  apply toQuaternion_injective mode
  rw [toQuaternion_add, toQuaternion_quatMult, toQuaternion_quatMult, toQuaternion_quatMult,
    toQuaternion_add]
  by_cases ho : mode.isTraditionalMultOrder
  · simp only [ho, if_true, add_mul]
  · simp only [ho, if_false, Bool.false_eq_true, mul_add]

theorem quatMult_add_right {K : Type} [Field K] (mode : QuaternionMode) (a b t : Fin 4 → K) :
    quatMult mode a (b + t) = quatMult mode a b + quatMult mode a t := by
  apply toQuaternion_injective mode
  rw [toQuaternion_add, toQuaternion_quatMult, toQuaternion_quatMult, toQuaternion_quatMult,
    toQuaternion_add]
  by_cases ho : mode.isTraditionalMultOrder
  · simp only [ho, if_true, mul_add]
  · simp only [ho, if_false, Bool.false_eq_true, add_mul]

theorem quatMult_smul_left {K : Type} [Field K] (mode : QuaternionMode) (c : K)
    (a b : Fin 4 → K) : quatMult mode (c • a) b = c • quatMult mode a b := by
  apply toQuaternion_injective mode
  rw [toQuaternion_smul, toQuaternion_quatMult, toQuaternion_quatMult, toQuaternion_smul]
  by_cases ho : mode.isTraditionalMultOrder
  · simp only [ho, if_true, smul_mul_assoc]
  · simp only [ho, if_false, Bool.false_eq_true, mul_smul_comm]

theorem quatMult_smul_right {K : Type} [Field K] (mode : QuaternionMode) (c : K)
    (a b : Fin 4 → K) : quatMult mode a (c • b) = c • quatMult mode a b := by
  apply toQuaternion_injective mode
  rw [toQuaternion_smul, toQuaternion_quatMult, toQuaternion_quatMult, toQuaternion_smul]
  by_cases ho : mode.isTraditionalMultOrder
  · simp only [ho, if_true, mul_smul_comm]
  · simp only [ho, if_false, Bool.false_eq_true, smul_mul_assoc]

theorem conjugate_add {K : Type} [Field K] (mode : QuaternionMode) (q v : Fin 4 → K) :
    conjugate mode (q + v) = conjugate mode q + conjugate mode v := by
  apply toQuaternion_injective mode
  rw [toQuaternion_add, toQuaternion_conjugate, toQuaternion_conjugate, toQuaternion_conjugate,
    toQuaternion_add, star_add]

theorem conjugate_smul {K : Type} [Field K] (mode : QuaternionMode) (c : K) (q : Fin 4 → K) :
    conjugate mode (c • q) = c • conjugate mode q := by
  apply toQuaternion_injective mode
  rw [toQuaternion_smul, toQuaternion_conjugate, toQuaternion_conjugate, toQuaternion_smul]
  apply Quaternion.ext <;> simp

/-- C31: the differentials of the quaternion product node are exact, `quatMult` being bilinear:
for all quaternions `a`, `b` and tangents `s`, `t`, in every mode, the value of the node at
`(a + s, b)` is its value at `(a, b)` plus `applyLhsDiff(s) = quatMult(s, b)`, its value at
`(a, b + t)` is its value at `(a, b)` plus `applyRhsDiff(t) = quatMult(a, t)`, and both
differentials are linear in the tangent; the differential `conjugate(v)` of the conjugate node
satisfies `conjugate(q + v) = conjugate(q) + conjugate(v)`. -/
theorem C31_product_differentials {K : Type} [Field K] (mode : QuaternionMode)
    (a b s t : Fin 4 → K) (c : K) :
    (QuaternionProductNode.evaluateImplementation mode (a + s) b
        = QuaternionProductNode.evaluateImplementation mode a b
          + QuaternionProductNode.applyLhsDiff mode b s ∧
      QuaternionProductNode.applyLhsDiff mode b s = quatMult mode s b) ∧
    (QuaternionProductNode.evaluateImplementation mode a (b + t)
        = QuaternionProductNode.evaluateImplementation mode a b
          + QuaternionProductNode.applyRhsDiff mode a t ∧
      QuaternionProductNode.applyRhsDiff mode a t = quatMult mode a t) ∧
    (QuaternionProductNode.applyLhsDiff mode b (s + t)
        = QuaternionProductNode.applyLhsDiff mode b s
          + QuaternionProductNode.applyLhsDiff mode b t ∧
      QuaternionProductNode.applyLhsDiff mode b (c • s)
        = c • QuaternionProductNode.applyLhsDiff mode b s ∧
      QuaternionProductNode.applyRhsDiff mode a (s + t)
        = QuaternionProductNode.applyRhsDiff mode a s
          + QuaternionProductNode.applyRhsDiff mode a t ∧
      QuaternionProductNode.applyRhsDiff mode a (c • t)
        = c • QuaternionProductNode.applyRhsDiff mode a t) ∧
    (QuaternionConjugateNode.evaluateImplementation mode (a + s)
        = QuaternionConjugateNode.evaluateImplementation mode a
          + QuaternionConjugateNode.applyDiff mode s ∧
      QuaternionConjugateNode.applyDiff mode s = conjugate mode s ∧
      QuaternionConjugateNode.applyDiff mode (c • s)
        = c • QuaternionConjugateNode.applyDiff mode s) :=
  ⟨⟨quatMult_add_left mode a s b, rfl⟩, ⟨quatMult_add_right mode a b t, rfl⟩,
    ⟨quatMult_add_left mode s t b, quatMult_smul_left mode c s b, quatMult_add_right mode a s t,
      quatMult_smul_right mode c a t⟩,
    ⟨conjugate_add mode a s, rfl, conjugate_smul mode c s⟩⟩

/-! ## The claim on the rotation of a vector -/

theorem getImagPart_coeff {K : Type} (mode : QuaternionMode) (x : Fin 4 → K) :
    getImagPart mode x 0 = x (getIIndex mode) ∧ getImagPart mode x 1 = x (getJIndex mode) ∧
    getImagPart mode x 2 = x (getKIndex mode) := by
  rcases mode with ⟨_ | _, o⟩ <;> exact ⟨rfl, rfl, rfl⟩

theorem getImagPart_add {K : Type} [Field K] (mode : QuaternionMode) (x y : Fin 4 → K) :
    getImagPart mode (x + y) = getImagPart mode x + getImagPart mode y := by
  funext k
  rfl

theorem getImagPart_smul {K : Type} [Field K] (mode : QuaternionMode) (c : K)
    (x : Fin 4 → K) : getImagPart mode (c • x) = c • getImagPart mode x := by
  funext k
  rfl

theorem embedImag_add {K : Type} [Field K] (mode : QuaternionMode) (v w : Fin 3 → K) :
    embedImag mode (v + w) = embedImag mode v + embedImag mode w := by
  obtain ⟨a1, a2, a3, a4⟩ := embedImag_coeff mode (v + w)
  obtain ⟨b1, b2, b3, b4⟩ := embedImag_coeff mode v
  obtain ⟨c1, c2, c3, c4⟩ := embedImag_coeff mode w
  apply quaternion_ext mode <;> simp [a1, a2, a3, a4, b1, b2, b3, b4, c1, c2, c3, c4]

theorem embedImag_smul {K : Type} [Field K] (mode : QuaternionMode) (c : K) (v : Fin 3 → K) :
    embedImag mode (c • v) = c • embedImag mode v := by
  obtain ⟨a1, a2, a3, a4⟩ := embedImag_coeff mode (c • v)
  obtain ⟨b1, b2, b3, b4⟩ := embedImag_coeff mode v
  apply quaternion_ext mode <;> simp [a1, a2, a3, a4, b1, b2, b3, b4]

theorem dot_embedImag {K : Type} [Field K] (mode : QuaternionMode) (v : Fin 3 → K) :
    dot (embedImag mode v) (embedImag mode v) = squaredNorm3 v := by
  obtain ⟨b1, b2, b3, b4⟩ := embedImag_coeff mode v
  rw [dot_eq mode, b1, b2, b3, b4]
  simp only [squaredNorm3]
  ring

theorem squaredNorm3_getImagPart {K : Type} [Field K] (mode : QuaternionMode)
    (x : Fin 4 → K) :
    squaredNorm3 (getImagPart mode x)
      = dot x x - x (getRealIndex mode) * x (getRealIndex mode) := by
  obtain ⟨g0, g1, g2⟩ := getImagPart_coeff mode x
  rw [dot_eq mode, squaredNorm3, g0, g1, g2]
  ring

theorem rotated_eq {K : Type} [Field K] (mode : QuaternionMode) (q : Fin 4 → K)
    (v : Fin 3 → K) :
    Rotate3VectorNode.rotated mode q v
      = quatMult mode (quatMult mode q (embedImag mode v)) (conjugate mode q) := by
  unfold Rotate3VectorNode.rotated
  rw [quatMultImagRhs_eq]

theorem sandwich_re {K : Type} [Field K] (Q V : Quaternion K) (hV : V.re = 0) :
    (Q * V * star Q).re = 0 ∧ (star Q * (V * Q)).re = 0 := by
  constructor
  · simp only [Quaternion.mul_re, Quaternion.mul_imI, Quaternion.mul_imJ, Quaternion.mul_imK,
      Quaternion.star_re, Quaternion.star_imI, Quaternion.star_imJ, Quaternion.star_imK, hV]
    ring
  · simp only [Quaternion.mul_re, Quaternion.mul_imI, Quaternion.mul_imJ, Quaternion.mul_imK,
      Quaternion.star_re, Quaternion.star_imI, Quaternion.star_imJ, Quaternion.star_imK, hV]
    ring

theorem rotated_real {K : Type} [Field K] (mode : QuaternionMode) (q : Fin 4 → K)
    (v : Fin 3 → K) : Rotate3VectorNode.rotated mode q v (getRealIndex mode) = 0 := by
  have hre : (toQuaternion mode (embedImag mode v)).re = 0 := (embedImag_coeff mode v).2.2.2
  obtain ⟨h1, h2⟩ := sandwich_re (toQuaternion mode q) (toQuaternion mode (embedImag mode v)) hre
  have hx : Rotate3VectorNode.rotated mode q v (getRealIndex mode)
      = (toQuaternion mode (Rotate3VectorNode.rotated mode q v)).re := rfl
  rw [hx, rotated_eq, toQuaternion_quatMult, toQuaternion_quatMult, toQuaternion_conjugate]
  by_cases ho : mode.isTraditionalMultOrder
  · simp only [ho, if_true]
    exact h1
  · simp only [ho, if_false, Bool.false_eq_true]
    exact h2

theorem rotated_dot {K : Type} [Field K] (mode : QuaternionMode) (q : Fin 4 → K)
    (v : Fin 3 → K) :
    dot (Rotate3VectorNode.rotated mode q v) (Rotate3VectorNode.rotated mode q v)
      = dot q q * squaredNorm3 v * dot q q := by
  rw [rotated_eq, (quatMult_laws mode _ _).2.2.2, (quatMult_laws mode _ _).2.2.2,
    dot_conjugate, dot_embedImag]

theorem rotate_add_right {K : Type} [Field K] (mode : QuaternionMode) (q : Fin 4 → K)
    (v w : Fin 3 → K) :
    Rotate3VectorNode.evaluateImplementation mode q (v + w)
      = Rotate3VectorNode.evaluateImplementation mode q v
        + Rotate3VectorNode.evaluateImplementation mode q w := by
  unfold Rotate3VectorNode.evaluateImplementation
  rw [rotated_eq, rotated_eq, rotated_eq, embedImag_add, quatMult_add_right, quatMult_add_left,
    getImagPart_add]

theorem rotate_smul_right {K : Type} [Field K] (mode : QuaternionMode) (c : K)
    (q : Fin 4 → K) (v : Fin 3 → K) :
    Rotate3VectorNode.evaluateImplementation mode q (c • v)
      = c • Rotate3VectorNode.evaluateImplementation mode q v := by
  unfold Rotate3VectorNode.evaluateImplementation
  rw [rotated_eq, rotated_eq, embedImag_smul, quatMult_smul_right, quatMult_smul_left,
    getImagPart_smul]

theorem rotate_add_left {K : Type} [Field K] (mode : QuaternionMode) (q t : Fin 4 → K)
    (v : Fin 3 → K) :
    Rotate3VectorNode.evaluateImplementation mode (q + t) v
      = Rotate3VectorNode.evaluateImplementation mode q v
        + Rotate3VectorNode.applyLhsDiff mode q v t
        + Rotate3VectorNode.evaluateImplementation mode t v := by
  unfold Rotate3VectorNode.evaluateImplementation Rotate3VectorNode.applyLhsDiff
  rw [rotated_eq, rotated_eq, rotated_eq, quatMultImagRhs_eq, quatMultImagRhs_eq,
    conjugate_add, quatMult_add_left, quatMult_add_left, quatMult_add_right,
    quatMult_add_right, getImagPart_add, getImagPart_add, getImagPart_add, getImagPart_add]
  abel

theorem rotate_lhsDiff_add {K : Type} [Field K] (mode : QuaternionMode) (q s t : Fin 4 → K)
    (v : Fin 3 → K) :
    Rotate3VectorNode.applyLhsDiff mode q v (s + t)
      = Rotate3VectorNode.applyLhsDiff mode q v s
        + Rotate3VectorNode.applyLhsDiff mode q v t := by
  unfold Rotate3VectorNode.applyLhsDiff
  simp only [quatMultImagRhs_eq, conjugate_add, quatMult_add_left, quatMult_add_right,
    getImagPart_add]
  abel

theorem rotate_lhsDiff_smul {K : Type} [Field K] (mode : QuaternionMode) (c : K)
    (q t : Fin 4 → K) (v : Fin 3 → K) :
    Rotate3VectorNode.applyLhsDiff mode q v (c • t)
      = c • Rotate3VectorNode.applyLhsDiff mode q v t := by
  unfold Rotate3VectorNode.applyLhsDiff
  simp only [quatMultImagRhs_eq, conjugate_smul, quatMult_smul_left, quatMult_smul_right,
    getImagPart_add, getImagPart_smul, smul_add]

theorem rotate_smul_left {K : Type} [Field K] (mode : QuaternionMode) (c : K)
    (t : Fin 4 → K) (v : Fin 3 → K) :
    Rotate3VectorNode.evaluateImplementation mode (c • t) v
      = (c * c) • Rotate3VectorNode.evaluateImplementation mode t v := by
  unfold Rotate3VectorNode.evaluateImplementation
  rw [rotated_eq, rotated_eq, conjugate_smul, quatMult_smul_left, quatMult_smul_left,
    quatMult_smul_right, getImagPart_smul, getImagPart_smul, smul_smul]

/-- C32: for every unit quaternion `q` (`q . q = 1`) and every vector `v` of three coefficients,
in every mode, the quaternion `q * v * conj(q)` that `rotate3Vector` computes has the real
coefficient 0 and its imaginary part, the value of the node, has the squared norm of `v`. The
value is linear in `v` and `applyRhsDiff(t)` is the rotation of `t`. For every tangent `t`, the
value at `q + t` is the value at `q` plus `applyLhsDiff(t)` plus the value at `t`, where
`applyLhsDiff` is linear in `t` and the value at `t` is of degree 2 in `t`. -/
theorem C32_rotate3Vector {K : Type} [Field K] (mode : QuaternionMode) (q : Fin 4 → K)
    (hq : dot q q = 1) (v w : Fin 3 → K) (s t : Fin 4 → K) (c : K) :
    (Rotate3VectorNode.rotated mode q v (getRealIndex mode) = 0 ∧
      Rotate3VectorNode.evaluateImplementation mode q v
        = getImagPart mode (Rotate3VectorNode.rotated mode q v) ∧
      squaredNorm3 (Rotate3VectorNode.evaluateImplementation mode q v) = squaredNorm3 v) ∧
    (Rotate3VectorNode.evaluateImplementation mode q (v + w)
        = Rotate3VectorNode.evaluateImplementation mode q v
          + Rotate3VectorNode.evaluateImplementation mode q w ∧
      Rotate3VectorNode.evaluateImplementation mode q (c • v)
        = c • Rotate3VectorNode.evaluateImplementation mode q v ∧
      Rotate3VectorNode.applyRhsDiff mode q w
        = Rotate3VectorNode.evaluateImplementation mode q w) ∧
    (Rotate3VectorNode.evaluateImplementation mode (q + t) v
        = Rotate3VectorNode.evaluateImplementation mode q v
          + Rotate3VectorNode.applyLhsDiff mode q v t
          + Rotate3VectorNode.evaluateImplementation mode t v ∧
      Rotate3VectorNode.applyLhsDiff mode q v (s + t)
        = Rotate3VectorNode.applyLhsDiff mode q v s
          + Rotate3VectorNode.applyLhsDiff mode q v t ∧
      Rotate3VectorNode.applyLhsDiff mode q v (c • t)
        = c • Rotate3VectorNode.applyLhsDiff mode q v t ∧
      Rotate3VectorNode.evaluateImplementation mode (c • t) v
        = (c * c) • Rotate3VectorNode.evaluateImplementation mode t v) := by
  refine ⟨⟨rotated_real mode q v, rfl, ?_⟩,
    ⟨rotate_add_right mode q v w, rotate_smul_right mode c q v, rfl⟩,
    ⟨rotate_add_left mode q t v, rotate_lhsDiff_add mode q s t v,
      rotate_lhsDiff_smul mode c q t v, rotate_smul_left mode c t v⟩⟩
  unfold Rotate3VectorNode.evaluateImplementation
  rw [squaredNorm3_getImagPart, rotated_real, rotated_dot, hq]
  ring

/-- Witness of C32 over the rationals, real coefficient first and traditional order: the unit
quaternion `3/5 + 4/5 i` turns the vector (0, 1, 0) into (0, -7/25, 24/25), of squared
norm 1. -/
theorem C32_rotate3Vector_witness :
    dot (![3 / 5, 4 / 5, 0, 0] : Fin 4 → ℚ) ![3 / 5, 4 / 5, 0, 0] = 1 ∧
    Rotate3VectorNode.evaluateImplementation ⟨true, true⟩ (![3 / 5, 4 / 5, 0, 0] : Fin 4 → ℚ)
      ![0, 1, 0] 1 = -7 / 25 ∧
    Rotate3VectorNode.evaluateImplementation ⟨true, true⟩ (![3 / 5, 4 / 5, 0, 0] : Fin 4 → ℚ)
      ![0, 1, 0] 2 = 24 / 25 ∧
    squaredNorm3 (Rotate3VectorNode.evaluateImplementation ⟨true, true⟩
      (![3 / 5, 4 / 5, 0, 0] : Fin 4 → ℚ) ![0, 1, 0]) = squaredNorm3 (![0, 1, 0] : Fin 3 → ℚ) :=
  ⟨by decide!, by decide!, by decide!,
    (C32_rotate3Vector ⟨true, true⟩ (![3 / 5, 4 / 5, 0, 0] : Fin 4 → ℚ) (by decide!)
      ![0, 1, 0] 0 0 0 0).1.2.2⟩

/-! ## The claim on `convertIntoMatrix` -/

/-- C37, as the code has it: `convertIntoMatrix` of `NullDifferential`, `IdentityDifferential`
and `MatrixDifferential`, and the method of the base class `ComposedDifferential`, give the
matrix whose column `i` is `applyBasisVectorInto(i)`, times the chain-rule matrix if there is
one. The override of `ComposedMatrixDifferential(M, next)` gives `M`, or the chain-rule matrix
times `M`, whatever `next` is: with `M = (3)` and the next differential of the matrix `(2)` it
gives `(3)` where `applyBasisVectorInto(0)` is `(6)`; it is the matrix by application when
`next` is an `IdentityDifferential`. -/
theorem C37_convertIntoMatrix {K : Type} [Field K] {n k r o : Nat}
    (d0 : NullDifferential K n r) (d1 : IdentityDifferential K n) (d2 : MatrixDifferential K n r)
    (d3 : ComposedMatrixDifferential K n k r) (CR : Matrix (Fin o) (Fin r) K)
    (CR1 : Matrix (Fin o) (Fin n) K) (CR3 : Matrix (Fin o) (Fin k) K) :
    (d0.convertIntoMatrix (none : Option (Matrix (Fin o) (Fin r) K))
        = calcJacobianByApplication d0.toDifferential ∧
      d0.convertIntoMatrix (some CR) = CR * calcJacobianByApplication d0.toDifferential) ∧
    (d1.convertIntoMatrix (none : Option (Matrix (Fin o) (Fin n) K))
        = calcJacobianByApplication d1.toDifferential ∧
      d1.convertIntoMatrix (some CR1) = CR1 * calcJacobianByApplication d1.toDifferential) ∧
    (d2.convertIntoMatrix (none : Option (Matrix (Fin o) (Fin r) K))
        = calcJacobianByApplication d2.toDifferential ∧
      d2.convertIntoMatrix (some CR) = CR * calcJacobianByApplication d2.toDifferential) ∧
    (ComposedDifferential.convertIntoMatrix d3 (none : Option (Matrix (Fin o) (Fin r) K))
        = calcJacobianByApplication d3.toDifferential ∧
      ComposedDifferential.convertIntoMatrix d3 (some CR)
        = CR * calcJacobianByApplication d3.toDifferential) ∧
    (d3.convertIntoMatrix (none : Option (Matrix (Fin o) (Fin k) K)) = d3._mat ∧
      d3.convertIntoMatrix (some CR3) = CR3 * d3._mat) ∧
    ((⟨!![3], MatrixDifferential.toDifferential ⟨!![2]⟩⟩ :
        ComposedMatrixDifferential ℚ 1 1 1).convertIntoMatrix
        (none : Option (Matrix (Fin 1) (Fin 1) ℚ)) 0 0 = 3 ∧
      calcJacobianByApplication (⟨!![3], MatrixDifferential.toDifferential ⟨!![2]⟩⟩ :
        ComposedMatrixDifferential ℚ 1 1 1).toDifferential 0 0 = 6) ∧
    (∀ M : Matrix (Fin k) (Fin n) K,
      (⟨M, IdentityDifferential.toDifferential ⟨⟩⟩ :
        ComposedMatrixDifferential K n k k).convertIntoMatrix
        (none : Option (Matrix (Fin o) (Fin k) K))
      = calcJacobianByApplication (⟨M, IdentityDifferential.toDifferential ⟨⟩⟩ :
        ComposedMatrixDifferential K n k k).toDifferential) := by
  refine ⟨⟨rfl, ?_⟩, ⟨?_, ?_⟩, ⟨rfl, rfl⟩, ⟨rfl, rfl⟩, ⟨rfl, rfl⟩, ⟨?_, ?_⟩, fun M => rfl⟩
  · show (0 : Matrix (Fin o) (Fin n) K) = CR * calcJacobianByApplication d0.toDifferential
    rw [calcJacobianByApplication_null, Matrix.mul_zero]
  · show (1 : Matrix (Fin n) (Fin n) K) = calcJacobianByApplication d1.toDifferential
    rw [calcJacobianByApplication_identity]
  · show CR1 = CR1 * calcJacobianByApplication d1.toDifferential
    rw [calcJacobianByApplication_identity, Matrix.mul_one]
  · show (!![3] : Matrix (Fin 1) (Fin 1) ℚ) 0 0 = 3
    simp
  · show (MatrixDifferential.toDifferential (⟨!![2]⟩ : MatrixDifferential ℚ 1 1)).applyInto
      (fun a => (!![3] : Matrix (Fin 1) (Fin 1) ℚ) a 0) 0 = 6
    simp [MatrixDifferential.toDifferential, MatrixDifferential.applyInto, Matrix.mulVec,
      Matrix.dotProduct]
    norm_num

/-! ## The claim on the reads of `updateImplementation` -/

theorem updateTraced_proj (U : Matrix (Fin 3) (Fin 3) ℚ) (dp : Nat → Option ℚ)
    (l : List (Fin 9)) :
    ∀ (A : Matrix (Fin 3) (Fin 3) (Option ℚ)) (j : Nat) (rs : List Nat),
      ((l.foldl (MatrixTransformation.updateStepTraced U dp) (A, j, rs)).1,
        (l.foldl (MatrixTransformation.updateStepTraced U dp) (A, j, rs)).2.1)
      = l.foldl (MatrixTransformation.updateStep U dp) (A, j) := by
  induction l with
  | nil =>
    intro A j rs
    rfl
  | cons x xs ih =>
    intro A j rs
    rw [List.foldl_cons, List.foldl_cons]
    by_cases hx : U (patternRow x) (patternCol x) = 1
    · simp only [MatrixTransformation.updateStepTraced, MatrixTransformation.updateStep, hx,
        if_true]
      exact ih _ _ _
    · simp only [MatrixTransformation.updateStepTraced, MatrixTransformation.updateStep, hx,
        if_false]
      exact ih _ _ _

theorem updateTraced_fold (U : Matrix (Fin 3) (Fin 3) ℚ) (dp : Nat → Option ℚ)
    (A : Matrix (Fin 3) (Fin 3) (Option ℚ)) (n : Nat) (hn : n ≤ 9) :
    (((List.finRange 9).take n).foldl (MatrixTransformation.updateStepTraced U dp)
        (A, 0, [])).2.1 = onesBefore U n ∧
    (((List.finRange 9).take n).foldl (MatrixTransformation.updateStepTraced U dp)
        (A, 0, [])).2.2 = (List.range n).map (onesBefore U) := by
  have hj : ∀ m, m ≤ 9 →
      (((List.finRange 9).take m).foldl (MatrixTransformation.updateStepTraced U dp)
        (A, 0, [])).2.1 = onesBefore U m := by
    intro m hm
    have h1 := congrArg Prod.snd (updateTraced_proj U dp ((List.finRange 9).take m) A 0 [])
    have h2 := congrArg Prod.snd (update_fold U dp A m hm)
    exact h1.trans h2
  refine ⟨hj n hn, ?_⟩
  induction n with
  | zero => rfl
  | succ n ih =>
    have h : n < 9 := by omega
    have i2 := hj n (by omega)
    have i3 := ih (by omega)
    rw [take_succ_finRange n h, List.foldl_append, List.foldl_cons, List.foldl_nil,
      List.range_succ, List.map_append, ← i3]
    by_cases hx : U (patternRow ⟨n, h⟩) (patternCol ⟨n, h⟩) = 1
    · simp only [MatrixTransformation.updateStepTraced, hx, if_true, i2, List.map_cons,
        List.map_nil]
    · simp only [MatrixTransformation.updateStepTraced, hx, if_false, i2, List.map_cons,
        List.map_nil]

theorem updateReads_eq (t : MatrixTransformation) (dp : Nat → Option ℚ) :
    t.updateReads dp = (List.range 9).map (onesBefore t._UpdatePattern) ∧
    ((List.finRange 9).foldl (MatrixTransformation.updateStepTraced t._UpdatePattern dp)
        (t._A, 0, [])).1
      = ((List.finRange 9).foldl (MatrixTransformation.updateStep t._UpdatePattern dp)
        (t._A, 0)).1 := by
  have h9 : (List.finRange 9).take 9 = List.finRange 9 := List.take_of_length_le (by simp)
  obtain ⟨_, h3⟩ := updateTraced_fold t._UpdatePattern dp t._A 9 (le_refl 9)
  rw [h9] at h3
  exact ⟨h3, congrArg Prod.fst (updateTraced_proj t._UpdatePattern dp (List.finRange 9) t._A 0 [])⟩

/-- C36, as the code has it: the loop of `updateImplementation` computes the same matrix as the
loop without the trace and reads `dp[j]` in each of its nine steps, in step `i` at `j` = the
number of entries 1 of the pattern before `i`. For an object built with the pattern `U`, all
these indices are below `minimalDimensions()` if and only if the last entry `U(2, 2)` is 1: with
the pattern of the entries 1 at (0, 0) and (1, 1) only, `minimalDimensions()` is 2 and the steps
5 to 8 read `dp[2]`, behind the end of an update vector of length 2. -/
theorem C36_update_reads (A U : Matrix (Fin 3) (Fin 3) ℚ)
    (B : Matrix (Fin 3) (Fin 3) (Option ℚ)) (dp : Nat → Option ℚ) :
    ((List.finRange 9).foldl (MatrixTransformation.updateStepTraced U dp) (B, 0, [])).1
      = ((List.finRange 9).foldl (MatrixTransformation.updateStep U dp) (B, 0)).1 ∧
    (MatrixTransformation.constructPattern A U).updateReads dp
      = (List.range 9).map (onesBefore U) ∧
    ((∀ j ∈ (MatrixTransformation.constructPattern A U).updateReads dp,
        (j : Int) < (MatrixTransformation.constructPattern A U).minimalDimensionsImplementation)
      ↔ U 2 2 = 1) ∧
    ((MatrixTransformation.constructPattern A
        !![1, 0, 0; 0, 1, 0; 0, 0, 0]).minimalDimensionsImplementation = 2 ∧
      (MatrixTransformation.constructPattern A !![1, 0, 0; 0, 1, 0; 0, 0, 0]).updateReads dp
        = [0, 1, 1, 1, 1, 2, 2, 2, 2]) := by
  have hreads := (updateReads_eq (MatrixTransformation.constructPattern A U) dp).1
  have hU : (MatrixTransformation.constructPattern A U)._UpdatePattern = U := rfl
  rw [hU] at hreads
  have hdim : (MatrixTransformation.constructPattern A U).minimalDimensionsImplementation
      = (onesBefore U 9 : Nat) := constructPattern_dimension A U
  have h8 : onesBefore U 9 = onesBefore U 8
      + (if U (patternRow ⟨8, by decide⟩) (patternCol ⟨8, by decide⟩) = 1 then 1 else 0) :=
    onesBefore_succ U 8 (by decide)
  have hrc : U (patternRow ⟨8, by decide⟩) (patternCol ⟨8, by decide⟩) = U 2 2 := rfl
  rw [hrc] at h8
  refine ⟨congrArg Prod.fst (updateTraced_proj U dp (List.finRange 9) B 0 []), hreads, ?_, ?_,
    ?_⟩
  · rw [hreads, hdim]
    constructor
    · intro h
      have hj := h (onesBefore U 8) (List.mem_map.mpr ⟨8, by simp, rfl⟩)
      have hj2 : onesBefore U 8 < onesBefore U 9 := by exact_mod_cast hj
      by_contra hne
      simp only [hne, if_false, Nat.add_zero] at h8
      omega
    · intro h j hj
      obtain ⟨i, hi, rfl⟩ := List.mem_map.mp hj
      have hi9 : i < 9 := List.mem_range.mp hi
      have hmono := onesBefore_mono U (show i ≤ 8 by omega)
      simp only [h, if_true] at h8
      have : onesBefore U i < onesBefore U 9 := by omega
      exact_mod_cast this
  · have h2 := constructPattern_dimension A !![1, 0, 0; 0, 1, 0; 0, 0, 0]
    have : onesBefore (!![1, 0, 0; 0, 1, 0; 0, 0, 0] : Matrix (Fin 3) (Fin 3) ℚ) 9 = 2 := by
      decide!
    rw [this] at h2
    exact h2
  · rw [(updateReads_eq _ dp).1]
    show (List.range 9).map (onesBefore (!![1, 0, 0; 0, 1, 0; 0, 0, 0] :
      Matrix (Fin 3) (Fin 3) ℚ)) = _
    decide!

/-! ## The claim on `updateConvergenceStatus` -/

/-- C40: `OptimizerBase::updateConvergenceStatus` sets the status by a fixed priority:
GRADIENT_NORM if `gradientNorm < convergenceGradientNorm`; otherwise DOBJECTIVE if
`|deltaError| < convergenceDeltaError`; otherwise DX if `maxDeltaX < convergenceDeltaX`;
otherwise the field `convergence` is left as it is. The options and the other fields of the
status are not changed, and a criterion whose threshold is 0 does not fire for non-negative
`gradientNorm`, `|deltaError|` and `maxDeltaX`. -/
theorem C40_updateConvergenceStatus (b : OptimizerBase) :
    (b.status.gradientNorm < b.options.convergenceGradientNorm →
      b.updateConvergenceStatus.status.convergence = ConvergenceStatus.GRADIENT_NORM) ∧
    (¬ b.status.gradientNorm < b.options.convergenceGradientNorm →
      |b.status.deltaError| < b.options.convergenceDeltaError →
      b.updateConvergenceStatus.status.convergence = ConvergenceStatus.DOBJECTIVE) ∧
    (¬ b.status.gradientNorm < b.options.convergenceGradientNorm →
      ¬ |b.status.deltaError| < b.options.convergenceDeltaError →
      b.status.maxDeltaX < b.options.convergenceDeltaX →
      b.updateConvergenceStatus.status.convergence = ConvergenceStatus.DX) ∧
    (¬ b.status.gradientNorm < b.options.convergenceGradientNorm →
      ¬ |b.status.deltaError| < b.options.convergenceDeltaError →
      ¬ b.status.maxDeltaX < b.options.convergenceDeltaX →
      b.updateConvergenceStatus = b) ∧
    (b.updateConvergenceStatus.options = b.options ∧
      b.updateConvergenceStatus.status
        = { b.status with convergence := b.updateConvergenceStatus.status.convergence }) ∧
    (b.options.convergenceGradientNorm = 0 → 0 ≤ b.status.gradientNorm →
      ¬ b.status.gradientNorm < b.options.convergenceGradientNorm) ∧
    (b.options.convergenceDeltaError = 0 →
      ¬ |b.status.deltaError| < b.options.convergenceDeltaError) ∧
    (b.options.convergenceDeltaX = 0 → 0 ≤ b.status.maxDeltaX →
      ¬ b.status.maxDeltaX < b.options.convergenceDeltaX) ∧
    (b.options.convergenceGradientNorm = 0 → b.options.convergenceDeltaError = 0 →
      b.options.convergenceDeltaX = 0 → 0 ≤ b.status.gradientNorm → 0 ≤ b.status.maxDeltaX →
      b.updateConvergenceStatus = b) := by
  have hfix : ¬ b.status.gradientNorm < b.options.convergenceGradientNorm →
      ¬ |b.status.deltaError| < b.options.convergenceDeltaError →
      ¬ b.status.maxDeltaX < b.options.convergenceDeltaX →
      b.updateConvergenceStatus = b := by
    intro h1 h2 h3
    simp [OptimizerBase.updateConvergenceStatus, h1, h2, h3]
  have z1 : b.options.convergenceGradientNorm = 0 → 0 ≤ b.status.gradientNorm →
      ¬ b.status.gradientNorm < b.options.convergenceGradientNorm := by
    intro h0 hn
    rw [h0]
    exact not_lt.mpr hn
  have z2 : b.options.convergenceDeltaError = 0 →
      ¬ |b.status.deltaError| < b.options.convergenceDeltaError := by
    intro h0
    rw [h0]
    exact not_lt.mpr (abs_nonneg _)
  have z3 : b.options.convergenceDeltaX = 0 → 0 ≤ b.status.maxDeltaX →
      ¬ b.status.maxDeltaX < b.options.convergenceDeltaX := by
    intro h0 hn
    rw [h0]
    exact not_lt.mpr hn
  refine ⟨?_, ?_, ?_, hfix, ⟨?_, ?_⟩, z1, z2, z3,
    fun a1 a2 a3 n1 n3 => hfix (z1 a1 n1) (z2 a2) (z3 a3 n3)⟩
  · intro h1
    simp [OptimizerBase.updateConvergenceStatus, h1]
  · intro h1 h2
    simp [OptimizerBase.updateConvergenceStatus, h1, h2]
  · intro h1 h2 h3
    simp [OptimizerBase.updateConvergenceStatus, h1, h2, h3]
  · unfold OptimizerBase.updateConvergenceStatus
    split_ifs <;> rfl
  · unfold OptimizerBase.updateConvergenceStatus
    split_ifs <;> rfl

/-! ## The claim on `sin` and `cos` -/

/-- C33: for every scalar expression `e` with the value `x`, over the real numbers with the
real sine and cosine for `std::sin` and `std::cos`: `sin(e)` evaluates to `sin(x)` and passes
the Jacobian container scaled by `cos(x)` to its child; `cos(e)` evaluates to `cos(x)` and
scales by `-sin(x)`. The factors are the derivatives of the evaluated functions at `x`, and by
the chain rule the derivative of the node along every differentiable value of the child; for a
leaf that adds the block `J` the accumulated blocks are those of adding `cos(x) * J` and
`-sin(x) * J`. The design variables
of the nodes are those of `e`. -/
theorem C33_sin_cos {DV : Type} [DecidableEq DV] {minimalDimensions : DV → Nat}
    {outRows : Nat} (e : ScalarExpression ℝ DV minimalDimensions)
    (jc : JacobianContainer ℝ DV minimalDimensions outRows 1) (designVariables : Finset DV)
    (dv : DV) (x : ℝ) (J : Matrix (Fin 1) (Fin (minimalDimensions dv)) ℝ) :
    ((sin Real.sin Real.cos e)._root.evaluate = Real.sin e._root.evaluate ∧
      (sin Real.sin Real.cos e).evaluateJacobians jc
        = e.evaluateJacobians (jc.applyScalar (Real.cos e._root.evaluate)) ∧
      (sin Real.sin Real.cos e).getDesignVariables designVariables
        = e.getDesignVariables designVariables) ∧
    ((cos Real.sin Real.cos e)._root.evaluate = Real.cos e._root.evaluate ∧
      (cos Real.sin Real.cos e).evaluateJacobians jc
        = e.evaluateJacobians (jc.applyScalar (-Real.sin e._root.evaluate)) ∧
      (cos Real.sin Real.cos e).getDesignVariables designVariables
        = e.getDesignVariables designVariables) ∧
    (HasDerivAt Real.sin (Real.cos e._root.evaluate) e._root.evaluate ∧
      HasDerivAt Real.cos (-Real.sin e._root.evaluate) e._root.evaluate ∧
      ∀ (f : ℝ → ℝ) (f1 p : ℝ), HasDerivAt f f1 p →
        HasDerivAt (fun y => Real.sin (f y)) (Real.cos (f p) * f1) p ∧
        HasDerivAt (fun y => Real.cos (f y)) (-Real.sin (f p) * f1) p) ∧
    (((sin Real.sin Real.cos (scalarLeaf dv x J)).evaluateJacobians jc).blocks
        = (jc.add dv (Real.cos x • J)).blocks ∧
      ((cos Real.sin Real.cos (scalarLeaf dv x J)).evaluateJacobians jc).blocks
        = (jc.add dv (-Real.sin x • J)).blocks) := by
  have hleaf : ∀ c : ℝ, ((jc.applyScalar c).add dv J).blocks = (jc.add dv (c • J)).blocks := by
    intro c
    simp only [JacobianContainer.applyScalar, JacobianContainer.add, Matrix.smul_mul,
      Matrix.mul_smul]
  exact ⟨⟨rfl, rfl, rfl⟩, ⟨rfl, rfl, rfl⟩,
    ⟨Real.hasDerivAt_sin _, Real.hasDerivAt_cos _, fun f f1 p hf => ⟨hf.sin, hf.cos⟩⟩,
    hleaf (Real.cos x), hleaf (-Real.sin x)⟩

/-! ## The first iteration after `reset` -/

theorem list_eq_of_coeff (a b : List ℚ) (hl : a.length = b.length)
    (h : ∀ d, d < a.length → coeff a d = coeff b d) : a = b := by
  apply List.ext_getElem hl
  intro d h1 h2
  have := h d h1
  simp only [coeff, List.getD_eq_getElem _ _ h1, List.getD_eq_getElem _ _ h2] at this
  exact this

theorem switch_flags_reset (n : Nat) (g : List ℚ) (hg : g.length = n) :
    (cwiseProduct (Constant n 0) g).map (fun p => decide (p > 0)) = List.replicate n false ∧
    (cwiseProduct (Constant n 0) g).map (fun p => decide (p < 0)) = List.replicate n false := by
  have hz : cwiseProduct (Constant n 0) g = List.replicate n 0 := by
    apply List.ext_getElem
    · simp [cwiseProduct, Constant, hg]
    · intro d h1 h2
      simp [cwiseProduct, Constant]
  rw [hz]
  constructor <;> simp

theorem first_iteration_core {X : Type} (P : ProblemManager X) (s : OptimizerRprop X)
    (hsize : (s.gradient P).length = P.numOptParameters) :
    ((s.reset P).stepped P).delta = Constant P.numOptParameters s.options.initialDelta ∧
    ((s.reset P).stepped P).dx
      = (s.gradient P).map (fun g => -(sign g) * s.options.initialDelta) := by
  have hgr : (s.reset P).gradient P = s.gradient P := rfl
  have hf := stepped_frame P (s.reset P)
  have hdl : (s.reset P).delta.length = P.numOptParameters := by
    simp [OptimizerRprop.reset, Constant]
  have hxl : (s.reset P).dx.length = P.numOptParameters := by
    simp [OptimizerRprop.reset, Constant]
  have hco : ∀ d, d < P.numOptParameters →
      coeff ((s.reset P).stepped P).delta d = s.options.initialDelta ∧
      coeff ((s.reset P).stepped P).dx d
        = -(sign (coeff (s.gradient P) d)) * s.options.initialDelta := by
    intro d hd
    obtain ⟨h1, h2, _⟩ := stepped_coeff P (s.reset P) d hd (by rw [hdl]; exact hd)
      (by rw [hxl]; exact hd) (by rw [hgr, hsize]; exact hd)
    have hp : coeff (s.reset P).prev_gradient d = 0 := coeff_Constant _ _ _ hd
    have hd0 : coeff (s.reset P).delta d = s.options.initialDelta := coeff_Constant _ _ _ hd
    have hdelta : coeff ((s.reset P).stepped P).delta d = s.options.initialDelta := by
      rw [h1, hp, hd0]
      simp [newDelta]
    refine ⟨hdelta, ?_⟩
    rw [h2, hp, hdelta, hgr]
    have ho : (s.reset P).options = s.options := rfl
    rw [ho]
    simp only [zero_mul, lt_self_iff_false, decide_False, newDx]
    cases s.options.method <;> simp
  constructor
  · apply list_eq_of_coeff
    · rw [hf.2.2.2.1, hdl]
      simp [Constant]
    · intro d hd
      rw [hf.2.2.2.1, hdl] at hd
      rw [(hco d hd).1, coeff_Constant _ _ _ hd]
  · apply list_eq_of_coeff
    · rw [hf.2.2.2.2.1, hxl]
      simp [hsize]
    · intro d hd
      rw [hf.2.2.2.2.1, hxl] at hd
      rw [(hco d hd).2]
      have hd2 : d < (s.gradient P).length := by rw [hsize]; exact hd
      simp [coeff, List.getD_eq_getElem, hd2]

/-- C34: on the first iteration after `reset`, when it passes the gradient-norm check and the
gradient has the size `numOptParameters()`: the iteration continues with the loop over the
dimensions, no dimension is flagged in `switchNo` or in `switchYes`, every `delta(d)` stays
`initialDelta` and `dx(d) = -sign(gradient(d)) * initialDelta`, whatever the method is, so that
the four methods give the same `delta` and `dx`; the flag `errorIncreased` is false when the
objective is at most the largest finite double. -/
theorem C34_first_iteration {X : Type} (P : ProblemManager X) (s : OptimizerRprop X)
    (hsize : (s.gradient P).length = P.numOptParameters)
    (hpass : ¬ (s.reset P).gradientNormConverged P) :
    (s.reset P).iteration P = OptimizerRprop.checkDx P ((s.reset P).stepped P) ∧
    (cwiseProduct (s.reset P).prev_gradient ((s.reset P).gradient P)).map
        (fun p => decide (p > 0)) = List.replicate P.numOptParameters false ∧
    (cwiseProduct (s.reset P).prev_gradient ((s.reset P).gradient P)).map
        (fun p => decide (p < 0)) = List.replicate P.numOptParameters false ∧
    ((s.reset P).stepped P).delta = Constant P.numOptParameters s.options.initialDelta ∧
    ((s.reset P).stepped P).dx
      = ((s.reset P).gradient P).map (fun g => -(sign g) * s.options.initialDelta) ∧
    (∀ d, d < P.numOptParameters →
      coeff ((s.reset P).stepped P).delta d = s.options.initialDelta ∧
      coeff ((s.reset P).stepped P).dx d
        = -(sign (coeff ((s.reset P).gradient P) d)) * s.options.initialDelta) ∧
    (∀ m : Method,
      ((OptimizerRprop.reset P { s with options := { s.options with method := m } }).stepped
          P).delta = ((s.reset P).stepped P).delta ∧
      ((OptimizerRprop.reset P { s with options := { s.options with method := m } }).stepped
          P).dx = ((s.reset P).stepped P).dx) ∧
    (P.evaluateError s.x ≤ numeric_limits_max → (s.reset P).errorIncreased P = false) := by
  have hgr : (s.reset P).gradient P = s.gradient P := rfl
  obtain ⟨hdelta, hdx⟩ := first_iteration_core P s hsize
  obtain ⟨hno, hyes⟩ := switch_flags_reset P.numOptParameters (s.gradient P) hsize
  refine ⟨iteration_of_pass P _ hpass, hno, hyes, hdelta, ?_, ?_, ?_, ?_⟩
  · rw [hgr]; exact hdx
  · intro d hd
    have hd2 : d < (s.gradient P).length := by rw [hsize]; exact hd
    rw [hdelta, hdx, hgr, coeff_Constant _ _ _ hd]
    refine ⟨rfl, ?_⟩
    simp [coeff, List.getD_eq_getElem, hd2]
  · intro m
    obtain ⟨h1, h2⟩ := first_iteration_core P
      { s with options := { s.options with method := m } } hsize
    rw [h1, h2, hdelta, hdx]
    exact ⟨rfl, rfl⟩
  · intro he
    simp only [OptimizerRprop.errorIncreased, OptimizerRprop.computeError]
    split
    · have hpe : ((s.reset P).countGradient P).prev_error = numeric_limits_max := rfl
      have hx : ((s.reset P).countGradient P).x = s.x := rfl
      simp only [hpe, hx, decide_eq_false_iff_not, not_lt]
      linarith
    · rfl

theorem C34_first_iteration_witness :
    ((quadraticFresh Method.IRPROP_PLUS 5).gradient quadratic).length
      = quadratic.numOptParameters ∧
    ¬ ((quadraticFresh Method.IRPROP_PLUS 5).reset quadratic).gradientNormConverged quadratic ∧
    (((quadraticFresh Method.IRPROP_PLUS 5).reset quadratic).stepped quadratic).delta = [3, 3] ∧
    (((quadraticFresh Method.IRPROP_PLUS 5).reset quadratic).stepped quadratic).dx = [3, -3] ∧
    (((quadraticFresh Method.RPROP_PLUS 5).reset quadratic).stepped quadratic).dx = [3, -3] ∧
    ((quadraticFresh Method.IRPROP_PLUS 5).reset quadratic).errorIncreased quadratic
      = false := by
  have hsize : ((quadraticFresh Method.IRPROP_PLUS 5).gradient quadratic).length
      = quadratic.numOptParameters := rfl
  have hpass : ¬ ((quadraticFresh Method.IRPROP_PLUS 5).reset quadratic).gradientNormConverged
      quadratic := by decide!
  obtain ⟨_, _, _, h4, h5, _, h7, h8⟩ :=
    C34_first_iteration quadratic (quadraticFresh Method.IRPROP_PLUS 5) hsize hpass
  have hg : ((quadraticFresh Method.IRPROP_PLUS 5).reset quadratic).gradient quadratic
      = [-2, 20] := by decide!
  have he : quadratic.evaluateError (quadraticFresh Method.IRPROP_PLUS 5).x
      ≤ numeric_limits_max := by decide!
  refine ⟨hsize, hpass, ?_, ?_, ?_, h8 he⟩
  · rw [h4]; decide!
  · rw [h5, hg]; decide!
  · have := (h7 Method.RPROP_PLUS).2
    have hq : ({ quadraticFresh Method.IRPROP_PLUS 5 with
        options := { (quadraticFresh Method.IRPROP_PLUS 5).options with
          method := Method.RPROP_PLUS } } : OptimizerRprop (List ℚ))
        = quadraticFresh Method.RPROP_PLUS 5 := rfl
    rw [hq] at this
    rw [this, h5, hg]; decide!

/-! ## The convergence status that `optimize` returns -/

theorem runNext_convergence {X : Type} (P : ProblemManager X) (k : Nat) :
    ∀ (s t : OptimizerRprop X), OptimizerRprop.runNext P k s = some t →
      t.returnValue.convergence = s.returnValue.convergence ∧ t.options = s.options := by
  induction k with
  | zero =>
    intro s t h
    simp only [OptimizerRprop.runNext, Option.some.injEq] at h
    rw [← h]
    exact ⟨rfl, rfl⟩
  | succ k ih =>
    intro s t h
    unfold OptimizerRprop.runNext at h
    cases hi : s.iteration P with
    | error e => simp [hi] at h
    | ok r =>
      cases r with
      | brk s1 => simp [hi] at h
      | next s1 =>
        simp only [hi] at h
        obtain ⟨h1, h2⟩ := ih s1 t h
        obtain ⟨h3, h4, _⟩ := iteration_next_inv P s s1 hi
        exact ⟨h1.trans h4, h2.trans h3⟩

theorem runNext_succ_of_next {X : Type} (P : ProblemManager X) (k : Nat)
    (s s1 : OptimizerRprop X) (hi : s.iteration P = Except.ok (LoopControl.next s1)) :
    OptimizerRprop.runNext P (k + 1) s = OptimizerRprop.runNext P k s1 := by
  conv_lhs => unfold OptimizerRprop.runNext
  simp only [hi]

theorem optimizeLoop_cases {X : Type} (P : ProblemManager X) (fuel : Nat) :
    ∀ (cnt : Nat) (s t : OptimizerRprop X),
      OptimizerRprop.optimizeLoop P fuel cnt s = Except.ok t →
      (∃ k, OptimizerRprop.runNext P k s = some t) ∨
      (∃ k u, OptimizerRprop.runNext P k s = some u ∧
        u.iteration P = Except.ok (LoopControl.brk t)) := by
  induction fuel with
  | zero =>
    intro cnt s t h
    unfold OptimizerRprop.optimizeLoop at h
    by_cases hc : s.options.maxIterations = -1 ∨ cnt < static_cast_size_t s.options.maxIterations
    · simp [hc] at h
    · simp only [hc, if_false, Except.ok.injEq] at h
      exact Or.inl ⟨0, by rw [← h]; rfl⟩
  | succ fuel ih =>
    intro cnt s t h
    unfold OptimizerRprop.optimizeLoop at h
    by_cases hc : s.options.maxIterations = -1 ∨ cnt < static_cast_size_t s.options.maxIterations
    · simp only [hc, if_true] at h
      cases hi : s.iteration P with
      | error e => simp [hi] at h
      | ok r =>
        cases r with
        | brk s1 =>
          simp only [hi, Except.ok.injEq] at h
          exact Or.inr ⟨0, s, rfl, by rw [hi, h]⟩
        | next s1 =>
          simp only [hi] at h
          rcases ih _ s1 t h with ⟨k, hk⟩ | ⟨k, u, hk, hu⟩
          · exact Or.inl ⟨k + 1, by rw [runNext_succ_of_next P k s s1 hi]; exact hk⟩
          · exact Or.inr ⟨k + 1, u, by rw [runNext_succ_of_next P k s s1 hi]; exact hk, hu⟩
    · simp only [hc, if_false, Except.ok.injEq] at h
      exact Or.inl ⟨0, by rw [← h]; rfl⟩

theorem iteration_brk_cases {X : Type} (P : ProblemManager X) (s t : OptimizerRprop X)
    (h : s.iteration P = Except.ok (LoopControl.brk t)) :
    (s.gradientNormConverged P ∧
      t.returnValue.convergence = ConvergenceCriterion.GRADIENT_NORM ∧
      t.returnValue.gradientNorm = some (norm (s.gradient P))) ∨
    (¬ s.gradientNormConverged P ∧ t.returnValue.convergence = ConvergenceCriterion.DX ∧
      ∃ m, maxCoeff (cwiseAbs (s.stepped P).dx) = some m ∧ m < s.options.convergenceDx ∧
        t.returnValue.maxDx = some m) := by
  by_cases hg : s.gradientNormConverged P
  · left
    rw [iteration_of_converged P s hg] at h
    simp only [Except.ok.injEq, LoopControl.brk.injEq] at h
    rw [← h]
    exact ⟨hg, rfl, rfl⟩
  · right
    rw [iteration_of_pass P s hg] at h
    have ho : (s.stepped P).options = s.options := (stepped_frame P s).1
    cases hm : maxCoeff (cwiseAbs (s.stepped P).dx) with
    | none =>
      unfold OptimizerRprop.checkDx at h
      simp [hm] at h
    | some m =>
      by_cases hlt : m < (s.stepped P).options.convergenceDx
      · rw [checkDx_brk P _ m hm hlt] at h
        simp only [Except.ok.injEq, LoopControl.brk.injEq] at h
        rw [← h]
        exact ⟨hg, rfl, m, rfl, by rw [← ho]; exact hlt, rfl⟩
      · rw [checkDx_next P _ m hm hlt] at h
        simp at h

/-- C35 (counterexample): with `maxIterations = 1` on the residual problem, the first call of
`optimize` leaves the loop in its first iteration with the status DX, since the step 9/10000 is
below `convergenceDx`. The second call, on the initialized optimizer without a reset, executes
one iteration, which passes the gradient-norm check and computes the largest step 27/25000,
not below `convergenceDx`; the loop ends by the bound on the iterations and the call returns
the status DX of the first call. -/
theorem C35_counterexample :
    ({ residualOptions (9 / 10000) (1 / 100000) 5 with maxIterations := 1 } :
      OptimizerRpropOptions ℚ).check = Except.ok () ∧
    ∃ t1 t2 : OptimizerRprop ℚ,
      (∀ fuel, 1 ≤ fuel →
        (residualFresh { residualOptions (9 / 10000) (1 / 100000) 5 with
          maxIterations := 1 }).optimize (residualProblem 2) fuel = Except.ok t1) ∧
      t1.isInitialized = true ∧
      t1.returnValue.convergence = ConvergenceCriterion.DX ∧
      t1.returnValue.nIterations = 1 ∧
      (∀ fuel, 1 ≤ fuel → t1.optimize (residualProblem 2) fuel = Except.ok t2) ∧
      t2.returnValue.convergence = ConvergenceCriterion.DX ∧
      t2.returnValue.nIterations = 2 ∧
      ¬ t1.gradientNormConverged (residualProblem 2) ∧
      maxCoeff (cwiseAbs (t1.stepped (residualProblem 2)).dx) = some (27 / 25000) ∧
      t2.returnValue.maxDx = some (27 / 25000) ∧
      ¬ (27 / 25000 : ℚ) < t1.options.convergenceDx := by
  refine ⟨?_, ?_⟩
  · rw [check_ok_iff]
    norm_num [residualOptions]
  · have hev : (((residualFresh { residualOptions (9 / 10000) (1 / 100000) 5 with
          maxIterations := 1 }).optimize (residualProblem 2) 1).bind (fun t1 =>
          (t1.optimize (residualProblem 2) 1).map (fun t2 =>
            decide (t1.isInitialized = true ∧
              t1.returnValue.convergence = ConvergenceCriterion.DX ∧
              t1.returnValue.nIterations = 1 ∧
              t2.returnValue.convergence = ConvergenceCriterion.DX ∧
              t2.returnValue.nIterations = 2 ∧
              ¬ t1.gradientNormConverged (residualProblem 2) ∧
              maxCoeff (cwiseAbs (t1.stepped (residualProblem 2)).dx) = some (27 / 25000) ∧
              t2.returnValue.maxDx = some (27 / 25000) ∧
              ¬ (27 / 25000 : ℚ) < t1.options.convergenceDx)))).toOption = some true := by
      decide!
    cases h1 : (residualFresh { residualOptions (9 / 10000) (1 / 100000) 5 with
        maxIterations := 1 }).optimize (residualProblem 2) 1 with
    | error e =>
      rw [h1] at hev
      simp [Except.bind, Except.toOption] at hev
    | ok t1 =>
      rw [h1] at hev
      cases h2 : t1.optimize (residualProblem 2) 1 with
      | error e =>
        simp [Except.bind, Except.map, Except.toOption, h2] at hev
      | ok t2 =>
        simp only [Except.bind, Except.map, Except.toOption, h2, Option.some.injEq,
          decide_eq_true_eq] at hev
        obtain ⟨a1, a2, a3, a4, a5, a6, a7, a8, a9⟩ := hev
        refine ⟨t1, t2, ?_, a1, a2, a3, ?_, a4, a5, a6, a7, a8, a9⟩
        · intro fuel hf
          exact optimizeLoop_fuel_le (residualProblem 2) 1 fuel 0 _ t1 hf h1
        · intro fuel hf
          exact optimizeLoop_fuel_le (residualProblem 2) 1 fuel 0 _ t2 hf h2

/-- C35 (amended): whenever `optimize` returns with the status DX, either an iteration of that
call left the loop by `break` after it passed the gradient-norm check and computed a largest
step below `convergenceDx`, or no iteration of that call left the loop by `break` and the
status was DX already when the loop was entered; whenever it returns with the status
GRADIENT_NORM, either an iteration of that call left the loop by `break` with a gradient norm
below `convergenceGradientNorm`, or no iteration left the loop by `break` and the status was
GRADIENT_NORM already. The iteration that leaves the loop by `break` is the last one that the
call executes. When the status is IN_PROGRESS at the entry of the loop the first alternative
holds in both cases, and the status is IN_PROGRESS there when the call finds the optimizer
not initialized. -/
theorem C35_convergence_status {X : Type} (P : ProblemManager X) (fuel : Nat)
    (s t : OptimizerRprop X) (h : s.optimize P fuel = Except.ok t) :
    (t.returnValue.convergence = ConvergenceCriterion.DX →
      (∃ k u m, OptimizerRprop.runNext P k (s.ensureInitialized P) = some u ∧
        u.iteration P = Except.ok (LoopControl.brk t) ∧ ¬ u.gradientNormConverged P ∧
        maxCoeff (cwiseAbs (u.stepped P).dx) = some m ∧ m < u.options.convergenceDx ∧
        t.returnValue.maxDx = some m) ∨
      ((s.ensureInitialized P).returnValue.convergence = ConvergenceCriterion.DX ∧
        ∃ k, OptimizerRprop.runNext P k (s.ensureInitialized P) = some t)) ∧
    (t.returnValue.convergence = ConvergenceCriterion.GRADIENT_NORM →
      (∃ k u, OptimizerRprop.runNext P k (s.ensureInitialized P) = some u ∧
        u.iteration P = Except.ok (LoopControl.brk t) ∧ u.gradientNormConverged P ∧
        t.returnValue.gradientNorm = some (norm (u.gradient P))) ∨
      ((s.ensureInitialized P).returnValue.convergence = ConvergenceCriterion.GRADIENT_NORM ∧
        ∃ k, OptimizerRprop.runNext P k (s.ensureInitialized P) = some t)) ∧
    ((s.ensureInitialized P).returnValue.convergence = ConvergenceCriterion.IN_PROGRESS →
      (t.returnValue.convergence = ConvergenceCriterion.DX →
        ∃ k u m, OptimizerRprop.runNext P k (s.ensureInitialized P) = some u ∧
          u.iteration P = Except.ok (LoopControl.brk t) ∧ ¬ u.gradientNormConverged P ∧
          maxCoeff (cwiseAbs (u.stepped P).dx) = some m ∧ m < u.options.convergenceDx ∧
          t.returnValue.maxDx = some m) ∧
      (t.returnValue.convergence = ConvergenceCriterion.GRADIENT_NORM →
        ∃ k u, OptimizerRprop.runNext P k (s.ensureInitialized P) = some u ∧
          u.iteration P = Except.ok (LoopControl.brk t) ∧ u.gradientNormConverged P ∧
          t.returnValue.gradientNorm = some (norm (u.gradient P)))) ∧
    (s.isInitialized = false →
      (s.ensureInitialized P).returnValue.convergence = ConvergenceCriterion.IN_PROGRESS) := by
  have hdx : t.returnValue.convergence = ConvergenceCriterion.DX →
      (∃ k u m, OptimizerRprop.runNext P k (s.ensureInitialized P) = some u ∧
        u.iteration P = Except.ok (LoopControl.brk t) ∧ ¬ u.gradientNormConverged P ∧
        maxCoeff (cwiseAbs (u.stepped P).dx) = some m ∧ m < u.options.convergenceDx ∧
        t.returnValue.maxDx = some m) ∨
      ((s.ensureInitialized P).returnValue.convergence = ConvergenceCriterion.DX ∧
        ∃ k, OptimizerRprop.runNext P k (s.ensureInitialized P) = some t) := by
    intro hc
    rcases optimizeLoop_cases P fuel 0 _ t h with ⟨k, hk⟩ | ⟨k, u, hk, hu⟩
    · exact Or.inr ⟨by rw [← (runNext_convergence P k _ t hk).1]; exact hc, k, hk⟩
    · rcases iteration_brk_cases P u t hu with ⟨_, h2, _⟩ | ⟨h1, _, m, h3, h4, h5⟩
      · rw [h2] at hc
        cases hc
      · exact Or.inl ⟨k, u, m, hk, hu, h1, h3, h4, h5⟩
  have hgn : t.returnValue.convergence = ConvergenceCriterion.GRADIENT_NORM →
      (∃ k u, OptimizerRprop.runNext P k (s.ensureInitialized P) = some u ∧
        u.iteration P = Except.ok (LoopControl.brk t) ∧ u.gradientNormConverged P ∧
        t.returnValue.gradientNorm = some (norm (u.gradient P))) ∨
      ((s.ensureInitialized P).returnValue.convergence = ConvergenceCriterion.GRADIENT_NORM ∧
        ∃ k, OptimizerRprop.runNext P k (s.ensureInitialized P) = some t) := by
    intro hc
    rcases optimizeLoop_cases P fuel 0 _ t h with ⟨k, hk⟩ | ⟨k, u, hk, hu⟩
    · exact Or.inr ⟨by rw [← (runNext_convergence P k _ t hk).1]; exact hc, k, hk⟩
    · rcases iteration_brk_cases P u t hu with ⟨h1, _, h3⟩ | ⟨_, h2, _⟩
      · exact Or.inl ⟨k, u, hk, hu, h1, h3⟩
      · rw [h2] at hc
        cases hc
  refine ⟨hdx, hgn, ?_, ?_⟩
  · intro h0
    constructor
    · intro hc
      rcases hdx hc with h1 | ⟨h1, _⟩
      · exact h1
      · rw [h0] at h1
        cases h1
    · intro hc
      rcases hgn hc with h1 | ⟨h1, _⟩
      · exact h1
      · rw [h0] at h1
        cases h1
  · intro hi
    simp [OptimizerRprop.ensureInitialized, hi, OptimizerRprop.init, OptimizerRprop.reset,
      RpropReturnValue.reset]

theorem C35_convergence_status_witness :
    ∃ t : OptimizerRprop ℚ,
      (residualFresh (residualOptions (1 / 10000) (1 / 100000) 5)).optimize (residualProblem 2) 1
        = Except.ok t ∧
      t.returnValue.convergence = ConvergenceCriterion.DX ∧
      ∃ k u m,
        OptimizerRprop.runNext (residualProblem 2) k
          ((residualFresh (residualOptions (1 / 10000) (1 / 100000) 5)).ensureInitialized
            (residualProblem 2)) = some u ∧
        u.iteration (residualProblem 2) = Except.ok (LoopControl.brk t) ∧
        ¬ u.gradientNormConverged (residualProblem 2) ∧
        maxCoeff (cwiseAbs (u.stepped (residualProblem 2)).dx) = some m ∧
        m < u.options.convergenceDx ∧ t.returnValue.maxDx = some m := by
  have hev : ((residualFresh (residualOptions (1 / 10000) (1 / 100000) 5)).optimize
      (residualProblem 2) 1).toOption.map (fun t => t.returnValue.convergence)
      = some ConvergenceCriterion.DX := by decide!
  cases h : (residualFresh (residualOptions (1 / 10000) (1 / 100000) 5)).optimize
      (residualProblem 2) 1 with
  | error e =>
    rw [h] at hev
    simp [Except.toOption] at hev
  | ok t =>
    rw [h] at hev
    simp only [Except.toOption, Option.map_some', Option.some.injEq] at hev
    obtain ⟨_, _, h3, h4⟩ := C35_convergence_status (residualProblem 2) 1
      (residualFresh (residualOptions (1 / 10000) (1 / 100000) 5)) t h
    exact ⟨t, rfl, hev, (h3 (h4 rfl)).1 hev⟩

/-! ## The residual problem, end to end: what holds in double precision -/

end aslam.backend
